import Mathlib

/-!
# Jira plugin core: instance registry, resolver and REST client facade

A shallow embedding of `server/instances.go` and `server/client.go`.

* Go pointers to registry members are modelled by the member's key: writing
  through the pointer returned by `Get(id)` is `ValueSet.modify` at `id`.
* A Go function that mutates the registry in place and returns an `error`
  is a function returning the registry afterwards together with the error.
* Go `error` values are the inductive `GoError`; `nil` is `none`.
-/

namespace Jira

/-! ## Errors -/

/-- Go error values as they occur in the embedded code. -/
inductive GoError where
  /-- The sentinel `kvstore.ErrNotFound`. -/
  | ErrNotFound : GoError
  /-- Built by `errors.New(msg)` or `errors.Errorf(...)`. -/
  | New (msg : String) : GoError
  /-- Built by `errors.Wrap(cause, msg)` or `errors.Wrapf(cause, ...)`. -/
  | Wrap (cause : GoError) (msg : String) : GoError
  /-- An error handed back by a collaborator (store, URL parser, HTTP transport). -/
  | External (msg : String) : GoError
  /-- A `*jira.Error`: the text of the transport error it carries, the field errors
  (in iteration order) and the free-text messages. -/
  | JiraError (HTTPError : String) (Errors : List (String × String))
      (ErrorMessages : List String) : GoError
  /-- A `RESTError{error, Status}`. -/
  | RESTError (inner : GoError) (Status : Int) : GoError
  deriving DecidableEq, Repr

/-- The root of a chain of `errors.Wrap` calls (`errors.Cause`). -/
def GoError.Cause : GoError → GoError
  | .Wrap cause _ => cause.Cause
  | e => e

/-- An error is a NotFound error when its cause is `kvstore.ErrNotFound`. -/
def GoError.IsNotFound (e : GoError) : Bool := decide (e.Cause = GoError.ErrNotFound)

/-! ## Data model -/

/-- Keys are `types.ID`, a string type. -/
abbrev ID := String

/-- The identity record of one installed upstream connection. -/
structure InstanceCommon where
  InstanceID : ID
  Alias : String
  /-- The field `Type` of the source (an `InstanceType`, a string type). -/
  InstanceType : String
  IsV2Legacy : Bool
  deriving DecidableEq, Repr

/-- Modelled from the spec: `types.ValueSet`, which lives in package `types`
outside the files embedded here. The spec (4.1) gives it as an ordered collection keyed by ID with
`Get`, `Set` (insert or overwrite by key, first-seen order kept for new keys),
`Delete`, `Contains`, `IDs`, `Len` and `IsEmpty`. It is instantiated at
`InstanceCommon` only, so the model is the list of members in insertion order,
each member keyed by its own `InstanceID`. -/
abbrev ValueSet := List InstanceCommon

/-- Modelled from the spec: `ValueSet.IDs`, the ordered sequence of keys. -/
def ValueSet.IDs (set : ValueSet) : List ID := set.map (fun v => v.InstanceID)

/-- Modelled from the spec: `ValueSet.Len`. -/
def ValueSet.Len (set : ValueSet) : Nat := set.length

/-- Modelled from the spec: `ValueSet.IsEmpty`. -/
def ValueSet.IsEmpty (set : ValueSet) : Bool := set.isEmpty

/-- Modelled from the spec: `ValueSet.Contains`. -/
def ValueSet.Contains (set : ValueSet) (id : ID) : Bool := decide (id ∈ ValueSet.IDs set)

/-- Modelled from the spec: `ValueSet.Get`, the member stored under `id`, or not-found. -/
def ValueSet.Get : ValueSet → ID → Option InstanceCommon
  | [], _ => none
  | v :: rest, id => if v.InstanceID = id then some v else ValueSet.Get rest id

/-- Modelled from the spec: `ValueSet.Set`, insert or overwrite by key; an overwritten
member keeps its place, a new key goes last. -/
def ValueSet.Set : ValueSet → InstanceCommon → ValueSet
  | [], v => [v]
  | w :: rest, v => if w.InstanceID = v.InstanceID then v :: rest else w :: ValueSet.Set rest v

/-- Modelled from the spec: `ValueSet.Delete`, remove the member stored under `id`. -/
def ValueSet.Delete (set : ValueSet) (id : ID) : ValueSet :=
  set.filter (fun v => decide (v.InstanceID ≠ id))

/-- A write through the pointer that `Get(id)` returns: the member stored under `id`
is replaced by its image under `f`; nothing happens when `id` is absent. -/
def ValueSet.modify : ValueSet → ID → (InstanceCommon → InstanceCommon) → ValueSet
  | [], _, _ => []
  | v :: rest, id, f => if v.InstanceID = id then f v :: rest else v :: ValueSet.modify rest id f

/-- The registry of installed instances: a `ValueSet` of `InstanceCommon`. -/
abbrev Instances := ValueSet

/-- The source's `NewInstances(initial...)`. -/
def NewInstances (initial : List InstanceCommon) : Instances :=
  initial.foldl (fun instances ic => ValueSet.Set instances ic) []

/-- The source's `Instances.IsEmpty` on a non-nil registry. -/
def Instances.IsEmpty (instances : Instances) : Bool := ValueSet.IsEmpty instances

/-- The source's `Instances.Set`. -/
def Instances.Set (instances : Instances) (ic : InstanceCommon) : Instances :=
  ValueSet.Set instances ic

/-- The loop of `GetV2Legacy` over the IDs: the first member whose flag is set. -/
def Instances.firstV2Legacy (instances : Instances) : List ID → Option InstanceCommon
  | [] => none
  | id :: ids =>
    match ValueSet.Get instances id with
    | some inst =>
      if inst.IsV2Legacy then some inst else Instances.firstV2Legacy instances ids
    | none => Instances.firstV2Legacy instances ids

/-- The source's `Instances.GetV2Legacy`. -/
def Instances.GetV2Legacy (instances : Instances) : Option InstanceCommon :=
  if Instances.IsEmpty instances then none
  else Instances.firstV2Legacy instances (ValueSet.IDs instances)

/-- The tables of `strconv.IsPrint` for the characters above U+00FF. They follow the
Unicode version of the Go release, so they are left open: `IsPrint r` tells whether the
character `r` above U+00FF is printable. -/
class UnicodeTables where
  IsPrint : Char → Bool

/-- The digit `lowerhex[n]` of package `strconv`. -/
def lowerhex (n : Nat) : Char := "0123456789abcdef".data.getD n '0'

/-- Go's `strconv.IsPrint`: up to U+00FF it is decided on the spot (the space to `~`,
and `¡` to `ÿ` without the soft hyphen), above by the tables. -/
def strconvIsPrint [UnicodeTables] (r : Char) : Bool :=
  if r.toNat ≤ 0xFF then
    if 0x20 ≤ r.toNat ∧ r.toNat ≤ 0x7E then true
    else if 0xA1 ≤ r.toNat ∧ r.toNat ≤ 0xFF then decide (r.toNat ≠ 0xAD)
    else false
  else UnicodeTables.IsPrint r

/-- The function `appendEscapedRune` of package `strconv` for the quote `"`: the quote
and the backslash get a backslash in front, a printable character stands for itself,
`\a \b \f \n \r \t \v` are written so, any other character below the space and DEL
as `\x` with two hex digits, and any other character as `\u` with four or `\U` with
eight hex digits. -/
def strconvEscapedRune [UnicodeTables] (r : Char) : List Char :=
  if r.toNat = 0x22 ∨ r.toNat = 0x5C then [Char.ofNat 0x5C, r]
  else if strconvIsPrint r then [r]
  else if r.toNat = 0x07 then [Char.ofNat 0x5C, 'a']
  else if r.toNat = 0x08 then [Char.ofNat 0x5C, 'b']
  else if r.toNat = 0x0C then [Char.ofNat 0x5C, 'f']
  else if r.toNat = 0x0A then [Char.ofNat 0x5C, 'n']
  else if r.toNat = 0x0D then [Char.ofNat 0x5C, 'r']
  else if r.toNat = 0x09 then [Char.ofNat 0x5C, 't']
  else if r.toNat = 0x0B then [Char.ofNat 0x5C, 'v']
  else if r.toNat < 0x20 ∨ r.toNat = 0x7F then
    [Char.ofNat 0x5C, 'x', lowerhex (r.toNat / 16 % 16), lowerhex (r.toNat % 16)]
  else if r.toNat < 0x10000 then
    [Char.ofNat 0x5C, 'u', lowerhex (r.toNat / 4096 % 16), lowerhex (r.toNat / 256 % 16),
      lowerhex (r.toNat / 16 % 16), lowerhex (r.toNat % 16)]
  else
    [Char.ofNat 0x5C, 'U', lowerhex (r.toNat / 268435456 % 16),
      lowerhex (r.toNat / 16777216 % 16), lowerhex (r.toNat / 1048576 % 16),
      lowerhex (r.toNat / 65536 % 16), lowerhex (r.toNat / 4096 % 16),
      lowerhex (r.toNat / 256 % 16), lowerhex (r.toNat / 16 % 16), lowerhex (r.toNat % 16)]

/-- The verb `%q` of Go on a string, which is `strconv.Quote`: the escaped characters
between two quotes. A string here is a sequence of characters, so the bytes that are no
valid UTF-8, which `Quote` writes as `\x`, do not occur. -/
def quoted [UnicodeTables] (s : String) : String :=
  String.mk (Char.ofNat 0x22 :: (s.data.map strconvEscapedRune).flatten ++ [Char.ofNat 0x22])

/-- The error `errors.Wrapf(kvstore.ErrNotFound, "instance %q", instanceID)`. -/
def instanceNotFound [UnicodeTables] (instanceID : ID) : GoError :=
  GoError.Wrap GoError.ErrNotFound ("instance " ++ quoted instanceID)

/-- The source's `Instances.SetV2Legacy`: the registry afterwards and the returned error. -/
def Instances.SetV2Legacy [UnicodeTables] (instances : Instances) (instanceID : ID) :
    Instances × Option GoError :=
  if !ValueSet.Contains instances instanceID then
    (instances, some (instanceNotFound instanceID))
  else
    let cleared :=
      match Instances.GetV2Legacy instances with
      | some prev => ValueSet.modify instances prev.InstanceID
          (fun v => { v with IsV2Legacy := false })
      | none => instances
    (ValueSet.modify cleared instanceID (fun v => { v with IsV2Legacy := true }), none)

/-- The source's `Instances.getByAlias`. -/
def Instances.getByAlias (instances : Instances) (aliasName : String) :
    Option InstanceCommon :=
  if aliasName = "" then none
  else
    (ValueSet.IDs instances).findSome? (fun id =>
      match ValueSet.Get instances id with
      | some inst => if inst.Alias = aliasName then some inst else none
      | none => none)

/-- The source's `Instances.checkIfExists`. -/
def Instances.checkIfExists (instances : Instances) (instanceID : ID) : Bool :=
  (ValueSet.IDs instances).any (fun id => decide (id = instanceID))

/-- Keys are unique: the representation invariant of a registry. -/
def Instances.WF (instances : Instances) : Prop := (ValueSet.IDs instances).Nodup

/-- The number of members whose `IsV2Legacy` flag is set. -/
def Instances.legacyCount (instances : Instances) : Nat :=
  instances.countP (fun v => v.IsV2Legacy)

/-- At most one member holds the legacy flag. -/
def Instances.AtMostOneLegacy (instances : Instances) : Prop :=
  Instances.legacyCount instances ≤ 1

instance (instances : Instances) : Decidable (Instances.WF instances) := by
  unfold Instances.WF; infer_instance

instance (instances : Instances) : Decidable (Instances.AtMostOneLegacy instances) := by
  unfold Instances.AtMostOneLegacy; infer_instance

/-! ## The plugin and its collaborators -/

/-- The text of an error, `err.Error()`. A `*jira.Error` prints its first message,
else its first field error, each followed by the transport error. -/
def GoError.Error : GoError → String
  | .ErrNotFound => "not found"
  | .New msg => msg
  | .Wrap cause msg => msg ++ ": " ++ cause.Error
  | .External msg => msg
  | .JiraError HTTPError Errors ErrorMessages =>
    match ErrorMessages, Errors with
    | m :: _, _ => m ++ ": " ++ HTTPError
    | [], (k, v) :: _ => k ++ " - " ++ v ++ ": " ++ HTTPError
    | [], [] => HTTPError
  | .RESTError inner _ => inner.Error

/-- Go's `strings.Contains(s, substr)`. -/
def stringsContains (s substr : String) : Bool := decide (substr.data <:+: s.data)

/-- Modelled from the spec: the `Instance` interface, declared outside the files
embedded here. An instance carries its `InstanceCommon` record (`Common()`);
its `GetID()` is the `InstanceID` of that record. -/
structure Instance where
  Common : InstanceCommon
  deriving DecidableEq, Repr

/-- Modelled from the spec: `Instance.GetID`. -/
def Instance.GetID (i : Instance) : ID := i.Common.InstanceID

/-- Modelled from the spec: the `User` record (3): the instances the user has
authorized and the optional default. A nil `ConnectedInstances` is the empty registry. -/
structure User where
  MattermostUserID : ID
  ConnectedInstances : Instances
  DefaultInstanceID : ID
  deriving DecidableEq, Repr

/-- The calls the plugin makes on its collaborators, as they are recorded in the trace. -/
inductive Effect where
  | StoreInstance (i : Instance) : Effect
  | StoreInstances (instances : Instances) : Effect
  | DeleteInstance (instanceID : ID) : Effect
  | disconnectUser (instanceID : ID) (mattermostUserID : ID) : Effect
  | registerJiraCommand (enableAutocomplete : Bool) (additionalHelpText : Bool) : Effect
  | errorf (msg : String) : Effect
  | infof (msg : String) : Effect
  | wsInstancesChanged (instances : Instances) : Effect
  deriving DecidableEq, Repr

/-- Which calls on the collaborators fail, and with which error. -/
structure Faults where
  LoadInstances : Option GoError
  StoreInstances : Option GoError
  LoadInstance : Option GoError
  StoreInstance : Option GoError
  DeleteInstance : Option GoError
  MapUsers : Option GoError
  disconnectUser : Option GoError
  registerJiraCommand : Option GoError
  deriving DecidableEq, Repr

/-- No collaborator call fails. -/
def Faults.none : Faults := ⟨.none, .none, .none, .none, .none, .none, .none, .none⟩

/-- The plugin with the state of its collaborators: the capability oracle, the
configuration, the instance store (the persisted registry and the per-instance
records), the user store, and the trace of the calls made so far. -/
structure Plugin where
  HasEnterpriseFeatures : Bool
  EnableAutocomplete : Bool
  /-- The registry as persisted in the instance store. -/
  instances : Instances
  /-- The per-instance records of the instance store. -/
  records : List Instance
  users : List User
  faults : Faults
  trace : List Effect
  deriving DecidableEq, Repr

/-- A Go call either returns or aborts with a runtime panic (a nil dereference). -/
inductive Go (α : Type) where
  | ret (a : α) : Go α
  | panic : Go α
  deriving DecidableEq, Repr

/-- Record a call in the trace. -/
def Plugin.emit (p : Plugin) (e : Effect) : Plugin := { p with trace := p.trace ++ [e] }

/-- Modelled from the spec: `instanceStore.LoadInstances` (6). -/
def Plugin.LoadInstances (p : Plugin) : Except GoError Instances :=
  match p.faults.LoadInstances with
  | some err => .error err
  | none => .ok p.instances

/-- Modelled from the spec: `instanceStore.StoreInstances` (6). -/
def Plugin.StoreInstances (p : Plugin) (instances : Instances) : Plugin × Option GoError :=
  let p1 := p.emit (.StoreInstances instances)
  match p.faults.StoreInstances with
  | some err => (p1, some err)
  | none => ({ p1 with instances := instances }, none)

/-- Modelled from the spec: `instanceStore.LoadInstance` (6); a record that is gone
gives a NotFound error. -/
def Plugin.LoadInstance (p : Plugin) (instanceID : ID) : Except GoError Instance :=
  match p.faults.LoadInstance with
  | some err => .error err
  | none =>
    match p.records.find? (fun r => decide (r.GetID = instanceID)) with
    | some r => .ok r
    | none => .error (GoError.Wrap GoError.ErrNotFound ("failed to load instance " ++ instanceID))

/-- Modelled from the spec: `instanceStore.StoreInstance` (6). -/
def Plugin.StoreInstance (p : Plugin) (i : Instance) : Plugin × Option GoError :=
  let p1 := p.emit (.StoreInstance i)
  match p.faults.StoreInstance with
  | some err => (p1, some err)
  | none =>
    ({ p1 with records := p1.records.filter (fun r => decide (r.GetID ≠ i.GetID)) ++ [i] }, none)

/-- Modelled from the spec: `instanceStore.DeleteInstance` (6). -/
def Plugin.DeleteInstance (p : Plugin) (instanceID : ID) : Plugin × Option GoError :=
  let p1 := p.emit (.DeleteInstance instanceID)
  match p.faults.DeleteInstance with
  | some err => (p1, some err)
  | none => ({ p1 with records := p1.records.filter (fun r => decide (r.GetID ≠ instanceID)) }, none)

/-- Modelled from the spec: `registerJiraCommand`, a call on the host platform. -/
def Plugin.registerJiraCommand (p : Plugin) (enableAutocomplete additionalHelpText : Bool) :
    Plugin × Option GoError :=
  (p.emit (.registerJiraCommand enableAutocomplete additionalHelpText),
    p.faults.registerJiraCommand)

/-- The source's `wsInstancesChanged`: the broadcast of the instance list. -/
def Plugin.wsInstancesChanged (p : Plugin) (instances : Instances) : Plugin :=
  p.emit (.wsInstancesChanged instances)

/-- What a callback of `UpdateInstances` leaves behind: the collaborators, the registry
behind the pointer it was given (`none` for a nil pointer), the variables of the
enclosing function it assigned, and its error. -/
structure Mutated (σ : Type) where
  plugin : Plugin
  instances : Option Instances
  captured : σ
  err : Option GoError

/-- Modelled from the spec: one load-mutate-store cycle of `UpdateInstances` (4.2): load
the snapshot, run the callback on it, and persist the snapshot only if the callback
returned no error. The callback is always given a registry, never nil. The repetition
of the cycle after a conflicting concurrent write is outside the embedding. The
result carries the variables the callback assigned (`none` when it never ran). -/
def UpdateInstances {σ : Type} (p : Plugin)
    (updatef : Plugin → Option Instances → Go (Mutated σ)) :
    Plugin × Go (Option σ × Option GoError) :=
  match p.LoadInstances with
  | .error err => (p, .ret (none, some err))
  | .ok instances =>
    match updatef p (some instances) with
    | .panic => (p, .panic)
    | .ret m =>
      match m.err, m.instances with
      | some err, _ => (m.plugin, .ret (some m.captured, some err))
      | none, some snapshot =>
        let r := m.plugin.StoreInstances snapshot
        (r.1, .ret (some m.captured, r.2))
      | none, none => (m.plugin, .panic)

/-- The constant `licenseErrorString`. -/
def licenseErrorString : String :=
  "You need a valid Mattermost Professional, Enterprise or Enterprise Advanced License to install multiple Jira instances."

/-- The callback that `InstallInstance` hands to `UpdateInstances`; it assigns the
variable `updated`. -/
def InstallInstance.updatef (newInstance : Instance) (p : Plugin) :
    Option Instances → Go (Mutated (Option Instances))
  | none => .ret ⟨p, none, none,
      some (GoError.New "received nil 'instances' in UpdateInstances callback")⟩
  | some instances =>
    if !p.HasEnterpriseFeatures && decide ((ValueSet.IDs instances).length > 0)
        && !Instances.checkIfExists instances newInstance.GetID then
      .ret ⟨p, some instances, none, some (GoError.New licenseErrorString)⟩
    else
      match p.StoreInstance newInstance with
      | (p1, some err) =>
        .ret ⟨p1, some instances, none, some (GoError.Wrap err "failed to store new instance")⟩
      | (p1, none) =>
        let instances1 := Instances.Set instances newInstance.Common
        .ret ⟨p1, some instances1, some instances1, none⟩

/-- The tail shared by `InstallInstance` and `UninstallInstance`: re-register the
command sized to `updated.Len()` (a failure is only logged) and broadcast. A nil
`updated` is dereferenced by `updated.Len()`. -/
def Plugin.reRegister (p : Plugin) (caller : String) (updated : Option Instances) :
    Plugin × Go Unit :=
  match updated with
  | none => (p, .panic)
  | some u =>
    let r := p.registerJiraCommand p.EnableAutocomplete (decide (ValueSet.Len u > 1))
    let p2 := match r.2 with
      | some err => r.1.emit (.errorf (caller ++ ": failed to re-register `/jira` command; please re-activate the plugin using the System Console. Error: " ++ err.Error))
      | none => r.1
    (p2.wsInstancesChanged u, .ret ())

/-- The source's `Plugin.InstallInstance`. -/
def Plugin.InstallInstance (p : Plugin) (newInstance : Instance) : Plugin × Go (Option GoError) :=
  match UpdateInstances p (InstallInstance.updatef newInstance) with
  | (p1, .panic) => (p1, .panic)
  | (p1, .ret (_, some err)) => (p1, .ret (some err))
  | (p1, .ret (captured, none)) =>
    match p1.reRegister "InstallInstance" (captured.bind id) with
    | (p2, .panic) => (p2, .panic)
    | (p2, .ret _) => (p2, .ret none)

/-- Modelled from the spec: `disconnectUser`, defined outside the files embedded here: the user's
membership in the instance ends, and a default pointing at it is cleared. -/
def Plugin.disconnectUser (p : Plugin) (i : Instance) (user : User) : Plugin × Option GoError :=
  let p1 := p.emit (.disconnectUser i.GetID user.MattermostUserID)
  match p.faults.disconnectUser with
  | some err => (p1, some err)
  | none =>
    ({ p1 with users := p1.users.map (fun u =>
        if u.MattermostUserID = user.MattermostUserID then
          { u with
            ConnectedInstances := ValueSet.Delete u.ConnectedInstances i.GetID
            DefaultInstanceID := if u.DefaultInstanceID = i.GetID then "" else u.DefaultInstanceID }
        else u) }, none)

/-- The loop of `MapUsers`: apply `f` to each user, stopping at the first error. -/
def Plugin.mapUsersLoop (f : Plugin → User → Plugin × Option GoError) :
    Plugin → List User → Plugin × Option GoError
  | p, [] => (p, none)
  | p, user :: rest =>
    match f p user with
    | (p1, some err) => (p1, some err)
    | (p1, none) => Plugin.mapUsersLoop f p1 rest

/-- Modelled from the spec: `userStore.MapUsers` (6): iterate all users, applying `f`. -/
def Plugin.MapUsers (p : Plugin) (f : Plugin → User → Plugin × Option GoError) :
    Plugin × Option GoError :=
  match p.faults.MapUsers with
  | some err => (p, some err)
  | none => Plugin.mapUsersLoop f p p.users

/-- The function `UninstallInstance` hands to `MapUsers`: disconnect the user if
connected to the instance; a failure is logged and the iteration goes on. -/
def UninstallInstance.mapf (i : Instance) (p : Plugin) (user : User) : Plugin × Option GoError :=
  if !ValueSet.Contains user.ConnectedInstances i.GetID then (p, none)
  else
    match p.disconnectUser i user with
    | (p1, some err) =>
      (p1.emit (.infof ("UninstallInstance: failed to disconnect user: " ++ err.Error)), none)
    | (p1, none) => (p1, none)

/-- The callback that `UninstallInstance` hands to `UpdateInstances`; it assigns the
variables `instance` and `updated`. -/
def UninstallInstance.updatef [UnicodeTables] (instanceID : ID) (instanceType : String) (p : Plugin) :
    Option Instances → Go (Mutated (Option Instance × Option Instances))
  | none => .panic
  | some instances =>
    if !ValueSet.Contains instances instanceID then
      .ret ⟨p, some instances, (none, none), some (instanceNotFound instanceID)⟩
    else
      match p.LoadInstance instanceID with
      | .error err =>
        if stringsContains err.Error "not found" then
          let instances1 := ValueSet.Delete instances instanceID
          match p.StoreInstances instances1 with
          | (p1, some err1) => .ret ⟨p1, some instances1, (none, none), some err1⟩
          | (p1, none) => .ret ⟨p1, some instances1, (none, none), none⟩
        else
          .ret ⟨p, some instances, (none, none), some err⟩
      | .ok i =>
        if instanceType ≠ i.Common.InstanceType then
          .ret ⟨p, some instances, (some i, none),
            some (GoError.New (instanceType ++ " did not match instance " ++ instanceID
              ++ " type " ++ i.Common.InstanceType))⟩
        else
          match p.MapUsers (UninstallInstance.mapf i) with
          | (p1, some err) => .ret ⟨p1, some instances, (some i, none), some err⟩
          | (p1, none) =>
            let instances1 := ValueSet.Delete instances instanceID
            let r := p1.DeleteInstance instanceID
            .ret ⟨r.1, some instances1, (some i, some instances1), r.2⟩

/-- The source's `Plugin.UninstallInstance`. -/
def Plugin.UninstallInstance [UnicodeTables] (p : Plugin) (instanceID : ID) (instanceType : String) :
    Plugin × Go (Option Instance × Option GoError) :=
  match UpdateInstances p (UninstallInstance.updatef instanceID instanceType) with
  | (p1, .panic) => (p1, .panic)
  | (p1, .ret (_, some err)) => (p1, .ret (none, some err))
  | (p1, .ret (captured, none)) =>
    match p1.reRegister "UninstallInstance" (captured.bind (fun c => c.2)) with
    | (p2, .panic) => (p2, .panic)
    | (p2, .ret _) => (p2, .ret (captured.bind (fun c => c.1), none))

/-- The source's `Plugin.StoreV2LegacyInstance`. -/
def Plugin.StoreV2LegacyInstance [UnicodeTables] (p : Plugin) (id : ID) : Plugin × Go (Option GoError) :=
  match UpdateInstances p (fun p instances =>
      match instances with
      | none => (Go.panic : Go (Mutated Unit))
      | some instances =>
        let r := Instances.SetV2Legacy instances id
        .ret ⟨p, some r.1, (), r.2⟩) with
  | (p1, .panic) => (p1, .panic)
  | (p1, .ret (_, err)) => (p1, .ret err)

/-! ## Sample data -/

/-- Instance `A`, holder of the legacy flag. -/
def sampleA : InstanceCommon := ⟨"A", "", "server", true⟩

/-- Instance `B`, without the flag. -/
def sampleB : InstanceCommon := ⟨"B", "", "server", false⟩

/-- Instance `C`, carrying the flag on arrival. -/
def sampleC : InstanceCommon := ⟨"C", "", "cloud", true⟩

/-- A plugin with the capability, holding the registry `[A]`, no faults, empty trace. -/
def samplePlugin : Plugin :=
  ⟨true, true, [sampleA], [⟨sampleA⟩], [], Faults.none, []⟩

/-! ## The instance resolver -/

deriving instance DecidableEq for Except

/-- The error of a user without connected instances. -/
def errNotConnected : GoError :=
  GoError.Wrap GoError.ErrNotFound
    "your account is not connected to Jira. Please use `/jira connect`"

/-- The error of a resolution that found no default. -/
def errNoDefault : GoError :=
  GoError.New
    "default jira instance not found, please run `/jira instance default <jiraURL>` to set one"

/-- The source's `Plugin.resolveUserInstanceURL`. `NormalizeJiraURL` (package `utils`,
outside the files embedded here) is a parameter. A nil `ConnectedInstances` counts as
empty, as `Instances.IsEmpty` has it. -/
def Plugin.resolveUserInstanceURL (NormalizeJiraURL : String → Except GoError String)
    (p : Plugin) (user : User) (instanceURL : String) : Except GoError ID :=
  if Instances.IsEmpty user.ConnectedInstances then .error errNotConnected
  else
    match (if instanceURL ≠ "" then NormalizeJiraURL instanceURL else .ok instanceURL) with
    | .error err => .error err
    | .ok instanceURL =>
      match p.LoadInstances with
      | .error err => .error (GoError.Wrap err "failed to load instances")
      | .ok instances =>
        let instanceURL :=
          match Instances.getByAlias instances instanceURL with
          | some inst => inst.InstanceID
          | none => instanceURL
        if instanceURL ≠ "" then .ok instanceURL
        else if user.DefaultInstanceID ≠ "" ∧
            ValueSet.Contains user.ConnectedInstances user.DefaultInstanceID = true then
          .ok user.DefaultInstanceID
        else if h : ValueSet.Len user.ConnectedInstances = 1 then
          .ok ((ValueSet.IDs user.ConnectedInstances).get
            ⟨0, by simp [ValueSet.IDs, ValueSet.Len] at h ⊢; omega⟩)
        else .error errNoDefault

/-- The source's `Plugin.ResolveWebhookInstanceURL`. -/
def Plugin.ResolveWebhookInstanceURL (NormalizeJiraURL : String → Except GoError String)
    (p : Plugin) (instanceURL : String) : Except GoError ID :=
  match (if instanceURL ≠ "" then NormalizeJiraURL instanceURL else .ok instanceURL) with
  | .error err => .error err
  | .ok instanceID =>
    if instanceID = "" then
      match p.LoadInstances with
      | .error err => .error err
      | .ok instances =>
        if Instances.IsEmpty instances then
          .error (GoError.Wrap GoError.ErrNotFound "no instances installed")
        else
          match Instances.GetV2Legacy instances with
          | some v2 => .ok v2.InstanceID
          | none =>
            if h : ValueSet.Len instances = 1 then
              .ok ((ValueSet.IDs instances).get
                ⟨0, by simp [ValueSet.IDs, ValueSet.Len] at h ⊢; omega⟩)
            else .error (GoError.Wrap GoError.ErrNotFound "specify a Jira instance")
    else .ok instanceID

/-- The reference definition of the webhook resolution, after the words of the spec
(4.3): a non-empty hint is normalized and used directly as the ID; for an empty hint
the resolution fails if the registry is empty, else it is the legacy-flagged instance
if one exists, else the sole installed instance if exactly one exists, else it fails
with the NotFound error asking to specify an instance. -/
def ResolveWebhookInstanceURL_reference (NormalizeJiraURL : String → Except GoError String)
    (instances : Instances) (hint : String) : Except GoError ID :=
  if hint ≠ "" then NormalizeJiraURL hint
  else if instances = [] then
    .error (GoError.Wrap GoError.ErrNotFound "no instances installed")
  else
    match instances.find? (fun v => v.IsV2Legacy), instances with
    | some v2, _ => .ok v2.InstanceID
    | none, [sole] => .ok sole.InstanceID
    | none, _ => .error (GoError.Wrap GoError.ErrNotFound "specify a Jira instance")

/-- A normalizer for the samples: it puts the scheme in front, the canonical form of a
bare host name. -/
def sampleHttps (s : String) : Except GoError String := .ok ("https://" ++ s)

/-- A normalizer for the samples: it leaves its argument as it is. -/
def sampleNormalize (s : String) : Except GoError String := .ok s

/-- Instance `X`, known under the alias `prod`. -/
def sampleX : InstanceCommon := ⟨"X", "prod", "cloud", false⟩

/-- An instance whose ID is the string `prod`. -/
def sampleProd : InstanceCommon := ⟨"prod", "", "server", false⟩

/-- Instance `X`, known under the alias `https://prod`. -/
def sampleXUrl : InstanceCommon := ⟨"X", "https://prod", "cloud", false⟩

/-- An instance whose ID is the string `https://prod`. -/
def sampleProdUrl : InstanceCommon := ⟨"https://prod", "", "server", false⟩

/-- A user connected to `A` and `B`, with default `A`. -/
def sampleUser : User := ⟨"user", [sampleA, sampleB], "A"⟩


/-! ## The REST client facade -/

/-- A `*jira.Response`, as far as the facade reads it: the status code and the body. -/
structure Response where
  StatusCode : Int
  Body : String
  deriving DecidableEq, Repr

/-- The outcome of a call on the upstream client library (`client.Jira...`): the
decoded value, the response (`none` for nil) and the error (`none` for nil). -/
structure Upstream (α : Type) where
  value : α
  resp : Option Response
  err : Option GoError

/-- Continue with the returned value of a Go call; a panic goes through. -/
def Go.map {α β : Type} (f : α → β) : Go α → Go β
  | .ret a => .ret (f a)
  | .panic => .panic

/-- Whether an error implements `StatusCoder`: of the errors at hand only `RESTError`
has the method `StatusCode() int`. -/
def GoError.implementsStatusCoder : GoError → Bool
  | .RESTError _ _ => true
  | _ => false

/-- The source's `StatusCode(err)`. -/
def StatusCode : Option GoError → Int
  | none => 200
  | some (.RESTError _ Status) => Status
  | some _ => 500

/-- The result the error normalization invariant asks for: no error, or an error that
implements `StatusCoder`. -/
def noErrorOrStatusCoder : Option GoError → Bool
  | none => true
  | some err => err.implementsStatusCoder

/-- A `*jira.Error` without field errors and without messages. -/
def GoError.isEmptyJiraError : GoError → Bool
  | .JiraError _ [] [] => true
  | _ => false

/-- The part of `userFriendlyJiraError` that follows the type assertions: `err` is the
error at that point and `Errors`, `ErrorMessages` the fields of the `*jira.Error` it
is. With both empty, `resp.StatusCode` is read without a nil check. -/
def userFriendlyJiraError.format (resp : Option Response) (err : GoError)
    (Errors : List (String × String)) (ErrorMessages : List String) : Go GoError :=
  if Errors.length = 0 ∧ ErrorMessages.length = 0 then
    match resp with
    | some r => .ret (GoError.RESTError err r.StatusCode)
    | none => .panic
  else
    let message := Errors.foldl (fun message kv =>
      message ++ (" - " ++ kv.1 ++ ": " ++ kv.2 ++ "\n")) ""
    let message := ErrorMessages.foldl (fun message m =>
      message ++ (" - " ++ m ++ "\n")) message
    match resp with
    | some r => .ret (GoError.RESTError (GoError.New message) r.StatusCode)
    | none => .ret (GoError.RESTError (GoError.New message) 0)

/-- The source's `userFriendlyJiraError`. `jira.NewJiraError`, of the upstream client
library, is a parameter. -/
def userFriendlyJiraError (NewJiraError : Response → GoError → GoError)
    (resp : Option Response) (err : GoError) : Go GoError :=
  match err with
  | .JiraError _ Errors ErrorMessages =>
    userFriendlyJiraError.format resp err Errors ErrorMessages
  | _ =>
    match resp with
    | none => .ret (GoError.RESTError err 500)
    | some r =>
      match NewJiraError r err with
      | .JiraError HTTPError Errors ErrorMessages =>
        userFriendlyJiraError.format resp (.JiraError HTTPError Errors ErrorMessages)
          Errors ErrorMessages
      | err1 => .ret (GoError.RESTError err1 r.StatusCode)

/-- The source's `endpointURL`. `url.Parse` (here: the scheme it finds, or its error)
and `path.Join` are parameters. -/
def endpointURL (urlParse : String → Except GoError String)
    (pathJoin : String → String → String) (endpoint : String) : Except GoError String :=
  match urlParse endpoint with
  | .error err => .error err
  | .ok scheme => if scheme = "" then .ok (pathJoin "/rest/api" endpoint) else .ok endpoint

/-- The source's `JiraClient.RESTGet`. `NewRequest` gives the error of
`client.Jira.NewRequest`, `call` is the outcome of `client.Jira.Do`. -/
def JiraClient.RESTGet (NewJiraError : Response → GoError → GoError)
    (urlParse : String → Except GoError String) (pathJoin : String → String → String)
    (NewRequest : String → String → Option GoError) (call : Upstream Unit)
    (endpoint : String) : Go (Option GoError) :=
  match endpointURL urlParse pathJoin endpoint with
  | .error err => .ret (some err)
  | .ok url =>
    match NewRequest "GET" url with
    | some err => .ret (some err)
    | none =>
      match call.err with
      | some err => (userFriendlyJiraError NewJiraError call.resp err).map some
      | none => .ret none

/-- The outcomes of the steps of an attachment upload that precede and make the HTTP
call: `CreateFormFile`, `io.Copy`, `NewMultiPartRequest`, and `client.Jira.Do` with the
decoded array of attachments. -/
structure Upload (α : Type) where
  CreateFormFile : Option GoError
  Copy : Option GoError
  NewMultiPartRequest : Option GoError
  Do : Upstream (List α)

/-- The source's `JiraClient.RESTPostAttachment`. `jsonUnmarshal` decodes an error body
into the field errors and messages of a `jira.Error`, or fails (`none`). -/
def JiraClient.RESTPostAttachment {α : Type} (NewJiraError : Response → GoError → GoError)
    (urlParse : String → Except GoError String) (pathJoin : String → String → String)
    (jsonUnmarshal : String → Option (List (String × String) × List String))
    (upload : Upload α) (issueID : String) : Go (Option α × Option GoError) :=
  match endpointURL urlParse pathJoin ("2/issue/" ++ issueID ++ "/attachments") with
  | .error err => .ret (none, some err)
  | .ok _ =>
    match upload.CreateFormFile with
    | some err => .ret (none, some err)
    | none =>
      match upload.Copy with
      | some err => .ret (none, some err)
      | none =>
        match upload.NewMultiPartRequest with
        | some err => .ret (none, some err)
        | none =>
          match upload.Do.err with
          | some err =>
            match upload.Do.resp with
            | none => .ret (none, some err)
            | some resp =>
              match jsonUnmarshal resp.Body with
              | some (Errors, ErrorMessages) =>
                (userFriendlyJiraError NewJiraError none
                  (.JiraError "" Errors ErrorMessages)).map
                  (fun err1 => (none, some (GoError.RESTError err1 resp.StatusCode)))
              | none =>
                .ret (none, some (GoError.RESTError (GoError.New (" - " ++ resp.Body))
                  resp.StatusCode))
          | none =>
            if h : upload.Do.value.length ≠ 1 then
              .ret (none, some (GoError.New
                ("expected 1 attachment, got " ++ toString upload.Do.value.length)))
            else
              .ret (some (upload.Do.value.get ⟨0, by omega⟩), none)

/-- The source's `JiraClient.GetProject`; `call` is the outcome of `Project.Get`. -/
def JiraClient.GetProject {α : Type} (NewJiraError : Response → GoError → GoError)
    (call : Upstream α) : Go (Option α × Option GoError) :=
  match call.err with
  | some err =>
    (userFriendlyJiraError NewJiraError call.resp err).map (fun e => (none, some e))
  | none => .ret (some call.value, none)

/-- The source's `JiraClient.GetIssue`; `call` is the outcome of `Issue.Get`. -/
def JiraClient.GetIssue {α : Type} (NewJiraError : Response → GoError → GoError)
    (call : Upstream α) : Go (Option α × Option GoError) :=
  match call.err with
  | some err =>
    (userFriendlyJiraError NewJiraError call.resp err).map (fun e => (none, some e))
  | none => .ret (some call.value, none)

/-- The source's `JiraClient.GetTransitions`; `call` is the outcome of
`Issue.GetTransitions`. -/
def JiraClient.GetTransitions {α : Type} (NewJiraError : Response → GoError → GoError)
    (call : Upstream α) : Go (Option α × Option GoError) :=
  match call.err with
  | some err =>
    (userFriendlyJiraError NewJiraError call.resp err).map (fun e => (none, some e))
  | none => .ret (some call.value, call.err)

/-- The source's `JiraClient.CreateIssue`; `call` is the outcome of `Issue.Create`. -/
def JiraClient.CreateIssue {α : Type} (NewJiraError : Response → GoError → GoError)
    (call : Upstream α) : Go (Option α × Option GoError) :=
  match call.err with
  | some err =>
    (userFriendlyJiraError NewJiraError call.resp err).map (fun e => (none, some e))
  | none => .ret (some call.value, none)

/-- The source's `JiraClient.UpdateAssignee`; `call` is the outcome of
`Issue.UpdateAssignee`. -/
def JiraClient.UpdateAssignee (NewJiraError : Response → GoError → GoError)
    (call : Upstream Unit) : Go (Option GoError) :=
  match call.err with
  | some err => (userFriendlyJiraError NewJiraError call.resp err).map some
  | none => .ret call.err

/-- The source's `JiraClient.AddComment`; `call` is the outcome of `Issue.AddComment`. -/
def JiraClient.AddComment {α : Type} (NewJiraError : Response → GoError → GoError)
    (call : Upstream α) : Go (Option α × Option GoError) :=
  match call.err with
  | some err =>
    (userFriendlyJiraError NewJiraError call.resp err).map (fun e => (none, some e))
  | none => .ret (some call.value, call.err)

/-- The source's `JiraClient.UpdateComment`; `call` is the outcome of
`Issue.UpdateComment`. -/
def JiraClient.UpdateComment {α : Type} (NewJiraError : Response → GoError → GoError)
    (call : Upstream α) : Go (Option α × Option GoError) :=
  match call.err with
  | some err =>
    (userFriendlyJiraError NewJiraError call.resp err).map (fun e => (none, some e))
  | none => .ret (some call.value, call.err)

/-- The source's `JiraClient.SearchIssues`; `call` is the outcome of `Issue.Search`.
On an error `resp.StatusCode` is read without a nil check. -/
def JiraClient.SearchIssues {α : Type} (NewJiraError : Response → GoError → GoError)
    (call : Upstream α) : Go (Option α × Option GoError) :=
  match call.err with
  | some err =>
    match call.resp with
    | none => .panic
    | some r =>
      if r.StatusCode = 403 ∨ r.StatusCode = 401 then
        .ret (none, some (GoError.New "not authorized to search issues"))
      else
        (userFriendlyJiraError NewJiraError call.resp err).map (fun e => (none, some e))
  | none => .ret (some call.value, none)

/-- The source's `JiraClient.DoTransition`; `call` is the outcome of
`Issue.DoTransition`. -/
def JiraClient.DoTransition (NewJiraError : Response → GoError → GoError)
    (call : Upstream Unit) : Go (Option GoError) :=
  match call.err with
  | some err => (userFriendlyJiraError NewJiraError call.resp err).map some
  | none => .ret none

/-- The source's `JiraClient.GetSelf`; `call` is the outcome of `User.GetSelf`. -/
def JiraClient.GetSelf {α : Type} (NewJiraError : Response → GoError → GoError)
    (call : Upstream α) : Go (Option α × Option GoError) :=
  match call.err with
  | some err =>
    (userFriendlyJiraError NewJiraError call.resp err).map (fun e => (none, some e))
  | none => .ret (some call.value, none)

/-- A `NewJiraError` for the samples: it wraps the transport error with the status. -/
def sampleNewJiraError (r : Response) (err : GoError) : GoError :=
  GoError.Wrap err (toString r.StatusCode)

/-- A search refused by the upstream service with status 403. -/
def sampleForbidden : Upstream (List String) :=
  ⟨[], some ⟨403, "Forbidden"⟩, some (GoError.External "request failed")⟩


/-! ## Error messages of the facade -/

/-- The line `userFriendlyJiraError` prints for a field error: `" - %s: %s\n"`. -/
def fieldLine (kv : String × String) : String := " - " ++ kv.1 ++ ": " ++ kv.2 ++ "\n"

/-- The line `userFriendlyJiraError` prints for a free-text message: `" - %s\n"`. -/
def messageLine (m : String) : String := " - " ++ m ++ "\n"

/-- The field errors of a `jira.Error` are a Go map, and `range` over a map visits the
entries in an order the language leaves open. A visiting order is any rearrangement of
the entries; the `Errors` of a `GoError.JiraError` are the entries as visited. -/
def IsRangeOrder (visit : List (String × String) → List (String × String)) : Prop :=
  ∀ entries, (visit entries).Perm entries

/-- Two field errors of an upstream answer, in the order of the answer's body. -/
def sampleFieldErrors : List (String × String) :=
  [("summary", "is required"), ("project", "is required")]

/-- A decoder of error bodies for the samples: the empty JSON object decodes to a
`jira.Error` without field errors and messages, any other text fails to decode. -/
def sampleJsonUnmarshal (body : String) : Option (List (String × String) × List String) :=
  if body = "{}" then some ([], []) else none

/-- An upload refused with status 403 and the empty JSON object as the error body. -/
def sampleRefusedUpload : Upload String :=
  ⟨none, none, none, ⟨[], some ⟨403, "{}"⟩, some (GoError.External "request failed")⟩⟩


/-! ## The issue workflow -/

/-- A `jira.User`, as far as the workflow reads it. -/
structure JiraUser where
  AccountID : String
  Name : String
  DisplayName : String
  EmailAddress : String
  deriving DecidableEq, Repr

/-- A `jira.Transition`: its `ID` and the name of its target state, `To.Name`. -/
structure Transition where
  ID : String
  ToName : String
  deriving DecidableEq, Repr

/-- A `jira.Issue`, as far as the workflow reads it. -/
structure Issue where
  Key : String
  Summary : String
  deriving DecidableEq, Repr

/-- The `Client` interface as the workflow uses it: what each operation hands back. -/
structure Client where
  GetIssue : String → Option String → Option Issue × Option GoError
  GetTransitions : String → List Transition × Option GoError
  DoTransition : String → String → Option GoError
  SearchUsersAssignableToIssue : String → String → Int → List JiraUser × Option GoError
  UpdateAssignee : String → JiraUser → Option GoError
  SearchIssues : String → Int → List String → List Issue × Option GoError

/-- The calls a workflow operation makes, in the order it makes them. -/
inductive Call where
  | GetIssue (key : String) (fields : Option String) : Call
  | GetTransitions (issueKey : String) : Call
  | DoTransition (issueKey transitionID : String) : Call
  | SearchUsersAssignableToIssue (issueKey query : String) (maxResults : Int) : Call
  | UpdateAssignee (issueKey : String) (user : JiraUser) : Call
  | SearchIssues (jql : String) (maxResults : Int) (fields : List String) : Call
  | SendEphemeralPost (userID channelID message : String) : Call
  deriving DecidableEq, Repr

/-- Go's `len(s)` of a string: the number of bytes of its UTF-8 encoding. -/
def goLen (s : String) : Nat := s.utf8ByteSize

/-- Go's `unicode.IsSpace`: the code points with the property White_Space. -/
def unicodeIsSpace (c : Char) : Bool :=
  let n := c.toNat
  decide ((0x09 ≤ n ∧ n ≤ 0x0D) ∨ n = 0x20 ∨ n = 0x85 ∨ n = 0xA0 ∨ n = 0x1680 ∨
    (0x2000 ≤ n ∧ n ≤ 0x200A) ∨ n = 0x2028 ∨ n = 0x2029 ∨ n = 0x202F ∨ n = 0x205F ∨
    n = 0x3000)

/-- The scan of `strings.Fields`: `cur` is the field being read. -/
def stringsFieldsChars : List Char → List Char → List (List Char)
  | cur, [] => if cur = [] then [] else [cur]
  | cur, c :: cs =>
    if unicodeIsSpace c then
      if cur = [] then stringsFieldsChars [] cs else cur :: stringsFieldsChars [] cs
    else stringsFieldsChars (cur ++ [c]) cs

/-- Go's `strings.Fields`: the maximal runs of characters that are not white space. -/
def stringsFields (s : String) : List String :=
  (stringsFieldsChars [] s.data).map String.mk

/-- Go's `strings.Join`. -/
def stringsJoin (elems : List String) (sep : String) : String := sep.intercalate elems

/-- Go's `strings.ToLower`, which maps every character by `unicode.ToLower`; that
table is the parameter `unicodeToLower`. -/
def stringsToLower (unicodeToLower : Char → Char) (s : String) : String :=
  String.mk (s.data.map unicodeToLower)

/-- The normalization `TransitionIssue` applies to a state name:
`strings.ToLower(strings.Join(strings.Fields(s), ""))`. -/
def normalizeState (unicodeToLower : Char → Char) (s : String) : String :=
  stringsToLower unicodeToLower (stringsJoin (stringsFields s) "")

/-- The normalization `norm` in the words of the claim: `s` in lower case, with all white
space removed. -/
def normalizeState_reference (unicodeToLower : Char → Char) (s : String) : String :=
  String.mk ((s.data.filter (fun c => !unicodeIsSpace c)).map unicodeToLower)

/-- The list `M` in the words of the claim: the transitions `t`, in order, such that
`norm(ToState)` is a substring of `norm(t.To.Name)`. -/
def matchingTransitions (unicodeToLower : Char → Char) (ToState : String)
    (transitions : List Transition) : List Transition :=
  transitions.filter (fun t =>
    stringsContains (normalizeState_reference unicodeToLower t.ToName)
      (normalizeState_reference unicodeToLower ToState))

/-- The variables of the loop of `TransitionIssue`. -/
structure TransitionLoop where
  transition : Transition
  matchingStates : List String
  availableStates : List String
  deriving DecidableEq, Repr

/-- The body of the loop of `TransitionIssue` for the transition `t`. -/
def TransitionIssue.body (unicodeToLower : Char → Char) (potentialState : String)
    (v : TransitionLoop) (t : Transition) : TransitionLoop :=
  let validState := normalizeState unicodeToLower t.ToName
  let v1 :=
    if stringsContains validState potentialState then
      { v with matchingStates := v.matchingStates ++ [t.ToName], transition := t }
    else v
  { v1 with availableStates := v1.availableStates ++ [t.ToName] }

/-- The source's `InTransitionIssue`. -/
structure InTransitionIssue where
  mattermostUserID : ID
  InstanceID : ID
  PostToChannelID : String
  IssueKey : String
  ToState : String
  deriving DecidableEq, Repr

/-- The source's `Plugin.TransitionIssue`: its results and the calls it made. The outcome
of `getClient` (the client and the base URL of the instance), `asSlackAttachment` and
`getUserID` are parameters. -/
def TransitionIssue [UnicodeTables] (unicodeToLower : Char → Char)
    (getClient : Except GoError (Client × String))
    (asSlackAttachment : Option Issue → Option GoError)
    (input : InTransitionIssue) : (String × Option GoError) × List Call :=
  match getClient with
  | .error err => (("", some err), [])
  | .ok (client, JiraBaseURL) =>
    let trace := [Call.GetTransitions input.IssueKey]
    match client.GetTransitions input.IssueKey with
    | (_, some _) => (("", some (GoError.New "we couldn't find the issue key. Please confirm the issue key and try again. You may not have permissions to access this issue")), trace)
    | (transitions, none) =>
      if transitions.length < 1 then
        (("", some (GoError.New "you do not have the appropriate permissions to perform this action. Please contact your Jira administrator")), trace)
      else
        let potentialState := normalizeState unicodeToLower input.ToState
        let v := transitions.foldl (TransitionIssue.body unicodeToLower potentialState)
          ⟨⟨"", ""⟩, [], []⟩
        match v.matchingStates.length with
        | 0 =>
          (("", some (GoError.New (quoted input.ToState ++
            " is not a valid state. Please use one of: " ++
            quoted (stringsJoin v.availableStates ", ")))), trace)
        | 1 =>
          let trace := trace ++ [Call.DoTransition input.IssueKey v.transition.ID]
          match client.DoTransition input.IssueKey v.transition.ID with
          | some err => (("", some err), trace)
          | none =>
            let msg := "[" ++ input.IssueKey ++ "](" ++ JiraBaseURL ++ "/browse/" ++
              input.IssueKey ++ ") transitioned to `" ++ v.transition.ToName ++ "`"
            let trace := trace ++ [Call.GetIssue input.IssueKey none]
            match client.GetIssue input.IssueKey none with
            | (_, some err) =>
              if StatusCode (some err) = 404 then
                (("", some (GoError.New "we couldn't find the issue key, or you do not have the appropriate permissions to view the issue. Please try again or contact your Jira administrator")), trace)
              else if StatusCode (some err) = 401 then
                (("", some (GoError.New "you do not have the appropriate permissions to view the issue. Please contact your Jira administrator")), trace)
              else (("", some (GoError.Wrap err "request to Jira failed")), trace)
            | (issue, none) =>
              match asSlackAttachment issue with
              | some err => (("", some err), trace)
              | none =>
                ((msg, none), trace ++
                  [Call.SendEphemeralPost input.mattermostUserID input.PostToChannelID msg])
        | _ =>
          (("", some (GoError.New ("please be more specific, " ++ quoted input.ToState ++
            " matched several states: " ++ quoted (stringsJoin v.matchingStates ", ")))),
            trace)

/-- The constant `MinUserSearchQueryLength`. -/
def MinUserSearchQueryLength : Nat := 3

/-- The text `AssignIssue` prints for one of several candidates: the display name,
followed in brackets by the username and the e-mail address, as far as present. -/
def AssignIssue.candidate (u : JiraUser) : String :=
  let name := u.DisplayName
  let extra := u.Name
  let extra :=
    if u.EmailAddress ≠ "" then
      (if extra ≠ "" then extra ++ ", " else extra) ++ u.EmailAddress
    else extra
  if extra ≠ "" then name ++ " (" ++ extra ++ ")" else name

/-- The payload `AssignIssue` hands to `UpdateAssignee` for the resolved user. -/
def AssignIssue.payload (user : JiraUser) : JiraUser :=
  if user.AccountID ≠ "" then { user with Name := "" } else user

/-- The permission message of `AssignIssue`. -/
def assignNoPermission : String :=
  "You do not have the appropriate permissions to perform this action. Please contact your Jira administrator."

/-- The source's `Plugin.AssignIssue`: its results and the calls it made on the client.
The outcomes of `LoadConnection` and `instance.GetClient` and the base URL of the
instance are parameters. -/
def AssignIssue (LoadConnection : Option GoError) (GetClient : Except GoError Client)
    (JiraBaseURL issueKey userSearch : String) (assignee : Option JiraUser) :
    (String × Option GoError) × List Call :=
  match LoadConnection with
  | some err => (("", some err), [])
  | none =>
    match GetClient with
    | .error err => (("", some err), [])
    | .ok client =>
      if goLen userSearch < MinUserSearchQueryLength then
        (("`" ++ userSearch ++ "` contains less than " ++ toString MinUserSearchQueryLength
          ++ " characters.", none), [])
      else
        let trace := [Call.GetIssue issueKey none]
        match (client.GetIssue issueKey none).2 with
        | some _ =>
          (("We couldn't find the issue key `" ++ issueKey ++
            "`.  Please confirm the issue key and try again.", none), trace)
        | none =>
          let searched :
              Except ((String × Option GoError) × List Call) (List JiraUser × List Call) :=
            match assignee with
            | some a => .ok ([a], trace)
            | none =>
              let trace := trace ++ [Call.SearchUsersAssignableToIssue issueKey userSearch 10]
              let r := client.SearchUsersAssignableToIssue issueKey userSearch 10
              if StatusCode r.2 = 401 then .error ((assignNoPermission, none), trace)
              else
                match r.2 with
                | some err => .error (("", some err), trace)
                | none => .ok (r.1, trace)
          match searched with
          | .error out => out
          | .ok (jiraUsers, trace) =>
            match jiraUsers with
            | [] =>
              (("", some (GoError.New
                "we couldn't find the assignee. Please use a Jira member and try again")), trace)
            | [user0] =>
              let user := AssignIssue.payload user0
              let trace := trace ++ [Call.UpdateAssignee issueKey user]
              match client.UpdateAssignee issueKey user with
              | some err => (("", some err), trace)
              | none =>
                (("`" ++ user.DisplayName ++ "` assigned to Jira issue [" ++ issueKey ++ "]("
                  ++ JiraBaseURL ++ "/browse/" ++ issueKey ++ ")", none), trace)
            | _ =>
              let errorMsg := "`" ++ userSearch ++ "` matches " ++ toString jiraUsers.length ++
                " or more users.  Please specify a unique assignee.\n"
              let errorMsg := jiraUsers.foldl (fun errorMsg u =>
                errorMsg ++ ("* " ++ AssignIssue.candidate u ++ "\n")) errorMsg
              (("", some (GoError.New errorMsg)), trace)

/-- The POSIX class `[[:alnum:]]`. -/
def isAlnum (c : Char) : Bool :=
  decide (('0' ≤ c ∧ c ≤ '9') ∨ ('A' ≤ c ∧ c ≤ 'Z') ∨ ('a' ≤ c ∧ c ≤ 'z'))

/-- The POSIX class `[[:digit:]]`. -/
def isDigit (c : Char) : Bool := decide ('0' ≤ c ∧ c ≤ '9')

/-- The source's `reJiraIssueKey.MatchString`, for the pattern
`^([[:alnum:]]+)-([[:digit:]]+)$`. -/
def reJiraIssueKey (q : String) : Bool :=
  let project := q.data.takeWhile isAlnum
  match q.data.dropWhile isAlnum with
  | '-' :: digits => !project.isEmpty && !digits.isEmpty && digits.all isDigit
  | _ => false

/-- The scan of `strings.Split` for a separator of one character: `cur` is the piece
being read. -/
def stringsSplitChars (sep : Char) : List Char → List Char → List (List Char)
  | cur, [] => [cur]
  | cur, c :: cs =>
    if c = sep then cur :: stringsSplitChars sep [] cs
    else stringsSplitChars sep (cur ++ [c]) cs

/-- Go's `strings.Split(s, sep)` for a separator of one character. -/
def stringsSplit (s : String) (sep : Char) : List String :=
  (stringsSplitChars sep [] s.data).map String.mk

/-- The `Err` of a `*strconv.NumError`. -/
inductive NumError where
  | ErrSyntax : NumError
  | ErrRange : NumError
  deriving DecidableEq, Repr

/-- The scan of Go's `strconv.ParseUint(s, 10, 64)`: a character that is no digit is a
syntax error, a value of `2^64` or more a range error, whichever the scan meets first. -/
def strconvParseUint.scan : Nat → List Char → Except NumError Nat
  | n, [] => Except.ok n
  | n, c :: cs =>
    if isDigit c = false then Except.error NumError.ErrSyntax
    else if n ≥ (2 ^ 64 - 1) / 10 + 1 then Except.error NumError.ErrRange
    else if n * 10 + (c.toNat - 48) ≥ 2 ^ 64 then Except.error NumError.ErrRange
    else strconvParseUint.scan (n * 10 + (c.toNat - 48)) cs

/-- Go's `strconv.ParseUint(s, 10, 64)`. -/
def strconvParseUint (s : List Char) : Except NumError Nat :=
  if s.isEmpty then Except.error NumError.ErrSyntax else strconvParseUint.scan 0 s

/-- The sign and the range check of `strconv.ParseInt` around `ParseUint`. -/
def strconvParseInt.signed (neg : Bool) (digits : List Char) : Except NumError Int :=
  match strconvParseUint digits with
  | Except.error NumError.ErrSyntax => Except.error NumError.ErrSyntax
  | Except.error NumError.ErrRange => Except.error NumError.ErrRange
  | Except.ok un =>
    if neg = false ∧ un ≥ 2 ^ 63 then Except.error NumError.ErrRange
    else if neg = true ∧ un > 2 ^ 63 then Except.error NumError.ErrRange
    else Except.ok (if neg then -(un : Int) else (un : Int))

/-- Go's `strconv.ParseInt(s, 10, 64)`. -/
def strconvParseInt (s : String) : Except NumError Int :=
  match s.data with
  | [] => Except.error NumError.ErrSyntax
  | '+' :: cs => strconvParseInt.signed false cs
  | '-' :: cs => strconvParseInt.signed true cs
  | cs => strconvParseInt.signed false cs

/-- Go's `strconv.Atoi`, which reads what `ParseInt(s, 10, 0)` reads; an `int` has 64
bits. -/
def strconvAtoi (s : String) : Except NumError Int := strconvParseInt s

/-- Go's `strings.ReplaceAll(s, old, new)` for an `old` of one character. -/
def stringsReplaceAll (s : String) (old : Char) (new : String) : String :=
  String.mk ((s.data.map (fun c => if c = old then new.data else [c])).flatten)

/-- The `Client` interface as `GetSearchIssues` uses it. A call hands back its results or
aborts, as `JiraClient.SearchIssues` does when it reads the status of a response that is
not there. -/
structure SearchClient where
  GetIssue : String → Option String → Go (Option Issue × Option GoError)
  SearchIssues : String → Int → List String → Go (List Issue × Option GoError)

/-- The variables the two goroutines of `GetSearchIssues` assign, and the calls made. -/
structure SearchVars where
  exact : Option Issue
  found : List Issue
  trace : List Call
  deriving DecidableEq, Repr

/-- The goroutine of `GetSearchIssues` that fetches the issue with the key `q`. -/
def GetSearchIssues.fetchExact (client : SearchClient) (q fieldsStr : String)
    (v : SearchVars) : Go SearchVars :=
  match client.GetIssue q (some fieldsStr) with
  | .panic => .panic
  | .ret r =>
    .ret { v with exact := r.1, trace := v.trace ++ [Call.GetIssue q (some fieldsStr)] }

/-- The goroutine of `GetSearchIssues` that runs the free-text search. -/
def GetSearchIssues.search (client : SearchClient) (jqlString : String) (limit : Int)
    (fields : List String) (v : SearchVars) : Go SearchVars :=
  match client.SearchIssues jqlString limit fields with
  | .panic => .panic
  | .ret r =>
    .ret { v with found := r.1, trace := v.trace ++ [Call.SearchIssues jqlString limit fields] }

/-- The source's `Plugin.GetSearchIssues`. The two goroutines assign different
variables and are joined by `wg.Wait()`; `exactFirst` tells which of them runs first. A
goroutine that aborts takes the process down, so the call does not return. -/
def GetSearchIssues (getClient : Except GoError SearchClient) (exactFirst : Bool)
    (q jqlString fieldsStr limitStr : String) :
    Go ((List Issue × Option GoError) × List Call) :=
  match getClient with
  | .error err => .ret (([], some err), [])
  | .ok client =>
    let fieldsStr := if goLen fieldsStr = 0 then "key,summary" else fieldsStr
    let jqlString :=
      if goLen jqlString = 0 then
        let escaped := stringsReplaceAll q (Char.ofNat 0x22) "\\\""
        "text ~ \"" ++ escaped ++ "\" OR text ~ \"" ++ escaped ++ "*\""
      else jqlString
    let limit : Int :=
      if goLen limitStr > 0 then
        match strconvAtoi limitStr with
        | .ok parsedLimit => parsedLimit
        | .error _ => 50
      else 50
    let fields := stringsSplit fieldsStr ','
    let v0 : SearchVars := ⟨none, [], []⟩
    let v : Go SearchVars :=
      if reJiraIssueKey q then
        if exactFirst then
          match GetSearchIssues.fetchExact client q fieldsStr v0 with
          | .panic => .panic
          | .ret v1 => GetSearchIssues.search client jqlString limit fields v1
        else
          match GetSearchIssues.search client jqlString limit fields v0 with
          | .panic => .panic
          | .ret v1 => GetSearchIssues.fetchExact client q fieldsStr v1
      else GetSearchIssues.search client jqlString limit fields v0
    match v with
    | .panic => .panic
    | .ret v =>
      let result : List Issue := []
      let result := match v.exact with
        | some exact => result ++ [exact]
        | none => result
      .ret ((result ++ v.found, none), v.trace)

/-- A search client for the samples: the fetch hands back the issue asked for, the
search the issue `KEY-2`. -/
def sampleSearchClient : SearchClient where
  GetIssue := fun key _ => .ret (some ⟨key, "summary"⟩, none)
  SearchIssues := fun _ _ _ => .ret ([⟨"KEY-2", "other"⟩], none)

/-- A client for the samples: the issue offers the transitions to `In Progress` and
`In Review`, the user search finds nobody, every other call succeeds. -/
def sampleClient : Client where
  GetIssue := fun key _ => (some ⟨key, "summary"⟩, none)
  GetTransitions := fun _ => ([⟨"11", "In Progress"⟩, ⟨"21", "In Review"⟩], none)
  DoTransition := fun _ _ => none
  SearchUsersAssignableToIssue := fun _ _ _ => ([], none)
  UpdateAssignee := fun _ _ => none
  SearchIssues := fun _ _ _ => ([⟨"KEY-2", "other"⟩], none)

/-- A request to move `KEY-1` to the state `toState`. -/
def sampleTransition (toState : String) : InTransitionIssue :=
  ⟨"user", "A", "channel", "KEY-1", toState⟩


/-! ## Replays of installs and uninstalls -/

/-- One operation of a replay. -/
inductive Op where
  | install (i : Instance) : Op
  | uninstall (instanceID : ID) (instanceType : String) : Op
  deriving DecidableEq, Repr

/-- The plugin after one operation. -/
def Plugin.apply [UnicodeTables] (p : Plugin) : Op → Plugin
  | .install i => (p.InstallInstance i).1
  | .uninstall instanceID instanceType => (p.UninstallInstance instanceID instanceType).1

/-- The plugin after a sequence of operations. -/
def Plugin.replay [UnicodeTables] (p : Plugin) (ops : List Op) : Plugin := ops.foldl Plugin.apply p

/-- The number of installs of a sequence. -/
def installs (ops : List Op) : Nat :=
  ops.countP (fun op => match op with | .install _ => true | .uninstall _ _ => false)

/-- The number of uninstalls of a sequence. -/
def uninstalls (ops : List Op) : Nat :=
  ops.countP (fun op => match op with | .install _ => false | .uninstall _ _ => true)

/-- A plugin with the capability, an empty registry, empty stores that succeed, and an
empty trace. -/
def Plugin.fresh (EnableAutocomplete : Bool) (users : List User) : Plugin :=
  ⟨true, EnableAutocomplete, [], [], users, Faults.none, []⟩

/-- What an operation counts for in the net count: an install counts 1 when its ID is
not a member at that moment and 0 when it is (a re-install); an uninstall counts -1
when it returns without error and 0 when it fails. -/
def Plugin.netChange [UnicodeTables] (p : Plugin) : Op → Int
  | .install i => if i.GetID ∈ ValueSet.IDs p.instances then 0 else 1
  | .uninstall instanceID instanceType =>
    match (p.UninstallInstance instanceID instanceType).2 with
    | .ret (_, none) => -1
    | _ => 0

/-- The net count of a sequence replayed from `p`. -/
def Plugin.netCount [UnicodeTables] : Plugin → List Op → Int
  | _, [] => 0
  | p, op :: ops => p.netChange op + (p.apply op).netCount ops

/-- Every operation of the sequence counts: no install names a member, no uninstall
fails. -/
def Plugin.allCount [UnicodeTables] : Plugin → List Op → Prop
  | _, [] => True
  | p, op :: ops => p.netChange op ≠ 0 ∧ (p.apply op).allCount ops


/-- The state a replay keeps: the capability, stores that succeed, unique keys, and a
record in the instance store for every member of the registry. -/
def Plugin.InSync (p : Plugin) : Prop :=
  p.HasEnterpriseFeatures = true ∧ p.faults = Faults.none ∧ Instances.WF p.instances ∧
  ∀ id ∈ ValueSet.IDs p.instances, ∃ r ∈ p.records, r.GetID = id

/-- A plugin whose registry lists `A` and `B` while the record of `B` is gone from the
instance store. -/
def sampleLostRecord : Plugin :=
  ⟨true, true, [sampleA, sampleB], [⟨sampleA⟩], [], Faults.none, []⟩


/-! ## Endpoint names -/

/-- The constant `unrecognizedEndpoint`. -/
def unrecognizedEndpoint : String := "_unrecognized"

/-- The source's `keyOrIDRegex.MatchString`, for the pattern
`(^[[:alnum:]]+-)?[[:digit:]]+$`. The group in front is optional and a match may start
anywhere, so a match exists exactly when the text ends in a digit. -/
def keyOrIDRegex (p : String) : Bool :=
  match p.data.getLast? with
  | some c => isDigit c
  | none => false

/-- Go's `strings.TrimPrefix`. -/
def stringsTrimPrefix (s pre : String) : String :=
  if pre.data.isPrefixOf s.data then String.mk (s.data.drop pre.data.length) else s

/-- Go's `strings.Trim(s, cutset)` for a cutset of one character. -/
def stringsTrim (s : String) (cut : Char) : String :=
  String.mk (((s.data.dropWhile (fun c => c == cut)).reverse.dropWhile
    (fun c => c == cut)).reverse)

/-- The path `endpointNameFromRequest` works on: the lowered path without the prefix
`/rest/api` and without slashes at both ends. -/
def endpointNameFromRequest.trimmed (unicodeToLower : Char → Char) (path : String) : String :=
  stringsTrim (stringsTrimPrefix (stringsToLower unicodeToLower path) "/rest/api") '/'

/-- The loop of `endpointNameFromRequest` over the segments that follow the first two. -/
def endpointNameFromRequest.loop : String → List String → List String → List String
  | _, out, [] => out
  | context, out, p :: ps =>
    if context = "issue" ∧ keyOrIDRegex p = true then
      endpointNameFromRequest.loop context out ps
    else if context = "user" ∧ (p ≠ "groups" ∧ p ≠ "assignable") then
      endpointNameFromRequest.loop context out ps
    else if context = "project" ∨ context = "comment" then
      endpointNameFromRequest.loop context out ps
    else endpointNameFromRequest.loop p (out ++ [p]) ps

/-- The source's `endpointNameFromRequest`, for the path and the method of the request.
`splitInstancePath`, defined outside the files embedded here, is a parameter. -/
def endpointNameFromRequest (unicodeToLower : Char → Char)
    (splitInstancePath : String → String × String) (URLPath Method : String) : String :=
  let path := (splitInstancePath URLPath).2
  let l := stringsToLower unicodeToLower path
  let s := endpointNameFromRequest.trimmed unicodeToLower path
  if s = l then "_unrecognized"
  else
    match stringsSplit s '/' with
    | p0 :: p1 :: rest =>
      stringsJoin (endpointNameFromRequest.loop p1 ["api/jira", p0, p1] rest ++ [Method]) "/"
    | _ => unrecognizedEndpoint

/-- A `splitInstancePath` for the samples: the path carries no instance prefix. -/
def sampleSplitInstancePath (path : String) : String × String := ("", path)


/-! ## The limited reader -/

/-- Go's `int64` arithmetic: the value a result `x` has after it wrapped to 64 bits in
two's complement. -/
def wrapInt64 (x : Int) : Int := (x + 2 ^ 63) % 2 ^ 64 - 2 ^ 63

/-- An `io.Reader` over a source in state `σ`: for a buffer of `len` bytes, the count it
returns, the error and the next state of the source. -/
structure Reader (σ : Type) where
  Read : σ → Nat → Nat × Option GoError × σ

/-- The contract of `io.Reader`: a call returns `0 <= n <= len(p)`. -/
def Reader.Obeys {σ : Type} (rd : Reader σ) : Prop :=
  ∀ (s : σ) (len : Nat), (rd.Read s len).1 ≤ len

/-- The sentinel `io.EOF`. -/
def ioEOF : GoError := GoError.External "EOF"

/-- Go's `io.LimitedReader`: the source `R` and the bytes remaining `N`. -/
structure LimitedReader (σ : Type) where
  R : σ
  N : Int

/-- Go's `(*io.LimitedReader).Read`: at `N <= 0` it returns `0, EOF`; a buffer longer than
`N` is cut to `N`; the count read is taken off `N`. -/
def LimitedReader.Read {σ : Type} (rd : Reader σ) (l : LimitedReader σ) (len : Nat) :
    Nat × Option GoError × LimitedReader σ :=
  if l.N ≤ 0 then (0, some ioEOF, l)
  else
    let len := if (len : Int) > l.N then l.N.toNat else len
    let r := rd.Read l.R len
    (r.1, r.2.1, ⟨r.2.2, wrapInt64 (l.N - r.1)⟩)

/-- The source's `LimitedReadCloser`: `reader` is the source itself or the
`io.LimitReader` around it. `closer` and `preClose` play no part in `Read`. -/
structure LimitedReadCloser (σ : Type) where
  TotalRead : Int
  reader : σ ⊕ LimitedReader σ

/-- The source's `NewLimitedReadCloser`. -/
def NewLimitedReadCloser {σ : Type} (rc : σ) (limit : Int) : LimitedReadCloser σ :=
  if limit ≥ 0 then ⟨0, Sum.inr ⟨rc, limit⟩⟩ else ⟨0, Sum.inl rc⟩

/-- The source's `(*LimitedReadCloser).Read`, for a buffer of `len` bytes. -/
def LimitedReadCloser.Read {σ : Type} (rd : Reader σ) (lrc : LimitedReadCloser σ)
    (len : Nat) : Nat × Option GoError × LimitedReadCloser σ :=
  match lrc.reader with
  | Sum.inl s =>
    let r := rd.Read s len
    (r.1, r.2.1, ⟨wrapInt64 (lrc.TotalRead + r.1), Sum.inl r.2.2⟩)
  | Sum.inr l =>
    let r := l.Read rd len
    (r.1, r.2.1, ⟨wrapInt64 (lrc.TotalRead + r.1), Sum.inr r.2.2⟩)

/-- A sequence of `Read` calls with buffers of the lengths `lens`: the counts returned,
in order, and the reader after the last call. -/
def LimitedReadCloser.reads {σ : Type} (rd : Reader σ) :
    LimitedReadCloser σ → List Nat → List Nat × LimitedReadCloser σ
  | lrc, [] => ([], lrc)
  | lrc, len :: lens =>
    let r := lrc.Read rd len
    let after := LimitedReadCloser.reads rd r.2.2 lens
    (r.1 :: after.1, after.2)

/-- The same sequence of `Read` calls made on the source itself. -/
def Reader.reads {σ : Type} (rd : Reader σ) : σ → List Nat → List Nat × σ
  | s, [] => ([], s)
  | s, len :: lens =>
    let r := rd.Read s len
    let after := Reader.reads rd r.2.2 lens
    (r.1 :: after.1, after.2)

/-- A source of `s` bytes that fills every buffer as far as it can. -/
def sampleReader : Reader Nat :=
  ⟨fun s len => (min s len, if s = 0 then some ioEOF else none, s - min s len)⟩


/-! ## Byte sizes -/

/-- The constant `NotAvailable`. -/
def NotAvailable : String := "n/a"

/-- The source's `ByteSize`, an `int64`. -/
abbrev ByteSize := Int

def sizeB : ByteSize := 1
def sizeKb : ByteSize := 1024 * sizeB
def sizeMb : ByteSize := 1024 * sizeKb
def sizeGb : ByteSize := 1024 * sizeMb
def sizeTb : ByteSize := 1024 * sizeGb

def sizeUnits : List ByteSize := [sizeTb, sizeGb, sizeMb, sizeKb, sizeB]
def sizeSuffixes : List String := ["Tb", "Gb", "Mb", "Kb", "b"]

/-- Go's `math.MaxInt64`. -/
def MaxInt64 : Int := 2 ^ 63 - 1

/-- The source's `ByteSize.ToUint64`. -/
def ByteSize.ToUint64 (size : ByteSize) : Nat := if size < 0 then 0 else size.toNat

/-- Go's `strconv.FormatUint(n, 10)`. -/
def strconvFormatUint (n : Nat) : String := Nat.repr n

/-- The loop of `withCommas`: `fuel` bounds the rounds, each of which takes three
characters off `inp`. -/
def withCommas.loop : Nat → List Char → List Char → List Char
  | 0, inp, out => inp ++ out
  | fuel + 1, inp, out =>
    if inp.length > 3 then
      withCommas.loop fuel (inp.take (inp.length - 3))
        (',' :: inp.drop (inp.length - 3) ++ out)
    else inp ++ out

/-- The closure `withCommas` of `ByteSize.String`. It is applied to runs of decimal
digits, whose bytes are their characters. -/
def withCommas (inp : String) : String :=
  String.mk (withCommas.loop inp.data.length inp.data [])

/-- The loop of `ByteSize.String` over the units and their suffixes. -/
def ByteSize.String.render (size : ByteSize) : List (ByteSize × String) → String
  | [] => NotAvailable
  | (u, suffix) :: rest =>
    if size < u then ByteSize.String.render size rest
    else if u = sizeB then
      withCommas (strconvFormatUint (ByteSize.ToUint64 size)) ++ suffix
    else if size > Int.tdiv MaxInt64 10 then NotAvailable
    else
      let v := Int.tdiv (wrapInt64 (wrapInt64 (size * 10) + Int.tdiv u 2)) u
      let s := strconvFormatUint (ByteSize.ToUint64 v)
      let l := s.data.length
      if l < 2 then NotAvailable
      else if s.data.getLast? = some '0' then
        withCommas (String.mk (s.data.take (l - 1))) ++ suffix
      else
        withCommas (String.mk (s.data.take (l - 1))) ++ "."
          ++ String.mk (s.data.drop (l - 1)) ++ suffix

/-- The source's `ByteSize.String`. -/
def ByteSize.String (size : ByteSize) : String :=
  if size = 0 then "0" else ByteSize.String.render size (sizeUnits.zip sizeSuffixes)

/-- Go's `strings.HasSuffix`. -/
def stringsHasSuffix (s suffix : String) : Bool := suffix.data.isSuffixOf s.data

/-- Go's `strings.ReplaceAll(s, old, "")` for an `old` of one character. -/
def stringsRemoveAll (s : String) (old : Char) : String :=
  String.mk (s.data.filter (fun c => c != old))

/-- The loop of `ParseByteSize` over the suffixes: the text without the first suffix
that matches, and its unit. The suffixes are ASCII, so the bytes cut off are the
characters of the suffix. -/
def ParseByteSize.unit (unicodeToLower : Char → Char) (str : String) :
    List (ByteSize × String) → String × ByteSize
  | [] => (str, sizeB)
  | (u, s) :: rest =>
    if stringsHasSuffix str (stringsToLower unicodeToLower s) = true then
      (String.mk (str.data.take (str.data.length - s.data.length)), u)
    else ParseByteSize.unit unicodeToLower str rest

/-- The error of a failed `strconv.ParseInt`, as `ParseByteSize` returns it. -/
def NumError.toError : NumError → GoError
  | NumError.ErrSyntax => GoError.External "invalid syntax"
  | NumError.ErrRange => GoError.External "value out of range"

/-- A `float64`: the finite value `(-1)^neg * mant * 2^exp`, an infinity, or a NaN. The
numbers of the format have `mant < 2^53` and `-1074 ≤ exp ≤ 971`; `Float64.round` writes
a normal number with `2^52 ≤ mant`, a subnormal one with `exp = -1074`, and zero as
`mant = 0`, `exp = 0`. -/
inductive Float64 where
  | finite (neg : Bool) (mant : Nat) (exp : Int) : Float64
  | inf (neg : Bool) : Float64
  | nan : Float64
  deriving DecidableEq

/-- The loop of `bitsLen`: `fuel` bounds the halvings. -/
def bitsLen.loop : Nat → Nat → Nat
  | 0, _ => 0
  | fuel + 1, n => if n = 0 then 0 else bitsLen.loop fuel (n / 2) + 1

/-- Go's `bits.Len`: the number of bits of `n`, 0 for 0. -/
def bitsLen (n : Nat) : Nat := bitsLen.loop n n

/-- The float64 of an exact result `mant * 2^exp` with the sign `neg`: IEEE 754 rounding
to the nearest number of the format, ties to the even mantissa, infinity from `2^1024`
on. -/
def Float64.round (neg : Bool) (mant : Nat) (exp : Int) : Float64 :=
  if mant = 0 then Float64.finite neg 0 0
  else
    let e : Int := max (exp + (bitsLen mant : Int) - 53) (-1074)
    if e ≤ exp then
      if e > 971 then Float64.inf neg
      else Float64.finite neg (mant * 2 ^ (exp - e).toNat) e
    else
      let s := (e - exp).toNat
      let q := mant / 2 ^ s
      let r := mant % 2 ^ s
      let m := if 2 * r > 2 ^ s ∨ (2 * r = 2 ^ s ∧ q % 2 = 1) then q + 1 else q
      if m = 0 then Float64.finite neg 0 0
      else if m = 2 ^ 53 then
        if e + 1 > 971 then Float64.inf neg else Float64.finite neg (2 ^ 52) (e + 1)
      else if e > 971 then Float64.inf neg
      else Float64.finite neg m e

/-- The conversion `float64(u)` of an `int64`. -/
def Float64.ofInt (u : Int) : Float64 := Float64.round (decide (u < 0)) u.natAbs 0

/-- The product of two `float64`: the exact product, rounded. -/
def Float64.mul : Float64 → Float64 → Float64
  | Float64.finite n1 m1 e1, Float64.finite n2 m2 e2 =>
    Float64.round (n1 != n2) (m1 * m2) (e1 + e2)
  | Float64.nan, _ => Float64.nan
  | _, Float64.nan => Float64.nan
  | Float64.inf n1, Float64.finite n2 m2 _ =>
    if m2 = 0 then Float64.nan else Float64.inf (n1 != n2)
  | Float64.finite n1 m1 _, Float64.inf n2 =>
    if m1 = 0 then Float64.nan else Float64.inf (n1 != n2)
  | Float64.inf n1, Float64.inf n2 => Float64.inf (n1 != n2)

/-- The conversion of a `float64` to `int64`: the fraction is dropped. `none` stands for
a value that does not fit (an infinity, a NaN, a number outside `int64`), for which Go
leaves the result to the implementation. -/
def Float64.toInt64 : Float64 → Option Int
  | Float64.finite neg mant exp =>
    let a : Nat := if 0 ≤ exp then mant * 2 ^ exp.toNat else mant / 2 ^ (-exp).toNat
    let v : Int := if neg then -(a : Int) else (a : Int)
    if -(2 ^ 63) ≤ v ∧ v < 2 ^ 63 then some v else none
  | _ => none

/-- The conversion `ByteSize(fl * float64(u))`; `unfit` is what the implementation
yields for a product that does not fit `int64`. -/
def ParseByteSize.scale (unfit : Float64 → ByteSize) (fl : Float64) (u : ByteSize) :
    ByteSize :=
  match (Float64.mul fl (Float64.ofInt u)).toInt64 with
  | some v => v
  | none => unfit (Float64.mul fl (Float64.ofInt u))

/-- The source's `ParseByteSize`. `parseFloat` is `strconv.ParseFloat(str, 64)`, and
`unfit` the conversion to `int64` of a `float64` that does not fit. -/
def ParseByteSize (unicodeToLower : Char → Char)
    (parseFloat : String → Except GoError Float64) (unfit : Float64 → ByteSize)
    (str : String) : Except GoError ByteSize :=
  let cut := ParseByteSize.unit unicodeToLower (stringsToLower unicodeToLower str)
    (sizeUnits.zip sizeSuffixes)
  let str := stringsRemoveAll cut.1 ','
  let u := cut.2
  match strconvParseInt str with
  | Except.ok n => Except.ok (wrapInt64 (n * u))
  | Except.error NumError.ErrRange => Except.error NumError.ErrRange.toError
  | Except.error NumError.ErrSyntax =>
    match parseFloat str with
    | Except.error err => Except.error err
    | Except.ok fl => Except.ok (ParseByteSize.scale unfit fl u)

/-- The float64 nearest to the fraction `num / den`, ties to the even mantissa. -/
def Float64.ofRatio (num den : Nat) : Float64 :=
  if num = 0 ∨ den = 0 then Float64.finite false 0 0
  else
    let k : Int := (bitsLen num : Int) - (bitsLen den : Int)
    let lg : Int := if den * 2 ^ k.toNat ≤ num * 2 ^ (-k).toNat then k else k - 1
    let e : Int := max (lg - 52) (-1074)
    let scaledNum := num * 2 ^ (-e).toNat
    let scaledDen := den * 2 ^ e.toNat
    let q := scaledNum / scaledDen
    let r := scaledNum % scaledDen
    let m := if 2 * r > scaledDen ∨ (2 * r = scaledDen ∧ q % 2 = 1) then q + 1 else q
    if m = 0 then Float64.finite false 0 0
    else if m = 2 ^ 53 then
      if e + 1 > 971 then Float64.inf false else Float64.finite false (2 ^ 52) (e + 1)
    else if e > 971 then Float64.inf false
    else Float64.finite false m e

/-- A `strconv.ParseFloat` for the samples: it reads `digits` and `digits.digits` as the
nearest float64, and fails on every other text. -/
def sampleParseFloat (s : String) : Except GoError Float64 :=
  let whole := s.data.takeWhile isDigit
  match s.data.dropWhile isDigit with
  | [] =>
    match strconvParseUint whole with
    | Except.ok n => Except.ok (Float64.ofRatio n 1)
    | Except.error _ => Except.error (GoError.External "invalid syntax")
  | '.' :: frac =>
    match strconvParseUint (whole ++ frac) with
    | Except.ok n => if whole.isEmpty then Except.error (GoError.External "invalid syntax")
      else Except.ok (Float64.ofRatio n (10 ^ frac.length))
    | Except.error _ => Except.error (GoError.External "invalid syntax")
  | _ => Except.error (GoError.External "invalid syntax")

/-- The conversion of a `float64` that does not fit `int64`, for the samples: the
smallest `int64`, as on amd64. -/
def sampleUnfit (_ : Float64) : ByteSize := -(2 ^ 63)

/-- The float64 `fl` is a nearest one to the decimal `v / 10`, which lies between 1 and
`2^53`: a normal number `m * 2^(-k)` at most half a unit of its last place from `v / 10`,
that is `|10 * m - v * 2^k| ≤ 5`. -/
def Float64.IsNearestTenths (fl : Float64) (v : Nat) : Prop :=
  ∃ m k : Nat, fl = Float64.finite false m (-(k : Int)) ∧ 2 ^ 52 ≤ m ∧ m < 2 ^ 53
    ∧ 10 * m ≤ v * 2 ^ k + 5 ∧ v * 2 ^ k ≤ 10 * m + 5


/-- The number a run of decimal digits stands for, read from the left on top of `acc`. -/
def digitsValue (acc : Nat) (digits : List Char) : Nat :=
  digits.foldl (fun n c => n * 10 + (c.toNat - 48)) acc

/-- The characters `0` to `9`. -/
def IsDecimalDigit (c : Char) : Prop := ∃ m, m < 10 ∧ c = Nat.digitChar m


/-- Tables for the samples: above U+00FF every character is printable but the white
space of `unicode.IsSpace`. -/
instance sampleTables : UnicodeTables := ⟨fun c => !unicodeIsSpace c⟩

/-! ## Theorems -/

/-! ### The registry -/

theorem ValueSet.Contains_iff (set : ValueSet) (id : ID) :
    ValueSet.Contains set id = true ↔ ∃ v ∈ set, v.InstanceID = id := by
  simp [ValueSet.Contains, ValueSet.IDs]

theorem ValueSet.IDs_modify (set : ValueSet) (id : ID) (f : InstanceCommon → InstanceCommon)
    (hf : ∀ v, (f v).InstanceID = v.InstanceID) :
    ValueSet.IDs (ValueSet.modify set id f) = ValueSet.IDs set := by
  induction set with
  | nil => rfl
  | cons v rest ih =>
    unfold ValueSet.modify
    split
    · simp [ValueSet.IDs, hf]
    · simpa [ValueSet.IDs] using ih

theorem ValueSet.Get_of_mem (set : ValueSet) (h : (ValueSet.IDs set).Nodup)
    (v : InstanceCommon) (hv : v ∈ set) : ValueSet.Get set v.InstanceID = some v := by
  induction set with
  | nil => cases hv
  | cons w rest ih =>
    simp only [ValueSet.IDs, List.map_cons, List.nodup_cons, List.mem_map, not_exists,
      not_and] at h
    rcases List.mem_cons.mp hv with rfl | hmem
    · simp [ValueSet.Get]
    · have hne : w.InstanceID ≠ v.InstanceID := fun e => h.1 v hmem e.symm
      simp only [ValueSet.Get, hne, if_false]
      exact ih h.2 hmem

theorem Instances.firstV2Legacy_eq_find (instances : Instances)
    (h : (ValueSet.IDs instances).Nodup) (l : List InstanceCommon) (hl : ∀ v ∈ l, v ∈ instances) :
    Instances.firstV2Legacy instances (ValueSet.IDs l) = l.find? (fun v => v.IsV2Legacy) := by
  induction l with
  | nil => rfl
  | cons v rest ih =>
    have hv := ValueSet.Get_of_mem instances h v (hl v (List.mem_cons_self _ _))
    have ih := ih (fun w hw => hl w (List.mem_cons_of_mem _ hw))
    simp only [ValueSet.IDs, List.map_cons] at ih ⊢
    simp only [Instances.firstV2Legacy, hv, List.find?_cons]
    cases hflag : v.IsV2Legacy <;> simp [ih]

theorem Instances.GetV2Legacy_eq_find (instances : Instances)
    (h : Instances.WF instances) :
    Instances.GetV2Legacy instances = instances.find? (fun v => v.IsV2Legacy) := by
  unfold Instances.GetV2Legacy
  split
  · rename_i he
    cases instances with
    | nil => rfl
    | cons v rest => simp [Instances.IsEmpty, ValueSet.IsEmpty] at he
  · exact Instances.firstV2Legacy_eq_find instances h instances (fun _ hv => hv)

/-- Clearing the flag of the first holder leaves no holder, when there was at most one. -/
theorem Instances.legacyCount_clear (instances : Instances) (h : Instances.WF instances)
    (h1 : Instances.AtMostOneLegacy instances) :
    ∀ m ∈ (match instances.find? (fun v => v.IsV2Legacy) with
      | some prev => ValueSet.modify instances prev.InstanceID
          (fun v => { v with IsV2Legacy := false })
      | none => instances), m.IsV2Legacy = false := by
  induction instances with
  | nil => intro m hm; simp at hm
  | cons v rest ih =>
    have hwf : (ValueSet.IDs rest).Nodup := by
      have := h; simp only [Instances.WF, ValueSet.IDs, List.map_cons, List.nodup_cons] at this
      exact this.2
    have hnot : ∀ w ∈ rest, w.InstanceID ≠ v.InstanceID := by
      have := h; simp only [Instances.WF, ValueSet.IDs, List.map_cons, List.nodup_cons,
        List.mem_map, not_exists, not_and] at this
      exact this.1
    cases hflag : v.IsV2Legacy
    · have h1r : Instances.AtMostOneLegacy rest := by
        simpa [Instances.AtMostOneLegacy, Instances.legacyCount, List.countP_cons, hflag]
          using h1
      have ih := ih hwf h1r
      simp only [List.find?_cons, hflag]
      cases hfind : rest.find? (fun v => v.IsV2Legacy) with
      | none =>
        simp only [hfind] at ih
        intro m hm
        rcases List.mem_cons.mp hm with rfl | hm
        · exact hflag
        · exact ih m hm
      | some prev =>
        simp only [hfind] at ih
        have hprev : prev ∈ rest := List.mem_of_find?_eq_some hfind
        have hne : v.InstanceID ≠ prev.InstanceID := fun e => hnot prev hprev e.symm
        simp only [ValueSet.modify, hne, if_false]
        intro m hm
        rcases List.mem_cons.mp hm with rfl | hm
        · exact hflag
        · exact ih m hm
    · have h0 : List.countP (fun v => v.IsV2Legacy) rest = 0 := by
        have := h1
        simp only [Instances.AtMostOneLegacy, Instances.legacyCount, List.countP_cons, hflag,
          if_true] at this
        omega
      simp only [List.find?_cons, hflag, ValueSet.modify, if_true]
      intro m hm
      rcases List.mem_cons.mp hm with rfl | hm
      · rfl
      · have := List.countP_eq_zero.mp h0 m hm
        simpa using this

/-- Setting the flag at `id` in a registry without holder: exactly the member `id` holds it. -/
theorem ValueSet.modify_set_flag (set : ValueSet) (h : (ValueSet.IDs set).Nodup) (id : ID)
    (h0 : ∀ m ∈ set, m.IsV2Legacy = false) :
    ∀ m ∈ ValueSet.modify set id (fun v => { v with IsV2Legacy := true }),
      (m.IsV2Legacy = true ↔ m.InstanceID = id) := by
  induction set with
  | nil => intro m hm; simp [ValueSet.modify] at hm
  | cons v rest ih =>
    simp only [ValueSet.IDs, List.map_cons, List.nodup_cons, List.mem_map, not_exists,
      not_and] at h
    have ih := ih h.2 (fun m hm => h0 m (List.mem_cons_of_mem _ hm))
    intro m hm
    unfold ValueSet.modify at hm
    split at hm
    · rename_i heq
      rcases List.mem_cons.mp hm with rfl | hm
      · simp [heq]
      · have hne : m.InstanceID ≠ id := fun e => h.1 m hm (by rw [e, heq])
        simp [h0 m (List.mem_cons_of_mem _ hm), hne]
    · rename_i hne
      rcases List.mem_cons.mp hm with rfl | hm
      · simp [h0 m (List.mem_cons_self _ _), hne]
      · exact ih m hm

/-- Unique keys and a flag confined to one key give at most one holder. -/
theorem Instances.atMostOne_of_flag_at (instances : Instances) (h : Instances.WF instances)
    (id : ID) (hflag : ∀ m ∈ instances, m.IsV2Legacy = true → m.InstanceID = id) :
    Instances.AtMostOneLegacy instances := by
  induction instances with
  | nil => simp [Instances.AtMostOneLegacy, Instances.legacyCount]
  | cons v rest ih =>
    have hwf := h
    simp only [Instances.WF, ValueSet.IDs, List.map_cons, List.nodup_cons, List.mem_map,
      not_exists, not_and] at hwf
    have ih := ih hwf.2 (fun m hm => hflag m (List.mem_cons_of_mem _ hm))
    cases hv : v.IsV2Legacy
    · simpa [Instances.AtMostOneLegacy, Instances.legacyCount, List.countP_cons, hv] using ih
    · have hid := hflag v (List.mem_cons_self _ _) hv
      have h0 : List.countP (fun v => v.IsV2Legacy) rest = 0 := by
        apply List.countP_eq_zero.mpr
        intro m hm hm'
        exact hwf.1 m hm ((hflag m (List.mem_cons_of_mem _ hm) hm').trans hid.symm)
      simp [Instances.AtMostOneLegacy, Instances.legacyCount, List.countP_cons, hv, h0]

/-- What a successful `SetV2Legacy` does to a well-formed registry with at most one holder. -/
theorem Instances.SetV2Legacy_spec [UnicodeTables] (instances : Instances) (id : ID)
    (h : Instances.WF instances) (h1 : Instances.AtMostOneLegacy instances)
    (hc : ValueSet.Contains instances id = true) :
    (Instances.SetV2Legacy instances id).2 = none ∧
    ValueSet.IDs (Instances.SetV2Legacy instances id).1 = ValueSet.IDs instances ∧
    ∀ m ∈ (Instances.SetV2Legacy instances id).1, (m.IsV2Legacy = true ↔ m.InstanceID = id) := by
  have hclear := Instances.legacyCount_clear instances h h1
  simp only [Instances.SetV2Legacy, hc, Bool.not_true, Bool.false_eq_true, if_false,
    Instances.GetV2Legacy_eq_find instances h, true_and]
  cases hfind : instances.find? (fun v => v.IsV2Legacy) with
  | none =>
    simp only [hfind] at hclear
    exact ⟨ValueSet.IDs_modify _ _ _ (fun _ => rfl),
      ValueSet.modify_set_flag instances h id hclear⟩
  | some prev =>
    simp only [hfind] at hclear
    have hids : ValueSet.IDs (ValueSet.modify instances prev.InstanceID
        (fun v => { v with IsV2Legacy := false })) = ValueSet.IDs instances :=
      ValueSet.IDs_modify _ _ _ (fun _ => rfl)
    dsimp only
    refine ⟨(ValueSet.IDs_modify _ id (fun v => { v with IsV2Legacy := true })
      (fun _ => rfl)).trans hids, ?_⟩
    exact ValueSet.modify_set_flag _ (by rw [hids]; exact h) id hclear

theorem ValueSet.IDs_Set (set : ValueSet) (v : InstanceCommon) :
    ValueSet.IDs (ValueSet.Set set v) =
      if v.InstanceID ∈ ValueSet.IDs set then ValueSet.IDs set
      else ValueSet.IDs set ++ [v.InstanceID] := by
  induction set with
  | nil => simp [ValueSet.Set, ValueSet.IDs]
  | cons w rest ih =>
    unfold ValueSet.Set
    by_cases hw : w.InstanceID = v.InstanceID
    · simp [ValueSet.IDs, hw]
    · have hw' : ¬ v.InstanceID = w.InstanceID := fun e => hw e.symm
      simp only [ValueSet.IDs, List.map_cons, List.mem_cons, hw, hw', if_false, false_or]
        at ih ⊢
      rw [ih]
      split <;> simp

theorem ValueSet.mem_Set (set : ValueSet) (v m : InstanceCommon)
    (hm : m ∈ ValueSet.Set set v) : m = v ∨ m ∈ set := by
  induction set with
  | nil => simpa [ValueSet.Set] using hm
  | cons w rest ih =>
    unfold ValueSet.Set at hm
    split at hm
    · rcases List.mem_cons.mp hm with rfl | hm
      · exact Or.inl rfl
      · exact Or.inr (List.mem_cons_of_mem _ hm)
    · rcases List.mem_cons.mp hm with rfl | hm
      · exact Or.inr (List.mem_cons_self _ _)
      · rcases ih hm with rfl | hm
        · exact Or.inl rfl
        · exact Or.inr (List.mem_cons_of_mem _ hm)

theorem Instances.WF_Set (instances : Instances) (h : Instances.WF instances)
    (v : InstanceCommon) : Instances.WF (ValueSet.Set instances v) := by
  unfold Instances.WF at h ⊢
  rw [ValueSet.IDs_Set]
  split
  · exact h
  · rename_i hnot
    exact List.Nodup.append h (List.nodup_singleton _) (by simpa using hnot)

theorem Instances.WF_Delete (instances : Instances) (h : Instances.WF instances)
    (id : ID) : Instances.WF (ValueSet.Delete instances id) := by
  unfold Instances.WF ValueSet.IDs ValueSet.Delete at *
  exact (List.Nodup.sublist (List.Sublist.map _ (List.filter_sublist _)) h)

theorem Instances.atMostOne_Delete (instances : Instances)
    (h1 : Instances.AtMostOneLegacy instances) (id : ID) :
    Instances.AtMostOneLegacy (ValueSet.Delete instances id) := by
  unfold Instances.AtMostOneLegacy Instances.legacyCount ValueSet.Delete at *
  exact le_trans (List.Sublist.countP_le _ (List.filter_sublist _)) h1

theorem Instances.atMostOne_Set_unflagged (instances : Instances)
    (h1 : Instances.AtMostOneLegacy instances) (ic : InstanceCommon)
    (hic : ic.IsV2Legacy = false) :
    Instances.AtMostOneLegacy (ValueSet.Set instances ic) := by
  have key : ∀ s : ValueSet, Instances.legacyCount (ValueSet.Set s ic) ≤
      Instances.legacyCount s := by
    intro s
    induction s with
    | nil => simp [ValueSet.Set, Instances.legacyCount, hic]
    | cons w rest ih =>
      unfold ValueSet.Set
      split
      · simp only [Instances.legacyCount, List.countP_cons, hic]
        simp
      · simp only [Instances.legacyCount, List.countP_cons] at ih ⊢
        omega
  exact le_trans (key instances) h1

theorem Instances.atMostOne_Set (instances : Instances) (h : Instances.WF instances)
    (h1 : Instances.AtMostOneLegacy instances) (ic : InstanceCommon)
    (hic : ic.IsV2Legacy = false ∨
      ∀ m ∈ instances, m.IsV2Legacy = true → m.InstanceID = ic.InstanceID) :
    Instances.AtMostOneLegacy (ValueSet.Set instances ic) := by
  rcases hic with hic | hic
  · exact Instances.atMostOne_Set_unflagged instances h1 ic hic
  · apply Instances.atMostOne_of_flag_at _ (Instances.WF_Set instances h ic) ic.InstanceID
    intro m hm hflag
    rcases ValueSet.mem_Set instances ic m hm with rfl | hm
    · rfl
    · exact hic m hm hflag

theorem Instances.atMostOne_SetV2Legacy [UnicodeTables] (instances : Instances) (h : Instances.WF instances)
    (h1 : Instances.AtMostOneLegacy instances) (id : ID) :
    Instances.AtMostOneLegacy (Instances.SetV2Legacy instances id).1 := by
  cases hc : ValueSet.Contains instances id
  · simpa [Instances.SetV2Legacy, hc] using h1
  · obtain ⟨_, hids, hflag⟩ := Instances.SetV2Legacy_spec instances id h h1 hc
    apply Instances.atMostOne_of_flag_at _ _ id (fun m hm hf => (hflag m hm).mp hf)
    unfold Instances.WF
    rw [hids]
    exact h

@[simp] theorem Plugin.emit_instances (p : Plugin) (e : Effect) :
    (p.emit e).instances = p.instances := rfl

@[simp] theorem Plugin.emit_faults (p : Plugin) (e : Effect) :
    (p.emit e).faults = p.faults := rfl

/-- The registry the store holds after `InstallInstance`: as before, or with the new
record set. -/
theorem Plugin.InstallInstance_instances (p : Plugin) (newInstance : Instance) :
    (p.InstallInstance newInstance).1.instances = p.instances ∨
    (p.InstallInstance newInstance).1.instances =
      Instances.Set p.instances newInstance.Common := by
  by_cases hc : (!p.HasEnterpriseFeatures && decide ((ValueSet.IDs p.instances).length > 0)
        && !Instances.checkIfExists p.instances newInstance.GetID) = true <;>
  cases hL : p.faults.LoadInstances <;> cases hS : p.faults.StoreInstance <;>
    cases hSS : p.faults.StoreInstances <;> cases hR : p.faults.registerJiraCommand <;>
    simp only [Plugin.InstallInstance, UpdateInstances, Plugin.LoadInstances,
      InstallInstance.updatef, Plugin.StoreInstance, Plugin.StoreInstances, Plugin.reRegister,
      Plugin.registerJiraCommand, Plugin.wsInstancesChanged, hc, hL, hS, hSS, hR, if_true,
      if_false, Bool.false_eq_true, Plugin.emit_instances, Plugin.emit_faults, Option.bind, id,
      true_or, or_true]

theorem Plugin.disconnectUser_frame (p : Plugin) (i : Instance) (user : User) :
    (p.disconnectUser i user).1.instances = p.instances ∧
    (p.disconnectUser i user).1.faults = p.faults := by
  unfold Plugin.disconnectUser
  cases p.faults.disconnectUser <;> simp

theorem UninstallInstance.mapf_frame (i : Instance) (p : Plugin) (user : User) :
    (UninstallInstance.mapf i p user).1.instances = p.instances ∧
    (UninstallInstance.mapf i p user).1.faults = p.faults := by
  have h := Plugin.disconnectUser_frame p i user
  unfold UninstallInstance.mapf
  split
  · exact ⟨rfl, rfl⟩
  · split <;> rename_i heq <;> rw [heq] at h <;> simpa using h

theorem Plugin.mapUsersLoop_frame (f : Plugin → User → Plugin × Option GoError)
    (hf : ∀ p u, (f p u).1.instances = p.instances ∧ (f p u).1.faults = p.faults)
    (users : List User) (p : Plugin) :
    (Plugin.mapUsersLoop f p users).1.instances = p.instances ∧
    (Plugin.mapUsersLoop f p users).1.faults = p.faults := by
  induction users generalizing p with
  | nil => exact ⟨rfl, rfl⟩
  | cons u rest ih =>
    have h := hf p u
    unfold Plugin.mapUsersLoop
    split <;> rename_i heq <;> rw [heq] at h
    · simpa using h
    · rename_i p1
      have := ih p1
      simp only at h
      rw [h.1, h.2] at this
      exact this

theorem Plugin.MapUsers_frame (f : Plugin → User → Plugin × Option GoError)
    (hf : ∀ p u, (f p u).1.instances = p.instances ∧ (f p u).1.faults = p.faults)
    (p : Plugin) :
    (p.MapUsers f).1.instances = p.instances ∧ (p.MapUsers f).1.faults = p.faults := by
  unfold Plugin.MapUsers
  split
  · exact ⟨rfl, rfl⟩
  · exact Plugin.mapUsersLoop_frame f hf p.users p

/-- The registry the store holds after `UninstallInstance`: as before, or with the ID
deleted. -/
theorem Plugin.UninstallInstance_instances [UnicodeTables] (p : Plugin) (instanceID : ID)
    (instanceType : String) :
    (p.UninstallInstance instanceID instanceType).1.instances = p.instances ∨
    (p.UninstallInstance instanceID instanceType).1.instances =
      ValueSet.Delete p.instances instanceID := by
  cases hL : p.faults.LoadInstances with
  | some e => simp [Plugin.UninstallInstance, UpdateInstances, Plugin.LoadInstances, hL]
  | none =>
    cases hC : ValueSet.Contains p.instances instanceID with
    | false =>
      simp [Plugin.UninstallInstance, UpdateInstances, Plugin.LoadInstances,
        UninstallInstance.updatef, hL, hC]
    | true =>
      cases hI : p.LoadInstance instanceID with
      | error err =>
        by_cases hnf : stringsContains err.Error "not found" = true <;>
        cases hSS : p.faults.StoreInstances <;>
        simp [Plugin.UninstallInstance, UpdateInstances, Plugin.LoadInstances,
          UninstallInstance.updatef, Plugin.StoreInstances, Plugin.reRegister, hL, hC, hI, hnf,
          hSS]
      | ok i =>
        by_cases hT : instanceType ≠ i.Common.InstanceType
        · simp [Plugin.UninstallInstance, UpdateInstances, Plugin.LoadInstances,
            UninstallInstance.updatef, hL, hC, hI, hT]
        · have hM := Plugin.MapUsers_frame (UninstallInstance.mapf i)
            (UninstallInstance.mapf_frame i) p
          rcases hMe : p.MapUsers (UninstallInstance.mapf i) with ⟨p1, e⟩
          rw [hMe] at hM
          simp only at hM
          cases e <;> cases hD : p.faults.DeleteInstance <;>
          cases hSS : p.faults.StoreInstances <;> cases hR : p.faults.registerJiraCommand <;>
          simp [Plugin.UninstallInstance, UpdateInstances, Plugin.LoadInstances,
            UninstallInstance.updatef, Plugin.StoreInstances, Plugin.DeleteInstance,
            Plugin.reRegister, Plugin.registerJiraCommand, Plugin.wsInstancesChanged,
            hL, hC, hI, hT, hMe, hM.1, hM.2, hD, hSS, hR]

/-- The registry the store holds after `StoreV2LegacyInstance`. -/
theorem Plugin.StoreV2LegacyInstance_instances [UnicodeTables] (p : Plugin) (id : ID) :
    (p.StoreV2LegacyInstance id).1.instances = p.instances ∨
    (p.StoreV2LegacyInstance id).1.instances = (Instances.SetV2Legacy p.instances id).1 := by
  cases hL : p.faults.LoadInstances <;> cases hSS : p.faults.StoreInstances <;>
  cases hE : (Instances.SetV2Legacy p.instances id).2 <;>
  simp [Plugin.StoreV2LegacyInstance, UpdateInstances, Plugin.LoadInstances,
    Plugin.StoreInstances, hL, hSS, hE]

/-! ### C1: the legacy-holder invariant -/

/-- C1, as stated, fails: `Instances.Set` and the snapshot mutation of `InstallInstance`
store the record they are given, flag included. The registry `[A]` with `A` flagged has
one holder; after setting (or installing) the flagged record `C` it has two. -/
theorem C1_counterexample :
    Instances.WF [sampleA] ∧ Instances.AtMostOneLegacy [sampleA] ∧
    ¬ Instances.AtMostOneLegacy (Instances.Set [sampleA] sampleC) ∧
    samplePlugin.instances = [sampleA] ∧
    ¬ Instances.AtMostOneLegacy (samplePlugin.InstallInstance ⟨sampleC⟩).1.instances := by
  decide

/-- C1, amended: in a registry with unique keys and at most one legacy holder, `Delete`,
`SetV2Legacy`, and the registry persisted by `UninstallInstance` and by
`StoreV2LegacyInstance` again have at most one holder; `Instances.Set` and the registry
persisted by `InstallInstance` do so whenever the record set does not carry the flag, or
no member under another ID holds it. -/
theorem C1_legacy_invariant [UnicodeTables] (instances : Instances) (h : Instances.WF instances)
    (h1 : Instances.AtMostOneLegacy instances) :
    (∀ id, Instances.AtMostOneLegacy (ValueSet.Delete instances id)) ∧
    (∀ id, Instances.AtMostOneLegacy (Instances.SetV2Legacy instances id).1) ∧
    (∀ ic : InstanceCommon,
      (ic.IsV2Legacy = false ∨
        ∀ m ∈ instances, m.IsV2Legacy = true → m.InstanceID = ic.InstanceID) →
      Instances.AtMostOneLegacy (Instances.Set instances ic)) ∧
    (∀ (p : Plugin) (newInstance : Instance), p.instances = instances →
      (newInstance.Common.IsV2Legacy = false ∨
        ∀ m ∈ instances, m.IsV2Legacy = true → m.InstanceID = newInstance.Common.InstanceID) →
      Instances.AtMostOneLegacy (p.InstallInstance newInstance).1.instances) ∧
    (∀ (p : Plugin) (instanceID : ID) (instanceType : String), p.instances = instances →
      Instances.AtMostOneLegacy (p.UninstallInstance instanceID instanceType).1.instances) ∧
    (∀ (p : Plugin) (id : ID), p.instances = instances →
      Instances.AtMostOneLegacy (p.StoreV2LegacyInstance id).1.instances) := by
  refine ⟨fun id => Instances.atMostOne_Delete instances h1 id,
    fun id => Instances.atMostOne_SetV2Legacy instances h h1 id,
    fun ic hic => Instances.atMostOne_Set instances h h1 ic hic, ?_, ?_, ?_⟩
  · intro p newInstance hp hic
    subst hp
    rcases Plugin.InstallInstance_instances p newInstance with e | e <;> rw [e]
    · exact h1
    · exact Instances.atMostOne_Set p.instances h h1 _ hic
  · intro p instanceID instanceType hp
    subst hp
    rcases Plugin.UninstallInstance_instances p instanceID instanceType with e | e <;> rw [e]
    · exact h1
    · exact Instances.atMostOne_Delete p.instances h1 instanceID
  · intro p id hp
    subst hp
    rcases Plugin.StoreV2LegacyInstance_instances p id with e | e <;> rw [e]
    · exact h1
    · exact Instances.atMostOne_SetV2Legacy p.instances h h1 id

/-- C1 at the registry `[A, B]` with `A` flagged: deleting `A`, moving the flag to `B`,
and setting the unflagged `B` each leave at most one holder. -/
theorem C1_legacy_invariant_witness :
    Instances.WF [sampleA, sampleB] ∧ Instances.AtMostOneLegacy [sampleA, sampleB] ∧
    Instances.AtMostOneLegacy (ValueSet.Delete [sampleA, sampleB] "A") ∧
    Instances.AtMostOneLegacy (Instances.SetV2Legacy [sampleA, sampleB] "B").1 ∧
    Instances.AtMostOneLegacy (Instances.Set [sampleA, sampleB] sampleB) :=
  have w := C1_legacy_invariant [sampleA, sampleB] (by decide) (by decide)
  ⟨by decide, by decide, w.1 "A", w.2.1 "B", w.2.2.1 sampleB (Or.inl rfl)⟩

/-! ### C2: moving the flag -/

/-- C2: in a registry with unique keys and at most one legacy holder, for distinct
members `x` and `y`, `SetV2Legacy(x)` then `SetV2Legacy(y)` both succeed, the members
are the same IDs in the same order, member `y` holds the flag, and every other member,
`x` included, does not. -/
theorem C2_SetV2Legacy_twice [UnicodeTables] (instances : Instances) (x y : ID)
    (h : Instances.WF instances) (h1 : Instances.AtMostOneLegacy instances)
    (hxy : x ≠ y) (hx : ValueSet.Contains instances x = true)
    (hy : ValueSet.Contains instances y = true) :
    (Instances.SetV2Legacy instances x).2 = none ∧
    (Instances.SetV2Legacy (Instances.SetV2Legacy instances x).1 y).2 = none ∧
    ValueSet.IDs (Instances.SetV2Legacy (Instances.SetV2Legacy instances x).1 y).1 =
      ValueSet.IDs instances ∧
    (∃ m, ValueSet.Get (Instances.SetV2Legacy (Instances.SetV2Legacy instances x).1 y).1 y
      = some m ∧ m.IsV2Legacy = true) ∧
    (∀ m ∈ (Instances.SetV2Legacy (Instances.SetV2Legacy instances x).1 y).1,
      m.InstanceID ≠ y → m.IsV2Legacy = false) ∧
    (∃ m, ValueSet.Get (Instances.SetV2Legacy (Instances.SetV2Legacy instances x).1 y).1 x
      = some m ∧ m.IsV2Legacy = false) := by
  obtain ⟨e1, ids1, flag1⟩ := Instances.SetV2Legacy_spec instances x h h1 hx
  have hwf1 : Instances.WF (Instances.SetV2Legacy instances x).1 := by
    unfold Instances.WF; rw [ids1]; exact h
  have h11 := Instances.atMostOne_SetV2Legacy instances h h1 x
  have hy1 : ValueSet.Contains (Instances.SetV2Legacy instances x).1 y = true := by
    unfold ValueSet.Contains at hy ⊢; rw [ids1]; exact hy
  obtain ⟨e2, ids2, flag2⟩ :=
    Instances.SetV2Legacy_spec (Instances.SetV2Legacy instances x).1 y hwf1 h11 hy1
  have hwf2 : (ValueSet.IDs
      (Instances.SetV2Legacy (Instances.SetV2Legacy instances x).1 y).1).Nodup := by
    rw [ids2, ids1]; exact h
  have hmem : ∀ z, ValueSet.Contains instances z = true →
      ∃ m ∈ (Instances.SetV2Legacy (Instances.SetV2Legacy instances x).1 y).1,
        m.InstanceID = z := by
    intro z hz
    apply (ValueSet.Contains_iff _ z).mp
    unfold ValueSet.Contains at hz ⊢
    rw [ids2, ids1]; exact hz
  refine ⟨e1, e2, ids2.trans ids1, ?_, ?_, ?_⟩
  · obtain ⟨m, hm, hmy⟩ := hmem y hy
    refine ⟨m, ?_, (flag2 m hm).mpr hmy⟩
    have hg := ValueSet.Get_of_mem _ hwf2 m hm
    rw [hmy] at hg
    exact hg
  · intro m hm hne
    cases hf : m.IsV2Legacy
    · rfl
    · exact absurd ((flag2 m hm).mp hf) hne
  · obtain ⟨m, hm, hmx⟩ := hmem x hx
    refine ⟨m, ?_, ?_⟩
    · have hg := ValueSet.Get_of_mem _ hwf2 m hm
      rw [hmx] at hg
      exact hg
    · cases hf : m.IsV2Legacy
      · rfl
      · exact absurd (((flag2 m hm).mp hf).symm.trans hmx).symm hxy

/-- C2 at the registry `[A, B]`: after `SetV2Legacy("A")` then `SetV2Legacy("B")`. -/
theorem C2_SetV2Legacy_twice_witness :
    (Instances.SetV2Legacy (Instances.SetV2Legacy [sampleA, sampleB] "A").1 "B").2 = none ∧
    (∃ m, ValueSet.Get
      (Instances.SetV2Legacy (Instances.SetV2Legacy [sampleA, sampleB] "A").1 "B").1 "A"
      = some m ∧ m.IsV2Legacy = false) :=
  have w := C2_SetV2Legacy_twice [sampleA, sampleB] "A" "B" (by decide) (by decide)
    (by decide) (by decide) (by decide)
  ⟨w.2.1, w.2.2.2.2.2⟩

/-! ### C3: the failure of `SetV2Legacy` -/

/-- C3: `SetV2Legacy(id)` returns an error exactly when `id` is not a member; that error
is the NotFound error for `id`; and when it returns an error the registry is unchanged:
the same members, hence the same IDs in the same order and the same flags. -/
theorem C3_SetV2Legacy_not_found [UnicodeTables] (instances : Instances) (id : ID) :
    ((∃ err, (Instances.SetV2Legacy instances id).2 = some err ∧ err.IsNotFound = true) ↔
      id ∉ ValueSet.IDs instances) ∧
    ((Instances.SetV2Legacy instances id).2 ≠ none ↔ id ∉ ValueSet.IDs instances) ∧
    ((Instances.SetV2Legacy instances id).2 ≠ none →
      (Instances.SetV2Legacy instances id).1 = instances ∧
      ValueSet.IDs (Instances.SetV2Legacy instances id).1 = ValueSet.IDs instances ∧
      (Instances.SetV2Legacy instances id).1.map (fun m => m.IsV2Legacy) =
        instances.map (fun m => m.IsV2Legacy)) := by
  by_cases hc : id ∈ ValueSet.IDs instances
  · simp [Instances.SetV2Legacy, ValueSet.Contains, hc]
  · simp [Instances.SetV2Legacy, ValueSet.Contains, hc, instanceNotFound, GoError.IsNotFound,
      GoError.Cause]

/-! ### C4, C5: the licensing check of `InstallInstance` -/

theorem Instances.checkIfExists_iff (instances : Instances) (instanceID : ID) :
    Instances.checkIfExists instances instanceID = true ↔
      instanceID ∈ ValueSet.IDs instances := by
  unfold Instances.checkIfExists
  rw [List.any_eq_true]
  constructor
  · rintro ⟨x, hx, he⟩
    rw [← of_decide_eq_true he]
    exact hx
  · intro h
    exact ⟨instanceID, h, decide_eq_true rfl⟩

/-- The licensing condition of the source, in words. -/
theorem InstallInstance.unlicensed_iff (p : Plugin) (instances : Instances)
    (newInstance : Instance) :
    (!p.HasEnterpriseFeatures && decide ((ValueSet.IDs instances).length > 0)
        && !Instances.checkIfExists instances newInstance.GetID) = true ↔
    (p.HasEnterpriseFeatures = false ∧ instances ≠ [] ∧
      newInstance.GetID ∉ ValueSet.IDs instances) := by
  have hlen : 0 < (ValueSet.IDs instances).length ↔ instances ≠ [] := by
    cases instances <;> simp [ValueSet.IDs]
  have hex := Instances.checkIfExists_iff instances newInstance.GetID
  cases hE : p.HasEnterpriseFeatures <;> cases hX : Instances.checkIfExists instances
    newInstance.GetID <;> simp [hX, hlen] at hex ⊢ <;> intro _ <;> exact hex

/-- C4: when the instance store operations succeed, `InstallInstance` returns the
licensing error, whose text is exactly the licensing message, if and only if the
capability is missing, the registry holds at least one instance, and the new ID is not
a member; in every other case it returns no error. -/
theorem C4_InstallInstance_licensing (p : Plugin) (newInstance : Instance)
    (hL : p.faults.LoadInstances = none) (hS : p.faults.StoreInstance = none)
    (hSS : p.faults.StoreInstances = none) :
    ((p.InstallInstance newInstance).2 = Go.ret (some (GoError.New licenseErrorString)) ↔
      (p.HasEnterpriseFeatures = false ∧ p.instances ≠ [] ∧
        newInstance.GetID ∉ ValueSet.IDs p.instances)) ∧
    (¬ (p.HasEnterpriseFeatures = false ∧ p.instances ≠ [] ∧
        newInstance.GetID ∉ ValueSet.IDs p.instances) →
      (p.InstallInstance newInstance).2 = Go.ret none) ∧
    (GoError.New licenseErrorString).Error = licenseErrorString := by
  have hiff := InstallInstance.unlicensed_iff p p.instances newInstance
  by_cases hc : (!p.HasEnterpriseFeatures && decide ((ValueSet.IDs p.instances).length > 0)
        && !Instances.checkIfExists p.instances newInstance.GetID) = true
  · have hw := hiff.mp hc
    have hr : (p.InstallInstance newInstance).2 =
        Go.ret (some (GoError.New licenseErrorString)) := by
      simp only [Plugin.InstallInstance, UpdateInstances, Plugin.LoadInstances,
        InstallInstance.updatef, hc, hL, if_true]
    exact ⟨⟨fun _ => hw, fun _ => hr⟩, fun hn => absurd hw hn, rfl⟩
  · have hw : ¬ (p.HasEnterpriseFeatures = false ∧ p.instances ≠ [] ∧
        newInstance.GetID ∉ ValueSet.IDs p.instances) := fun hw => hc (hiff.mpr hw)
    have hr : (p.InstallInstance newInstance).2 = Go.ret none := by
      cases hR : p.faults.registerJiraCommand <;>
      simp only [Plugin.InstallInstance, UpdateInstances, Plugin.LoadInstances,
        InstallInstance.updatef, Plugin.StoreInstance, Plugin.StoreInstances,
        Plugin.reRegister, Plugin.registerJiraCommand, Plugin.wsInstancesChanged, hc, hL, hS,
        hSS, hR, if_false, Bool.false_eq_true, Plugin.emit_faults, Option.bind, id]
    refine ⟨⟨fun h => ?_, fun h => absurd h hw⟩, fun _ => hr, rfl⟩
    rw [hr] at h
    simp at h

/-- C4 at a plugin without the capability holding `[A]`: installing `C` is rejected. -/
theorem C4_InstallInstance_licensing_witness :
    ({ samplePlugin with HasEnterpriseFeatures := false }.InstallInstance ⟨sampleC⟩).2 =
      Go.ret (some (GoError.New licenseErrorString)) :=
  (C4_InstallInstance_licensing { samplePlugin with HasEnterpriseFeatures := false }
    ⟨sampleC⟩ rfl rfl rfl).1.mpr (by decide)

/-- C5: when `InstallInstance` is rejected with the licensing error (and that error is
not one the store itself hands back from `StoreInstances`), nothing is mutated: the
plugin and its collaborators are as before, so the persisted registry and the
per-instance records are unchanged and the trace has gained no call, neither
`StoreInstance` nor a re-registration nor a broadcast; and the callback that reports the
licensing error leaves the in-memory snapshot as it was given. -/
theorem C5_InstallInstance_rejected_frame (p : Plugin) (newInstance : Instance)
    (hrej : (p.InstallInstance newInstance).2 =
      Go.ret (some (GoError.New licenseErrorString)))
    (hstore : p.faults.StoreInstances ≠ some (GoError.New licenseErrorString)) :
    (p.InstallInstance newInstance).1 = p ∧
    (p.InstallInstance newInstance).1.trace = p.trace ∧
    (p.InstallInstance newInstance).1.instances = p.instances ∧
    (∀ (snapshot : Instances) (m : Mutated (Option Instances)),
      InstallInstance.updatef newInstance p (some snapshot) = Go.ret m →
      m.err = some (GoError.New licenseErrorString) →
      m.instances = some snapshot ∧ m.plugin = p ∧ m.captured = none) := by
  have hstate : (p.InstallInstance newInstance).1 = p := by
    revert hrej
    by_cases hc : (!p.HasEnterpriseFeatures && decide ((ValueSet.IDs p.instances).length > 0)
          && !Instances.checkIfExists p.instances newInstance.GetID) = true <;>
    cases hL : p.faults.LoadInstances <;> cases hS : p.faults.StoreInstance <;>
      cases hSS : p.faults.StoreInstances <;> cases hR : p.faults.registerJiraCommand <;>
      simp only [Plugin.InstallInstance, UpdateInstances, Plugin.LoadInstances,
        InstallInstance.updatef, Plugin.StoreInstance, Plugin.StoreInstances,
        Plugin.reRegister, Plugin.registerJiraCommand, Plugin.wsInstancesChanged, hc, hL, hS,
        hSS, hR, if_true, if_false, Bool.false_eq_true, Plugin.emit_instances,
        Plugin.emit_faults, Option.bind, id] <;>
      simp_all
  refine ⟨hstate, by rw [hstate], by rw [hstate], ?_⟩
  intro snapshot m hm herr
  by_cases hc : (!p.HasEnterpriseFeatures && decide ((ValueSet.IDs snapshot).length > 0)
        && !Instances.checkIfExists snapshot newInstance.GetID) = true
  · simp only [InstallInstance.updatef, hc, if_true, Go.ret.injEq] at hm
    subst hm
    exact ⟨rfl, rfl, rfl⟩
  · cases hS : p.faults.StoreInstance <;>
      simp only [InstallInstance.updatef, hc, if_false, Bool.false_eq_true,
        Plugin.StoreInstance, hS, Go.ret.injEq] at hm <;> subst hm <;> simp at herr

/-- C5 at a plugin without the capability holding `[A]`: the rejected install of `C`
leaves the plugin as it was. -/
theorem C5_InstallInstance_rejected_frame_witness :
    ({ samplePlugin with HasEnterpriseFeatures := false }.InstallInstance ⟨sampleC⟩).1 =
      { samplePlugin with HasEnterpriseFeatures := false } :=
  (C5_InstallInstance_rejected_frame { samplePlugin with HasEnterpriseFeatures := false }
    ⟨sampleC⟩ (by decide) (by decide)).1

/-! ### C6 to C9: the resolver -/

theorem Instances.getByAlias_loop_eq_find (instances : Instances)
    (h : (ValueSet.IDs instances).Nodup) (a : String) (l : List InstanceCommon)
    (hl : ∀ v ∈ l, v ∈ instances) :
    (ValueSet.IDs l).findSome? (fun id =>
      match ValueSet.Get instances id with
      | some inst => if inst.Alias = a then some inst else none
      | none => none) = l.find? (fun m => decide (m.Alias = a)) := by
  induction l with
  | nil => rfl
  | cons v rest ih =>
    have hv := ValueSet.Get_of_mem instances h v (hl v (List.mem_cons_self _ _))
    have ih := ih (fun w hw => hl w (List.mem_cons_of_mem _ hw))
    simp only [ValueSet.IDs, List.map_cons] at ih ⊢
    simp only [List.findSome?_cons, hv, List.find?_cons]
    by_cases ha : v.Alias = a
    · simp [ha]
    · simp [ha, ih]

theorem Instances.getByAlias_eq_find (instances : Instances) (h : Instances.WF instances)
    (a : String) :
    Instances.getByAlias instances a =
      if a = "" then none else instances.find? (fun m => decide (m.Alias = a)) := by
  unfold Instances.getByAlias
  split
  · rfl
  · exact Instances.getByAlias_loop_eq_find instances h a instances (fun _ hv => hv)

theorem Instances.getByAlias_empty (instances : Instances) :
    Instances.getByAlias instances "" = none := by
  simp [Instances.getByAlias]

/-- The steps of `resolveUserInstanceURL` that follow an unusable hint. -/
theorem Plugin.resolveUserInstanceURL_empty (NormalizeJiraURL : String → Except GoError String)
    (p : Plugin) (user : User)
    (hconn : Instances.IsEmpty user.ConnectedInstances = false)
    (hL : p.faults.LoadInstances = none) :
    p.resolveUserInstanceURL NormalizeJiraURL user "" =
      if user.DefaultInstanceID ≠ "" ∧
          user.DefaultInstanceID ∈ ValueSet.IDs user.ConnectedInstances then
        .ok user.DefaultInstanceID
      else
        match user.ConnectedInstances with
        | [only] => .ok only.InstanceID
        | _ => .error errNoDefault := by
  obtain ⟨uid, conn, dflt⟩ := user
  unfold Plugin.resolveUserInstanceURL
  simp only [hconn, Bool.false_eq_true, if_false, ne_eq, not_true_eq_false,
    Plugin.LoadInstances, hL, Instances.getByAlias_empty, ValueSet.Contains,
    decide_eq_true_eq]
  split
  · rfl
  · rcases conn with _ | ⟨c, _ | ⟨d, rest⟩⟩
    · simp [ValueSet.Len]
    · simp [ValueSet.Len, ValueSet.IDs]
    · simp [ValueSet.Len]

/-- C6: for a connected user and an empty hint (the registry being loaded),
`resolveUserInstanceURL` returns `DefaultInstanceID` when it is non-empty and a member
of `ConnectedInstances`; otherwise the single connected instance when there is exactly
one; otherwise it fails. In particular a user connected to `a` and `b` with default `a`
resolves to `a`, and after `a` is removed from `ConnectedInstances` the same call
resolves to `b`. -/
theorem C6_resolve_empty_hint (NormalizeJiraURL : String → Except GoError String)
    (p : Plugin) (hL : p.faults.LoadInstances = none) :
    (∀ user : User, Instances.IsEmpty user.ConnectedInstances = false →
      p.resolveUserInstanceURL NormalizeJiraURL user "" =
        if user.DefaultInstanceID ≠ "" ∧
            user.DefaultInstanceID ∈ ValueSet.IDs user.ConnectedInstances then
          .ok user.DefaultInstanceID
        else
          match user.ConnectedInstances with
          | [only] => .ok only.InstanceID
          | _ => .error errNoDefault) ∧
    (∀ (uid : ID) (a b : InstanceCommon), a.InstanceID ≠ "" → a.InstanceID ≠ b.InstanceID →
      p.resolveUserInstanceURL NormalizeJiraURL ⟨uid, [a, b], a.InstanceID⟩ "" =
        .ok a.InstanceID ∧
      p.resolveUserInstanceURL NormalizeJiraURL
        ⟨uid, ValueSet.Delete [a, b] a.InstanceID, a.InstanceID⟩ "" = .ok b.InstanceID) := by
  refine ⟨fun user hconn => Plugin.resolveUserInstanceURL_empty NormalizeJiraURL p user hconn hL,
    ?_⟩
  intro uid a b ha hab
  have hba : ¬ b.InstanceID = a.InstanceID := fun e => hab e.symm
  constructor
  · rw [Plugin.resolveUserInstanceURL_empty NormalizeJiraURL p ⟨uid, [a, b], a.InstanceID⟩
      rfl hL]
    simp [ValueSet.IDs, ha]
  · have hdel : ValueSet.Delete [a, b] a.InstanceID = [b] := by
      simp [ValueSet.Delete, List.filter, hba]
    rw [hdel, Plugin.resolveUserInstanceURL_empty NormalizeJiraURL p ⟨uid, [b], a.InstanceID⟩
      rfl hL]
    simp [ValueSet.IDs, ha, hab]

/-- C6 at the sample user, connected to `A` and `B` with default `A`. -/
theorem C6_resolve_empty_hint_witness :
    samplePlugin.resolveUserInstanceURL sampleNormalize sampleUser "" = .ok "A" ∧
    samplePlugin.resolveUserInstanceURL sampleNormalize
      { sampleUser with ConnectedInstances := ValueSet.Delete [sampleA, sampleB] "A" } ""
      = .ok "B" :=
  (C6_resolve_empty_hint sampleNormalize samplePlugin rfl).2 "user" sampleA sampleB
    (by decide) (by decide)

/-- C7, as stated, fails when the normalizer changes the hint. `X` is installed with the
alias `prod` and the hint is `prod`; the hint is normalized before the alias is looked
up, so with a normalizer that puts the scheme in front the lookup is for `https://prod`,
finds no instance, and the normalized hint is returned as the ID instead of `X`. -/
theorem C7_counterexample :
    sampleX ∈ ({ samplePlugin with instances := [sampleProd, sampleX] }).instances ∧
    sampleX.Alias = "prod" ∧
    Instances.IsEmpty sampleUser.ConnectedInstances = false ∧
    ({ samplePlugin with instances := [sampleProd, sampleX] }).resolveUserInstanceURL
      sampleHttps sampleUser "prod" = .ok "https://prod" ∧
    ({ samplePlugin with instances := [sampleProd, sampleX] }).resolveUserInstanceURL
      sampleHttps sampleUser "prod" ≠ .ok sampleX.InstanceID := by
  decide

/-- C7, amended: for a connected user and a non-empty hint whose normalized form `h`
is non-empty and is the alias of an installed instance, `resolveUserInstanceURL`
returns the ID of the first installed instance `X` with that alias, provided that ID is
non-empty; this holds whether or not an installed instance has the literal ID `h`. -/
theorem C7_alias_precedence (NormalizeJiraURL : String → Except GoError String)
    (p : Plugin) (user : User) (hint h : String) (X : InstanceCommon)
    (hconn : Instances.IsEmpty user.ConnectedInstances = false)
    (hL : p.faults.LoadInstances = none) (hwf : Instances.WF p.instances)
    (hhint : hint ≠ "") (hnorm : NormalizeJiraURL hint = .ok h) (hh : h ≠ "")
    (hX : p.instances.find? (fun m => decide (m.Alias = h)) = some X)
    (hid : X.InstanceID ≠ "") :
    p.resolveUserInstanceURL NormalizeJiraURL user hint = .ok X.InstanceID := by
  unfold Plugin.resolveUserInstanceURL
  simp only [hconn, Bool.false_eq_true, if_false, hhint, ne_eq, not_false_eq_true, if_true,
    hnorm, Plugin.LoadInstances, hL, Instances.getByAlias_eq_find p.instances hwf h, hh, hX,
    hid]

/-- C7 at a normalizer that puts the scheme in front and the registry
`[https://prod, X]`, where `X` has the alias `https://prod` and another instance has that
text as its literal ID: the hint `prod` is normalized to `https://prod` and resolves to
`X`. -/
theorem C7_alias_precedence_witness :
    sampleHttps "prod" = .ok "https://prod" ∧
    ({ samplePlugin with instances := [sampleProdUrl, sampleXUrl] }).resolveUserInstanceURL
      sampleHttps sampleUser "prod" = .ok "X" :=
  ⟨rfl, C7_alias_precedence sampleHttps
    { samplePlugin with instances := [sampleProdUrl, sampleXUrl] }
    sampleUser "prod" "https://prod" sampleXUrl (by decide) rfl (by decide) (by decide) rfl
    (by decide) (by decide) (by decide)⟩

/-- C8: for a user without connected instances and every hint, `resolveUserInstanceURL`
fails with the not-connected error, a NotFound error, and returns no instance ID. -/
theorem C8_resolve_not_connected (NormalizeJiraURL : String → Except GoError String)
    (p : Plugin) (user : User) (hint : String)
    (hconn : Instances.IsEmpty user.ConnectedInstances = true) :
    p.resolveUserInstanceURL NormalizeJiraURL user hint = .error errNotConnected ∧
    errNotConnected.IsNotFound = true ∧
    ∀ id, p.resolveUserInstanceURL NormalizeJiraURL user hint ≠ .ok id := by
  have hr : p.resolveUserInstanceURL NormalizeJiraURL user hint = .error errNotConnected := by
    unfold Plugin.resolveUserInstanceURL
    simp only [hconn, if_true]
  refine ⟨hr, by decide, fun id => ?_⟩
  rw [hr]
  simp

/-- C8 at a user without connections and the hint `prod`, an alias in the registry. -/
theorem C8_resolve_not_connected_witness :
    ({ samplePlugin with instances := [sampleProd, sampleX] }).resolveUserInstanceURL
      sampleNormalize ⟨"user", [], "A"⟩ "prod" = .error errNotConnected :=
  (C8_resolve_not_connected sampleNormalize
    { samplePlugin with instances := [sampleProd, sampleX] } ⟨"user", [], "A"⟩ "prod" rfl).1

/-- C9: `ResolveWebhookInstanceURL` equals the reference definition on the loaded
registry (unique keys), for a normalizer that never hands back the empty string. -/
theorem C9_ResolveWebhook_reference (NormalizeJiraURL : String → Except GoError String)
    (p : Plugin) (hint : String)
    (hL : p.faults.LoadInstances = none) (hwf : Instances.WF p.instances)
    (hnorm : ∀ s, NormalizeJiraURL s ≠ .ok "") :
    p.ResolveWebhookInstanceURL NormalizeJiraURL hint =
      ResolveWebhookInstanceURL_reference NormalizeJiraURL p.instances hint := by
  unfold Plugin.ResolveWebhookInstanceURL ResolveWebhookInstanceURL_reference
  by_cases hh : hint = ""
  · subst hh
    simp only [ne_eq, not_true_eq_false, if_false, if_true, Plugin.LoadInstances, hL,
      Instances.GetV2Legacy_eq_find p.instances hwf]
    rcases hi : p.instances with _ | ⟨c, _ | ⟨d, rest⟩⟩
    · simp [Instances.IsEmpty, ValueSet.IsEmpty]
    · cases hc : c.IsV2Legacy <;>
        simp [Instances.IsEmpty, ValueSet.IsEmpty, ValueSet.Len, ValueSet.IDs, hc]
    · cases hc : c.IsV2Legacy <;> cases hd : d.IsV2Legacy <;>
        simp only [Instances.IsEmpty, ValueSet.IsEmpty, ValueSet.Len, List.find?_cons, hc, hd,
          List.isEmpty_cons, Bool.false_eq_true, if_false, List.length_cons] <;>
        first
        | rfl
        | (cases hf : List.find? (fun v => v.IsV2Legacy) rest <;> simp)
  · simp only [ne_eq, hh, not_false_eq_true, if_true]
    cases hn : NormalizeJiraURL hint with
    | error e => rfl
    | ok r =>
      have hr : r ≠ "" := fun e => hnorm hint (by rw [hn, e])
      simp [hr]

theorem sampleHttps_ne_empty (s : String) : sampleHttps s ≠ .ok "" := by
  intro h
  have h2 := congrArg String.length (Except.ok.inj h)
  rw [String.length_append] at h2
  have h8 : "https://".length = 8 := by decide
  have h0 : "".length = 0 := by decide
  omega

/-- C9 at the registry `[A, B]` with `A` flagged and an empty hint: the result is `A`,
although two instances are installed. -/
theorem C9_ResolveWebhook_reference_witness :
    ({ samplePlugin with instances := [sampleA, sampleB] }).ResolveWebhookInstanceURL
      sampleHttps "" = ResolveWebhookInstanceURL_reference sampleHttps [sampleA, sampleB] "" ∧
    ResolveWebhookInstanceURL_reference sampleHttps [sampleA, sampleB] "" = .ok "A" :=
  ⟨C9_ResolveWebhook_reference sampleHttps
    { samplePlugin with instances := [sampleA, sampleB] } "" rfl (by decide)
    sampleHttps_ne_empty, by decide⟩

/-! ### C10: error normalization -/

theorem userFriendlyJiraError.format_coder (resp : Option Response) (err : GoError)
    (Errors : List (String × String)) (ErrorMessages : List String) (e : GoError)
    (h : userFriendlyJiraError.format resp err Errors ErrorMessages = .ret e) :
    e.implementsStatusCoder = true := by
  unfold userFriendlyJiraError.format at h
  split at h <;> split at h <;> first
    | (rw [Go.ret.injEq] at h; subst h; rfl)
    | (cases h)

/-- Whatever `userFriendlyJiraError` returns is a `RESTError`. -/
theorem userFriendlyJiraError_coder (NewJiraError : Response → GoError → GoError)
    (resp : Option Response) (err e : GoError)
    (h : userFriendlyJiraError NewJiraError resp err = .ret e) :
    e.implementsStatusCoder = true := by
  unfold userFriendlyJiraError at h
  split at h
  · exact userFriendlyJiraError.format_coder _ _ _ _ e h
  · split at h
    · rw [Go.ret.injEq] at h; subst h; rfl
    · split at h
      · exact userFriendlyJiraError.format_coder _ _ _ _ e h
      · rw [Go.ret.injEq] at h; subst h; rfl

/-- `userFriendlyJiraError` returns whenever a response is present, or the error is not
a `*jira.Error` bare of field errors and messages. -/
theorem userFriendlyJiraError_returns (NewJiraError : Response → GoError → GoError)
    (resp : Option Response) (err : GoError)
    (h : resp.isSome = true ∨ err.isEmptyJiraError = false) :
    ∃ e, userFriendlyJiraError NewJiraError resp err = .ret e ∧
      e.implementsStatusCoder = true := by
  have key : ∃ e, userFriendlyJiraError NewJiraError resp err = .ret e := by
    cases resp with
    | some r =>
      unfold userFriendlyJiraError userFriendlyJiraError.format
      split
      · split <;> exact ⟨_, rfl⟩
      · dsimp only
        split
        · split <;> exact ⟨_, rfl⟩
        · exact ⟨_, rfl⟩
    | none =>
      have h' : err.isEmptyJiraError = false := by simpa using h
      unfold userFriendlyJiraError userFriendlyJiraError.format
      split
      · rename_i hh es ms
        split
        · rename_i hlen
          have hes : es = [] := List.length_eq_zero.mp hlen.1
          have hms : ms = [] := List.length_eq_zero.mp hlen.2
          subst hes hms
          simp [GoError.isEmptyJiraError] at h'
        · exact ⟨_, rfl⟩
      · exact ⟨_, rfl⟩
  obtain ⟨e, he⟩ := key
  exact ⟨e, he, userFriendlyJiraError_coder NewJiraError resp err e he⟩

/-- The shape shared by the typed operations: translate the upstream failure. -/
theorem translate_value {α : Type} (NewJiraError : Response → GoError → GoError)
    (call : Upstream α)
    (h : call.resp.isSome = true ∨ ∀ err, call.err = some err → err.isEmptyJiraError = false)
    (tail : Option GoError) (htail : call.err = none → tail = none) :
    ∃ r, (match call.err with
        | some err =>
          (userFriendlyJiraError NewJiraError call.resp err).map
            (fun e => ((none : Option α), some e))
        | none => Go.ret (some call.value, tail)) = .ret r ∧
      noErrorOrStatusCoder r.2 = true := by
  cases hc : call.err with
  | none => exact ⟨_, rfl, by rw [htail hc]; rfl⟩
  | some err =>
    obtain ⟨e, he, hcoder⟩ := userFriendlyJiraError_returns NewJiraError call.resp err
      (h.imp id (fun h' => h' err hc))
    exact ⟨(none, some e), by simp only [he, Go.map], hcoder⟩

/-- The shape shared by the operations that return an error only. -/
theorem translate_error (NewJiraError : Response → GoError → GoError)
    (call : Upstream Unit)
    (h : call.resp.isSome = true ∨ ∀ err, call.err = some err → err.isEmptyJiraError = false)
    (tail : Option GoError) (htail : call.err = none → tail = none) :
    ∃ r, (match call.err with
        | some err => (userFriendlyJiraError NewJiraError call.resp err).map some
        | none => Go.ret tail) = .ret r ∧
      noErrorOrStatusCoder r = true := by
  cases hc : call.err with
  | none => exact ⟨_, rfl, by rw [htail hc]; rfl⟩
  | some err =>
    obtain ⟨e, he, hcoder⟩ := userFriendlyJiraError_returns NewJiraError call.resp err
      (h.imp id (fun h' => h' err hc))
    exact ⟨some e, by simp only [he, Go.map], hcoder⟩

/-- C10, as stated, fails: `SearchIssues` answers a refusal with status 403 by a plain
`errors.New` value, which has no `StatusCode` method; and `RESTGet` hands back the error
of `url.Parse` as it is. -/
theorem C10_counterexample :
    JiraClient.SearchIssues sampleNewJiraError sampleForbidden =
      .ret (none, some (GoError.New "not authorized to search issues")) ∧
    noErrorOrStatusCoder (some (GoError.New "not authorized to search issues")) = false ∧
    JiraClient.RESTGet sampleNewJiraError (fun _ => .error (GoError.External "parse"))
      (fun a b => a ++ "/" ++ b) (fun _ _ => none) ⟨(), none, none⟩ "%" =
      .ret (some (GoError.External "parse")) ∧
    noErrorOrStatusCoder (some (GoError.External "parse")) = false := by
  decide

/-- C10, amended. Let an upstream failure be called translatable when it comes with a
response, or with an error other than a `*jira.Error` bare of field errors and messages.
Then `GetProject`, `GetIssue`, `GetTransitions`, `CreateIssue`, `UpdateAssignee`,
`AddComment`, `UpdateComment`, `DoTransition` and `GetSelf` return, for every
translatable outcome, either no error or an error that implements `StatusCoder`;
`RESTGet` does so once the endpoint was parsed and the request built; `SearchIssues`
does so for every outcome with a response whose status is neither 403 nor 401, and
returns a plain error for those two; `RESTPostAttachment` does so whenever it returns
after an upload that failed with a response. -/
theorem C10_error_normalization (NewJiraError : Response → GoError → GoError) :
    (∀ (α : Type) (call : Upstream α),
      (call.resp.isSome = true ∨
        ∀ err, call.err = some err → err.isEmptyJiraError = false) →
      (∃ r, JiraClient.GetProject NewJiraError call = .ret r ∧
        noErrorOrStatusCoder r.2 = true) ∧
      (∃ r, JiraClient.GetIssue NewJiraError call = .ret r ∧
        noErrorOrStatusCoder r.2 = true) ∧
      (∃ r, JiraClient.GetTransitions NewJiraError call = .ret r ∧
        noErrorOrStatusCoder r.2 = true) ∧
      (∃ r, JiraClient.CreateIssue NewJiraError call = .ret r ∧
        noErrorOrStatusCoder r.2 = true) ∧
      (∃ r, JiraClient.AddComment NewJiraError call = .ret r ∧
        noErrorOrStatusCoder r.2 = true) ∧
      (∃ r, JiraClient.UpdateComment NewJiraError call = .ret r ∧
        noErrorOrStatusCoder r.2 = true) ∧
      (∃ r, JiraClient.GetSelf NewJiraError call = .ret r ∧
        noErrorOrStatusCoder r.2 = true) ∧
      (∀ resp, call.resp = some resp → resp.StatusCode ≠ 403 → resp.StatusCode ≠ 401 →
        ∃ r, JiraClient.SearchIssues NewJiraError call = .ret r ∧
          noErrorOrStatusCoder r.2 = true) ∧
      (∀ resp err, call.resp = some resp → call.err = some err →
        (resp.StatusCode = 403 ∨ resp.StatusCode = 401) →
        JiraClient.SearchIssues NewJiraError call =
          .ret (none, some (GoError.New "not authorized to search issues")))) ∧
    (∀ (call : Upstream Unit),
      (call.resp.isSome = true ∨
        ∀ err, call.err = some err → err.isEmptyJiraError = false) →
      (∃ r, JiraClient.UpdateAssignee NewJiraError call = .ret r ∧
        noErrorOrStatusCoder r = true) ∧
      (∃ r, JiraClient.DoTransition NewJiraError call = .ret r ∧
        noErrorOrStatusCoder r = true) ∧
      (∀ urlParse pathJoin NewRequest endpoint url,
        endpointURL urlParse pathJoin endpoint = .ok url → NewRequest "GET" url = none →
        ∃ r, JiraClient.RESTGet NewJiraError urlParse pathJoin NewRequest call endpoint
            = .ret r ∧ noErrorOrStatusCoder r = true)) ∧
    (∀ (α : Type) urlParse pathJoin jsonUnmarshal (upload : Upload α) issueID url resp err r,
      endpointURL urlParse pathJoin ("2/issue/" ++ issueID ++ "/attachments") = .ok url →
      upload.CreateFormFile = none → upload.Copy = none → upload.NewMultiPartRequest = none →
      upload.Do.resp = some resp → upload.Do.err = some err →
      JiraClient.RESTPostAttachment NewJiraError urlParse pathJoin jsonUnmarshal upload issueID
        = .ret r →
      r.1 = none ∧ noErrorOrStatusCoder r.2 = true) := by
  refine ⟨fun α call h => ⟨?_, ?_, ?_, ?_, ?_, ?_, ?_, ?_, ?_⟩,
    fun call h => ⟨?_, ?_, ?_⟩, ?_⟩
  · exact translate_value NewJiraError call h none (fun _ => rfl)
  · exact translate_value NewJiraError call h none (fun _ => rfl)
  · exact translate_value NewJiraError call h call.err id
  · exact translate_value NewJiraError call h none (fun _ => rfl)
  · exact translate_value NewJiraError call h call.err id
  · exact translate_value NewJiraError call h call.err id
  · exact translate_value NewJiraError call h none (fun _ => rfl)
  · intro resp hresp h403 h401
    have h' : call.resp.isSome = true ∨
        ∀ err, call.err = some err → err.isEmptyJiraError = false := by
      left; rw [hresp]; rfl
    obtain ⟨r, hr, hcoder⟩ := translate_value NewJiraError call h' none (fun _ => rfl)
    refine ⟨r, ?_, hcoder⟩
    rw [← hr]
    unfold JiraClient.SearchIssues
    cases hc : call.err with
    | none => rfl
    | some err => simp only [hresp, h403, h401, or_self, if_false]
  · intro resp err hresp herr hst
    unfold JiraClient.SearchIssues
    simp only [herr, hresp, hst, if_true]
  · exact translate_error NewJiraError call h call.err id
  · exact translate_error NewJiraError call h none (fun _ => rfl)
  · intro urlParse pathJoin NewRequest endpoint url hurl hreq
    unfold JiraClient.RESTGet
    simp only [hurl, hreq]
    exact translate_error NewJiraError call h none (fun _ => rfl)
  · intro α urlParse pathJoin jsonUnmarshal upload issueID url resp err r hurl hC hCp hN hresp
      herr hr
    unfold JiraClient.RESTPostAttachment at hr
    simp only [hurl, hC, hCp, hN, herr, hresp] at hr
    cases hj : jsonUnmarshal resp.Body with
    | none =>
      simp only [hj, Go.ret.injEq] at hr
      subst hr
      exact ⟨rfl, rfl⟩
    | some em =>
      obtain ⟨es, ms⟩ := em
      simp only [hj] at hr
      cases hu : userFriendlyJiraError NewJiraError none (GoError.JiraError "" es ms) with
      | panic => simp [hu, Go.map] at hr
      | ret e =>
        simp only [hu, Go.map, Go.ret.injEq] at hr
        subst hr
        exact ⟨rfl, rfl⟩

/-! ### C11 to C14: status codes and messages of the facade -/

/-- C11: `StatusCode(err)` is 200 for nil, the embedded status for every `RESTError`,
and 500 for every other error, none of which implements `StatusCoder`. -/
theorem C11_StatusCode :
    StatusCode none = 200 ∧
    (∀ (e : GoError) (s : Int), StatusCode (some (GoError.RESTError e s)) = s) ∧
    (∀ err : GoError, err.implementsStatusCoder = false → StatusCode (some err) = 500) := by
  refine ⟨rfl, fun _ _ => rfl, ?_⟩
  intro err h
  cases err <;> first | rfl | simp [GoError.implementsStatusCoder] at h

theorem foldl_append_lines {α : Type} (line : α → String) (l : List α) (init : String) :
    l.foldl (fun message a => message ++ line a) init = init ++ String.join (l.map line) := by
  induction l generalizing init with
  | nil => simp [String.join]
  | cons a rest ih =>
    simp only [List.foldl_cons, List.map_cons, ih]
    have hj : String.join (line a :: rest.map line) = line a ++ String.join (rest.map line) := by
      simp [String.join, List.foldl_cons]
      have key : ∀ (l : List String) (x : String),
          List.foldl (fun r s => r ++ s) x l = x ++ List.foldl (fun r s => r ++ s) "" l := by
        intro l
        induction l with
        | nil => intro x; simp
        | cons y ys ihy =>
          intro x
          simp only [List.foldl_cons]
          rw [ihy (x ++ y), ihy ("" ++ y)]
          simp [String.append_assoc]
      exact key _ _
    rw [hj, String.append_assoc]

/-- The message of `userFriendlyJiraError` for a structured error with content and a
response: the lines of the field errors as visited, then the lines of the messages. -/
theorem userFriendlyJiraError_message (NewJiraError : Response → GoError → GoError)
    (r : Response) (HTTPError : String) (Errors : List (String × String))
    (ErrorMessages : List String) (h : Errors ≠ [] ∨ ErrorMessages ≠ []) :
    userFriendlyJiraError NewJiraError (some r) (.JiraError HTTPError Errors ErrorMessages) =
      .ret (GoError.RESTError (GoError.New
        (String.join (Errors.map fieldLine) ++ String.join (ErrorMessages.map messageLine)))
        r.StatusCode) := by
  have hne : ¬ (Errors.length = 0 ∧ ErrorMessages.length = 0) := by
    rintro ⟨h1, h2⟩
    rcases h with h | h
    · exact h (List.length_eq_zero.mp h1)
    · exact h (List.length_eq_zero.mp h2)
  have h1 := foldl_append_lines fieldLine Errors ""
  have h2 := foldl_append_lines messageLine ErrorMessages
    (String.join (Errors.map fieldLine))
  simp only [fieldLine, messageLine] at h1 h2
  simp only [userFriendlyJiraError, userFriendlyJiraError.format, hne, if_false, h1,
    String.empty_append, h2, fieldLine, messageLine]

/-- C12, as stated, fails for two or more field errors: they are a Go map, which `range`
visits in an order of its own. For the field errors `summary`, `project` of the body,
visited in the other order, the message has the `project` line first. -/
theorem C12_counterexample :
    IsRangeOrder List.reverse ∧
    userFriendlyJiraError sampleNewJiraError (some ⟨400, ""⟩)
      (.JiraError "" (List.reverse sampleFieldErrors) []) =
      .ret (GoError.RESTError
        (GoError.New " - project: is required\n - summary: is required\n") 400) ∧
    String.join (sampleFieldErrors.map fieldLine) ++ String.join (([] : List String).map
      messageLine) = " - summary: is required\n - project: is required\n" ∧
    userFriendlyJiraError sampleNewJiraError (some ⟨400, ""⟩)
      (.JiraError "" (List.reverse sampleFieldErrors) []) ≠
      .ret (GoError.RESTError (GoError.New
        (String.join (sampleFieldErrors.map fieldLine) ++
          String.join (([] : List String).map messageLine))) 400) := by
  refine ⟨fun entries => List.reverse_perm entries, by decide, by decide, by decide⟩

/-- C12, amended: for a `*jira.Error` with at least one field error or message and a
response with status `S`, `userFriendlyJiraError` returns a `RESTError` with status `S`
whose message is one line per field error in the order in which the map of field
errors is visited (a rearrangement of the field errors, the same order when there is
at most one), followed by one line per message in their original order. -/
theorem C12_userFriendlyJiraError_message (NewJiraError : Response → GoError → GoError)
    (visit : List (String × String) → List (String × String)) (hvisit : IsRangeOrder visit)
    (r : Response) (HTTPError : String) (entries : List (String × String))
    (ErrorMessages : List String) (h : entries ≠ [] ∨ ErrorMessages ≠ []) :
    userFriendlyJiraError NewJiraError (some r)
        (.JiraError HTTPError (visit entries) ErrorMessages) =
      .ret (GoError.RESTError (GoError.New
        (String.join ((visit entries).map fieldLine) ++
          String.join (ErrorMessages.map messageLine))) r.StatusCode) ∧
    ((visit entries).map fieldLine).Perm (entries.map fieldLine) ∧
    (entries.length ≤ 1 → visit entries = entries) ∧
    StatusCode (some (GoError.RESTError (GoError.New
        (String.join ((visit entries).map fieldLine) ++
          String.join (ErrorMessages.map messageLine))) r.StatusCode)) = r.StatusCode := by
  have hp := hvisit entries
  refine ⟨userFriendlyJiraError_message NewJiraError r HTTPError (visit entries) ErrorMessages
    ?_, hp.map fieldLine, ?_, rfl⟩
  · rcases h with h | h
    · left
      intro hv
      rw [hv] at hp
      exact h (List.perm_nil.mp hp.symm)
    · exact Or.inr h
  · intro hlen
    rcases entries with _ | ⟨a, _ | ⟨b, rest⟩⟩
    · exact List.perm_nil.mp hp
    · exact List.perm_singleton.mp hp
    · simp at hlen

/-- C12 at a single field error and one message, visited as they are. -/
theorem C12_userFriendlyJiraError_message_witness :
    userFriendlyJiraError sampleNewJiraError (some ⟨400, ""⟩)
        (.JiraError "" [("summary", "is required")] ["denied"]) =
      .ret (GoError.RESTError (GoError.New
        (String.join ([("summary", "is required")].map fieldLine) ++
          String.join (["denied"].map messageLine))) 400) :=
  (C12_userFriendlyJiraError_message sampleNewJiraError id (fun _ => List.Perm.refl _)
    ⟨400, ""⟩ "" [("summary", "is required")] ["denied"] (Or.inl (by decide))).1

/-- C13: for an upload whose HTTP call succeeds and decodes to the array `L`,
`RESTPostAttachment` returns an attachment without error if and only if `L` has
exactly one element, and then it returns that element; for every other length it
returns no attachment and the error that names the length. -/
theorem C13_RESTPostAttachment_count {α : Type}
    (NewJiraError : Response → GoError → GoError)
    (urlParse : String → Except GoError String) (pathJoin : String → String → String)
    (jsonUnmarshal : String → Option (List (String × String) × List String))
    (upload : Upload α) (issueID url : String)
    (hurl : endpointURL urlParse pathJoin ("2/issue/" ++ issueID ++ "/attachments") = .ok url)
    (hC : upload.CreateFormFile = none) (hCp : upload.Copy = none)
    (hN : upload.NewMultiPartRequest = none) (herr : upload.Do.err = none) :
    ((∃ a, JiraClient.RESTPostAttachment NewJiraError urlParse pathJoin jsonUnmarshal upload
        issueID = .ret (some a, none)) ↔ upload.Do.value.length = 1) ∧
    (∀ a, upload.Do.value = [a] →
      JiraClient.RESTPostAttachment NewJiraError urlParse pathJoin jsonUnmarshal upload
        issueID = .ret (some a, none)) ∧
    (upload.Do.value.length ≠ 1 →
      JiraClient.RESTPostAttachment NewJiraError urlParse pathJoin jsonUnmarshal upload
        issueID = .ret (none, some (GoError.New
          ("expected 1 attachment, got " ++ toString upload.Do.value.length)))) := by
  have hone : ∀ a, upload.Do.value = [a] →
      JiraClient.RESTPostAttachment NewJiraError urlParse pathJoin jsonUnmarshal upload
        issueID = .ret (some a, none) := by
    intro a ha
    unfold JiraClient.RESTPostAttachment
    simp only [hurl, hC, hCp, hN, herr]
    split
    · rename_i hlen
      simp [ha] at hlen
    · simp [ha]
  have hother : upload.Do.value.length ≠ 1 →
      JiraClient.RESTPostAttachment NewJiraError urlParse pathJoin jsonUnmarshal upload
        issueID = .ret (none, some (GoError.New
          ("expected 1 attachment, got " ++ toString upload.Do.value.length))) := by
    intro hlen
    unfold JiraClient.RESTPostAttachment
    simp only [hurl, hC, hCp, hN, herr, hlen, ne_eq, not_false_eq_true, dite_true]
  refine ⟨⟨?_, ?_⟩, hone, hother⟩
  · rintro ⟨a, ha⟩
    by_contra hlen
    rw [hother hlen] at ha
    simp at ha
  · intro hlen
    obtain ⟨a, ha⟩ := List.length_eq_one.mp hlen
    exact ⟨a, hone a ha⟩

/-- C13 at an upload answered with the single attachment `file.txt`. -/
theorem C13_RESTPostAttachment_count_witness :
    JiraClient.RESTPostAttachment sampleNewJiraError (fun _ => .ok "")
      (fun a b => a ++ "/" ++ b) sampleJsonUnmarshal
      (⟨none, none, none, ⟨["file.txt"], some ⟨200, ""⟩, none⟩⟩ : Upload String) "KEY-1" =
      .ret (some "file.txt", none) :=
  (C13_RESTPostAttachment_count sampleNewJiraError (fun _ => .ok "")
    (fun a b => a ++ "/" ++ b) sampleJsonUnmarshal
    ⟨none, none, none, ⟨["file.txt"], some ⟨200, ""⟩, none⟩⟩ "KEY-1"
    ("/rest/api" ++ "/" ++ ("2/issue/" ++ "KEY-1" ++ "/attachments")) rfl rfl rfl rfl rfl).2.1
    "file.txt" rfl

/-- The three outcomes of `RESTPostAttachment` after an upload that failed with a
response: a body that does not decode gives the raw text, a body that decodes with
content gives the structured message, a body that decodes without content aborts. -/
theorem JiraClient.RESTPostAttachment_failed {α : Type}
    (NewJiraError : Response → GoError → GoError)
    (urlParse : String → Except GoError String) (pathJoin : String → String → String)
    (jsonUnmarshal : String → Option (List (String × String) × List String))
    (upload : Upload α) (issueID url : String) (resp : Response) (err : GoError)
    (hurl : endpointURL urlParse pathJoin ("2/issue/" ++ issueID ++ "/attachments") = .ok url)
    (hC : upload.CreateFormFile = none) (hCp : upload.Copy = none)
    (hN : upload.NewMultiPartRequest = none)
    (hresp : upload.Do.resp = some resp) (herr : upload.Do.err = some err) :
    (jsonUnmarshal resp.Body = none →
      JiraClient.RESTPostAttachment NewJiraError urlParse pathJoin jsonUnmarshal upload
        issueID = .ret (none, some (GoError.RESTError (GoError.New (" - " ++ resp.Body))
          resp.StatusCode))) ∧
    (∀ es ms, jsonUnmarshal resp.Body = some (es, ms) → (es ≠ [] ∨ ms ≠ []) →
      JiraClient.RESTPostAttachment NewJiraError urlParse pathJoin jsonUnmarshal upload
        issueID = .ret (none, some (GoError.RESTError (GoError.RESTError (GoError.New
          (String.join (es.map fieldLine) ++ String.join (ms.map messageLine))) 0)
          resp.StatusCode))) ∧
    (jsonUnmarshal resp.Body = some ([], []) →
      JiraClient.RESTPostAttachment NewJiraError urlParse pathJoin jsonUnmarshal upload
        issueID = Go.panic) := by
  refine ⟨fun hj => ?_, fun es ms hj hne => ?_, fun hj => ?_⟩
  · simp only [JiraClient.RESTPostAttachment, hurl, hC, hCp, hN, herr, hresp, hj]
  · have hlen : ¬ (es.length = 0 ∧ ms.length = 0) := by
      rintro ⟨h1, h2⟩
      rcases hne with h | h
      · exact h (List.length_eq_zero.mp h1)
      · exact h (List.length_eq_zero.mp h2)
    have h1 := foldl_append_lines fieldLine es ""
    have h2 := foldl_append_lines messageLine ms (String.join (es.map fieldLine))
    simp only [fieldLine, messageLine] at h1 h2
    simp only [JiraClient.RESTPostAttachment, hurl, hC, hCp, hN, herr, hresp, hj,
      userFriendlyJiraError, userFriendlyJiraError.format, hlen, if_false, h1,
      String.empty_append, h2, fieldLine, messageLine, Go.map]
  · simp [JiraClient.RESTPostAttachment, hurl, hC, hCp, hN, herr, hresp, hj,
      userFriendlyJiraError, userFriendlyJiraError.format, Go.map]

/-- C14 fails on the code: for an upload refused with status 403 whose error body is the
empty JSON object, the body decodes, `userFriendlyJiraError` is called with a nil
response and a `jira.Error` without content, and it reads `resp.StatusCode`: the call
aborts instead of returning a `RESTError` with status 403. -/
theorem C14_empty_json_body_aborts :
    sampleRefusedUpload.Do.resp = some ⟨403, "{}"⟩ ∧
    sampleJsonUnmarshal "{}" = some ([], []) ∧
    JiraClient.RESTPostAttachment sampleNewJiraError (fun _ => .ok "")
      (fun a b => a ++ "/" ++ b) sampleJsonUnmarshal sampleRefusedUpload "KEY-1" = Go.panic := by
  decide

/-! ### C15: transition matching -/

theorem stringsFieldsChars_flatten (cs cur : List Char) :
    (stringsFieldsChars cur cs).flatten = cur ++ cs.filter (fun c => !unicodeIsSpace c) := by
  induction cs generalizing cur with
  | nil =>
    by_cases h : cur = [] <;> simp [stringsFieldsChars, h]
  | cons c rest ih =>
    by_cases hc : unicodeIsSpace c = true
    · by_cases h : cur = []
      · simp [stringsFieldsChars, hc, h, ih]
      · simp [stringsFieldsChars, hc, h, ih]
    · simp [stringsFieldsChars, hc, ih]

theorem intercalate_go_empty (l : List (List Char)) (acc : String) :
    String.intercalate.go acc "" (l.map String.mk) = acc ++ String.mk l.flatten := by
  induction l generalizing acc with
  | nil => simp [String.intercalate.go]
  | cons a rest ih =>
    simp only [List.map_cons, String.intercalate.go, ih, List.flatten_cons]
    apply String.ext
    simp [String.data_append]

/-- The fields of a string, joined without separator, are the string without its white
space. -/
theorem stringsJoin_fields (s : String) :
    stringsJoin (stringsFields s) "" = String.mk (s.data.filter (fun c => !unicodeIsSpace c)) := by
  have h := stringsFieldsChars_flatten s.data []
  simp only [List.nil_append] at h
  cases hf : stringsFieldsChars [] s.data with
  | nil =>
    rw [hf] at h
    simp only [List.flatten_nil] at h
    simp [stringsJoin, stringsFields, hf, String.intercalate, ← h]
  | cons a rest =>
    rw [hf] at h
    simp only [stringsJoin, stringsFields, hf, List.map_cons, String.intercalate,
      intercalate_go_empty, ← h, List.flatten_cons]
    apply String.ext
    simp [String.data_append]

/-- The normalization of `TransitionIssue` is `norm`: lower case, all white space
removed. -/
theorem normalizeState_eq_reference (unicodeToLower : Char → Char) (s : String) :
    normalizeState unicodeToLower s = normalizeState_reference unicodeToLower s := by
  simp only [normalizeState, normalizeState_reference, stringsJoin_fields, stringsToLower]

/-- What the loop of `TransitionIssue` leaves in its variables. -/
theorem TransitionIssue.foldl_body (unicodeToLower : Char → Char) (ToState : String)
    (transitions : List Transition) (v : TransitionLoop) :
    (transitions.foldl
        (TransitionIssue.body unicodeToLower (normalizeState unicodeToLower ToState))
        v).matchingStates =
      v.matchingStates ++
        (matchingTransitions unicodeToLower ToState transitions).map (fun t => t.ToName) ∧
    (transitions.foldl
        (TransitionIssue.body unicodeToLower (normalizeState unicodeToLower ToState))
        v).availableStates = v.availableStates ++ transitions.map (fun t => t.ToName) ∧
    (transitions.foldl
        (TransitionIssue.body unicodeToLower (normalizeState unicodeToLower ToState))
        v).transition =
      ((matchingTransitions unicodeToLower ToState transitions).getLast?).getD
        v.transition := by
  induction transitions generalizing v with
  | nil => simp [matchingTransitions]
  | cons t rest ih =>
    simp only [List.foldl_cons]
    obtain ⟨h1, h2, h3⟩ := ih (TransitionIssue.body unicodeToLower
      (normalizeState unicodeToLower ToState) v t)
    rw [h1, h2, h3]
    by_cases hm : stringsContains (normalizeState unicodeToLower t.ToName)
        (normalizeState unicodeToLower ToState) = true
    · have hM : matchingTransitions unicodeToLower ToState (t :: rest) =
          t :: matchingTransitions unicodeToLower ToState rest := by
        simp [matchingTransitions, List.filter_cons, ← normalizeState_eq_reference, hm]
      simp only [hM, TransitionIssue.body, hm, if_true, List.map_cons, List.append_assoc,
        List.singleton_append, true_and]
      cases hr : matchingTransitions unicodeToLower ToState rest with
      | nil => simp
      | cons a l =>
        simp only [List.getLast?_cons_cons]
        rw [List.getLast?_eq_getLast _ (List.cons_ne_nil a l)]
        rfl
    · have hM : matchingTransitions unicodeToLower ToState (t :: rest) =
          matchingTransitions unicodeToLower ToState rest := by
        simp [matchingTransitions, List.filter_cons, ← normalizeState_eq_reference, hm]
      simp only [hM, TransitionIssue.body, hm, if_false, Bool.false_eq_true, List.map_cons,
        List.append_assoc, List.singleton_append, true_and]

/-- C15: let `norm` put a text in lower case and remove all its white space, which is
what `TransitionIssue` computes, and let `M` be the available transitions, in order,
whose `norm` of the target name contains `norm(ToState)`. For a non-empty list of
available transitions: if `M` is empty `TransitionIssue` fails with an error listing
every available state name and makes no `DoTransition` call; if `M` is the single
transition `t` its next call is `DoTransition` with the ID of `t`, and it makes no other;
if `M` has two or more elements it fails with an error listing exactly the names in `M`
and makes no `DoTransition` call. With the states `In Progress` and `In Review`,
`in progress` matches one, `in` matches both, `done` matches none; with `Done` and
`Not Done`, `done` matches both although it equals the first. -/
theorem C15_transition_matching [UnicodeTables] (unicodeToLower : Char → Char) (client : Client)
    (JiraBaseURL : String) (asSlackAttachment : Option Issue → Option GoError)
    (input : InTransitionIssue) (transitions : List Transition)
    (hT : client.GetTransitions input.IssueKey = (transitions, none))
    (hne : transitions ≠ []) :
    (∀ s, normalizeState unicodeToLower s =
      String.mk ((s.data.filter (fun c => !unicodeIsSpace c)).map unicodeToLower)) ∧
    (matchingTransitions unicodeToLower input.ToState transitions = [] →
      TransitionIssue unicodeToLower (.ok (client, JiraBaseURL)) asSlackAttachment input =
        (("", some (GoError.New (quoted input.ToState ++
          " is not a valid state. Please use one of: " ++
          quoted (stringsJoin (transitions.map (fun t => t.ToName)) ", ")))),
          [Call.GetTransitions input.IssueKey])) ∧
    (∀ t, matchingTransitions unicodeToLower input.ToState transitions = [t] →
      ∃ rest, (TransitionIssue unicodeToLower (.ok (client, JiraBaseURL)) asSlackAttachment
          input).2 =
          Call.GetTransitions input.IssueKey :: Call.DoTransition input.IssueKey t.ID :: rest ∧
        ∀ k i, Call.DoTransition k i ∉ rest) ∧
    (2 ≤ (matchingTransitions unicodeToLower input.ToState transitions).length →
      TransitionIssue unicodeToLower (.ok (client, JiraBaseURL)) asSlackAttachment input =
        (("", some (GoError.New ("please be more specific, " ++ quoted input.ToState ++
          " matched several states: " ++
          quoted (stringsJoin ((matchingTransitions unicodeToLower input.ToState
            transitions).map (fun t => t.ToName)) ", ")))),
          [Call.GetTransitions input.IssueKey])) ∧
    matchingTransitions Char.toLower "in progress"
      [⟨"11", "In Progress"⟩, ⟨"21", "In Review"⟩] = [⟨"11", "In Progress"⟩] ∧
    matchingTransitions Char.toLower "in"
      [⟨"11", "In Progress"⟩, ⟨"21", "In Review"⟩] =
      [⟨"11", "In Progress"⟩, ⟨"21", "In Review"⟩] ∧
    matchingTransitions Char.toLower "done"
      [⟨"11", "In Progress"⟩, ⟨"21", "In Review"⟩] = [] ∧
    matchingTransitions Char.toLower "done" [⟨"31", "Done"⟩, ⟨"41", "Not Done"⟩] =
      [⟨"31", "Done"⟩, ⟨"41", "Not Done"⟩] ∧
    matchingTransitions Char.toLower "InProg"
      [⟨"11", "In Progress"⟩, ⟨"21", "In Review"⟩] = [⟨"11", "In Progress"⟩] ∧
    matchingTransitions Char.toLower " n\tRE view "
      [⟨"11", "In Progress"⟩, ⟨"21", "In Review"⟩] = [⟨"21", "In Review"⟩] := by
  obtain ⟨h1, h2, h3⟩ := TransitionIssue.foldl_body unicodeToLower input.ToState transitions
    ⟨⟨"", ""⟩, [], []⟩
  simp only [List.nil_append] at h1 h2
  have hlen : ¬ transitions.length < 1 := by
    cases transitions with
    | nil => exact absurd rfl hne
    | cons a l => simp
  refine ⟨fun s => normalizeState_eq_reference unicodeToLower s, ?_, ?_, ?_, by decide,
    by decide, by decide, by decide, by decide, by decide⟩
  · intro hM
    simp only [TransitionIssue, hT, hlen, if_false, h1, h2, hM, List.map_nil, List.length_nil]
  · intro t hM
    rw [hM] at h1 h3
    simp only [List.map_cons, List.map_nil, List.getLast?_singleton, Option.getD_some]
      at h1 h3
    simp only [TransitionIssue, hT, hlen, if_false, h1, h3, List.length_singleton,
      List.singleton_append]
    cases hD : client.DoTransition input.IssueKey t.ID with
    | some err => exact ⟨[], rfl, by simp⟩
    | none =>
      rcases hG : client.GetIssue input.IssueKey none with ⟨issue, _ | err⟩
      · cases hA : asSlackAttachment issue with
        | some err => exact ⟨[Call.GetIssue input.IssueKey none], by simp [hA], by simp⟩
        | none =>
          exact ⟨[Call.GetIssue input.IssueKey none, Call.SendEphemeralPost
            input.mattermostUserID input.PostToChannelID
            ("[" ++ input.IssueKey ++ "](" ++ JiraBaseURL ++ "/browse/" ++ input.IssueKey ++
              ") transitioned to `" ++ t.ToName ++ "`")], by simp [hA], by simp⟩
      · refine ⟨[Call.GetIssue input.IssueKey none], ?_, by simp⟩
        simp only []
        split <;> [rfl; (split <;> rfl)]
  · intro hM
    obtain ⟨n, hn⟩ : ∃ n, (List.map (fun t => t.ToName)
        (matchingTransitions unicodeToLower input.ToState transitions)).length = n + 2 :=
      ⟨(matchingTransitions unicodeToLower input.ToState transitions).length - 2, by
        rw [List.length_map]; omega⟩
    simp only [TransitionIssue, hT, hlen, if_false, h1, hn]

/-- C15 at the sample client, whose issue offers `In Progress` and `In Review`: the
request `in progress` is followed by `DoTransition` with the ID `11`, and so is
`inPROG ress`; `done` and `in` fail with the two lists. -/
theorem C15_transition_matching_witness :
    (∃ rest, (TransitionIssue Char.toLower (.ok (sampleClient, "https://jira"))
        (fun _ => none) (sampleTransition "in progress")).2 =
      Call.GetTransitions "KEY-1" :: Call.DoTransition "KEY-1" "11" :: rest ∧
      ∀ k i, Call.DoTransition k i ∉ rest) ∧
    (TransitionIssue Char.toLower (.ok (sampleClient, "https://jira")) (fun _ => none)
        (sampleTransition "inPROG\tress")).2 =
      [Call.GetTransitions "KEY-1", Call.DoTransition "KEY-1" "11",
        Call.GetIssue "KEY-1" none,
        Call.SendEphemeralPost "user" "channel"
          "[KEY-1](https://jira/browse/KEY-1) transitioned to `In Progress`"] ∧
    TransitionIssue Char.toLower (.ok (sampleClient, "https://jira")) (fun _ => none)
        (sampleTransition "done") =
      (("", some (GoError.New "\"done\" is not a valid state. Please use one of: \"In Progress, In Review\"")),
        [Call.GetTransitions "KEY-1"]) ∧
    TransitionIssue Char.toLower (.ok (sampleClient, "https://jira")) (fun _ => none)
        (sampleTransition "in") =
      (("", some (GoError.New "please be more specific, \"in\" matched several states: \"In Progress, In Review\"")),
        [Call.GetTransitions "KEY-1"]) ∧
    TransitionIssue Char.toLower (.ok (sampleClient, "https://jira")) (fun _ => none)
        (sampleTransition "a\"b\n") =
      (("", some (GoError.New "\"a\\\"b\\n\" is not a valid state. Please use one of: \"In Progress, In Review\"")),
        [Call.GetTransitions "KEY-1"]) :=
  ⟨(C15_transition_matching Char.toLower sampleClient "https://jira" (fun _ => none)
    (sampleTransition "in progress") [⟨"11", "In Progress"⟩, ⟨"21", "In Review"⟩] rfl
    (by decide)).2.2.1 ⟨"11", "In Progress"⟩ (by decide), by decide, by decide, by decide,
    by decide⟩

/-! ### C16 to C18: assignment -/

/-- The text `AssignIssue` prints for a candidate, case by case: the display name
alone when there is neither username nor e-mail address, and else the display name
followed in brackets by the username, the e-mail address, or both with a comma. -/
theorem AssignIssue.candidate_text (u : JiraUser) :
    AssignIssue.candidate u =
      if u.Name = "" ∧ u.EmailAddress = "" then u.DisplayName
      else if u.EmailAddress = "" then u.DisplayName ++ " (" ++ u.Name ++ ")"
      else if u.Name = "" then u.DisplayName ++ " (" ++ u.EmailAddress ++ ")"
      else u.DisplayName ++ " (" ++ (u.Name ++ ", " ++ u.EmailAddress) ++ ")" := by
  have hne : ∀ a b : String, a ≠ "" → a ++ b ≠ "" := by
    intro a b ha e
    apply ha
    have h := congrArg String.data e
    simp only [String.data_append] at h
    exact String.ext (List.append_eq_nil.mp h).1
  by_cases hn : u.Name = "" <;> by_cases he : u.EmailAddress = "" <;>
    simp [AssignIssue.candidate, hn, he]
  intro h
  exact absurd h (hne _ _ (hne _ _ hn))

/-- C16: for an `AssignIssue` call without pinned candidate, with a connection and a
client, a search text that passes the length check and an issue key that is found:
`UpdateAssignee` is called if and only if the user search succeeds with exactly one
user; with no user the call fails; with two or more users it fails with an error that
lists every candidate on a line of its own, by display name followed in brackets by the
username and the e-mail address as far as the user has them, and `UpdateAssignee` is
not called. -/
theorem C16_AssignIssue_unique (client : Client) (JiraBaseURL issueKey userSearch : String)
    (users : List JiraUser) (err : Option GoError)
    (hlen : ¬ goLen userSearch < MinUserSearchQueryLength)
    (hissue : (client.GetIssue issueKey none).2 = none)
    (hS : client.SearchUsersAssignableToIssue issueKey userSearch 10 = (users, err)) :
    ((∃ k u, Call.UpdateAssignee k u ∈
        (AssignIssue none (.ok client) JiraBaseURL issueKey userSearch none).2) ↔
      (err = none ∧ users.length = 1)) ∧
    (err = none → users = [] →
      (AssignIssue none (.ok client) JiraBaseURL issueKey userSearch none).1 =
        ("", some (GoError.New
          "we couldn't find the assignee. Please use a Jira member and try again"))) ∧
    (err = none → 2 ≤ users.length →
      (AssignIssue none (.ok client) JiraBaseURL issueKey userSearch none).1 =
        ("", some (GoError.New ("`" ++ userSearch ++ "` matches " ++ toString users.length ++
          " or more users.  Please specify a unique assignee.\n" ++
          String.join (users.map (fun u => "* " ++
            (if u.Name = "" ∧ u.EmailAddress = "" then u.DisplayName
              else if u.EmailAddress = "" then u.DisplayName ++ " (" ++ u.Name ++ ")"
              else if u.Name = "" then u.DisplayName ++ " (" ++ u.EmailAddress ++ ")"
              else u.DisplayName ++ " (" ++ (u.Name ++ ", " ++ u.EmailAddress) ++ ")")
            ++ "\n"))))) ∧
      ∀ k u, Call.UpdateAssignee k u ∉
        (AssignIssue none (.ok client) JiraBaseURL issueKey userSearch none).2) := by
  cases err with
  | some e =>
    have hno : ∀ k u, Call.UpdateAssignee k u ∉
        (AssignIssue none (.ok client) JiraBaseURL issueKey userSearch none).2 := by
      intro k u
      by_cases h401 : StatusCode (some e) = 401 <;>
        simp [AssignIssue, hlen, hissue, hS, h401]
    refine ⟨⟨fun ⟨k, u, h⟩ => absurd h (hno k u), fun h => ?_⟩, fun h => ?_, fun h => ?_⟩
    · simp at h
    · simp at h
    · simp at h
  | none =>
    have h200 : ¬ StatusCode (none : Option GoError) = 401 := by decide
    rcases users with _ | ⟨u, _ | ⟨w, rest⟩⟩
    · refine ⟨⟨fun ⟨k, u, h⟩ => ?_, fun h => ?_⟩, fun _ _ => ?_, fun _ h => ?_⟩
      · simp [AssignIssue, hlen, hissue, hS, h200] at h
      · simp at h
      · simp [AssignIssue, hlen, hissue, hS, h200]
      · simp at h
    · refine ⟨⟨fun _ => ⟨rfl, rfl⟩, fun _ => ⟨issueKey, AssignIssue.payload u, ?_⟩⟩,
        fun _ h => ?_, fun _ h => ?_⟩
      · cases hU : client.UpdateAssignee issueKey (AssignIssue.payload u) <;>
          simp [AssignIssue, hlen, hissue, hS, h200, hU]
      · simp at h
      · simp at h
    · refine ⟨⟨fun ⟨k, x, h⟩ => ?_, fun h => ?_⟩, fun _ h => ?_, fun _ _ => ⟨?_, fun k x => ?_⟩⟩
      · simp [AssignIssue, hlen, hissue, hS, h200] at h
      · simp at h
      · simp at h
      · have hf := foldl_append_lines (fun u => "* " ++ AssignIssue.candidate u ++ "\n")
          (u :: w :: rest) ("`" ++ userSearch ++ "` matches " ++
            toString (u :: w :: rest).length ++
            " or more users.  Please specify a unique assignee.\n")
        simp only [AssignIssue, hlen, hissue, hS, h200, if_false, hf]
        simp only [AssignIssue.candidate_text]
      · simp [AssignIssue, hlen, hissue, hS, h200]

/-- C16 at a search for `adam` that finds three users, one with username and e-mail
address, one with the username alone, one with the e-mail address alone: the call fails
and lists the three. -/
theorem C16_AssignIssue_unique_witness :
    (AssignIssue none (.ok { sampleClient with
        SearchUsersAssignableToIssue := fun _ _ _ =>
          ([⟨"", "adam", "Adam A", "a@example.com"⟩, ⟨"", "adamb", "Adam B", ""⟩,
            ⟨"c1", "", "Adam C", "c@example.com"⟩], none) })
        "https://jira" "KEY-1" "adam" none).1 =
      ("", some (GoError.New "`adam` matches 3 or more users.  Please specify a unique assignee.\n* Adam A (adam, a@example.com)\n* Adam B (adamb)\n* Adam C (c@example.com)\n")) :=
  ((C16_AssignIssue_unique { sampleClient with
      SearchUsersAssignableToIssue := fun _ _ _ =>
        ([⟨"", "adam", "Adam A", "a@example.com"⟩, ⟨"", "adamb", "Adam B", ""⟩,
          ⟨"c1", "", "Adam C", "c@example.com"⟩], none) }
    "https://jira" "KEY-1" "adam"
    [⟨"", "adam", "Adam A", "a@example.com"⟩, ⟨"", "adamb", "Adam B", ""⟩,
      ⟨"c1", "", "Adam C", "c@example.com"⟩] none
    (by decide) rfl rfl).2.2 rfl (by decide)).1.trans (by decide)

/-- The calls `AssignIssue` makes: every `UpdateAssignee` call is for the issue key and
carries the payload of some user. -/
theorem AssignIssue_update_calls (LoadConnection : Option GoError)
    (GetClient : Except GoError Client) (JiraBaseURL issueKey userSearch : String)
    (assignee : Option JiraUser) (k : String) (u : JiraUser)
    (h : Call.UpdateAssignee k u ∈
      (AssignIssue LoadConnection GetClient JiraBaseURL issueKey userSearch assignee).2) :
    k = issueKey ∧ ∃ user0, u = AssignIssue.payload user0 := by
  cases LoadConnection with
  | some e => simp [AssignIssue] at h
  | none =>
    cases GetClient with
    | error e => simp [AssignIssue] at h
    | ok client =>
      by_cases hlen : goLen userSearch < MinUserSearchQueryLength
      · simp [AssignIssue, hlen] at h
      · cases hG : (client.GetIssue issueKey none).2 with
        | some e => simp [AssignIssue, hlen, hG] at h
        | none =>
          cases assignee with
          | some a =>
            cases hU : client.UpdateAssignee issueKey (AssignIssue.payload a) <;>
              simp [AssignIssue, hlen, hG, hU] at h <;> exact ⟨h.1, a, h.2⟩
          | none =>
            rcases hS : client.SearchUsersAssignableToIssue issueKey userSearch 10 with
              ⟨users, err⟩
            by_cases h401 : StatusCode err = 401
            · simp [AssignIssue, hlen, hG, hS, h401] at h
            · cases err with
              | some e => simp [AssignIssue, hlen, hG, hS, h401] at h
              | none =>
                rcases users with _ | ⟨x, _ | ⟨w, rest⟩⟩
                · simp [AssignIssue, hlen, hG, hS, h401] at h
                · cases hU : client.UpdateAssignee issueKey (AssignIssue.payload x) <;>
                    simp [AssignIssue, hlen, hG, hS, h401, hU] at h <;> exact ⟨h.1, x, h.2⟩
                · simp [AssignIssue, hlen, hG, hS, h401] at h

/-- C17: the payload `AssignIssue` passes to `UpdateAssignee` never has both `AccountID`
and `Name` non-empty: it is the resolved user with `Name` cleared when the user carries
an `AccountID`, and the resolved user as it is otherwise, so that of a user who carries
an identifier exactly one identifier is left. -/
theorem C17_AssignIssue_payload :
    (∀ (LoadConnection : Option GoError) (GetClient : Except GoError Client)
      (JiraBaseURL issueKey userSearch : String) (assignee : Option JiraUser)
      (k : String) (u : JiraUser),
      Call.UpdateAssignee k u ∈
        (AssignIssue LoadConnection GetClient JiraBaseURL issueKey userSearch assignee).2 →
      ¬ (u.AccountID ≠ "" ∧ u.Name ≠ "")) ∧
    (∀ user : JiraUser,
      (AssignIssue.payload user).AccountID = user.AccountID ∧
      (user.AccountID ≠ "" → (AssignIssue.payload user).Name = "") ∧
      (user.AccountID = "" → (AssignIssue.payload user).Name = user.Name) ∧
      ((user.AccountID ≠ "" ∨ user.Name ≠ "") →
        ((AssignIssue.payload user).AccountID ≠ "" ∧ (AssignIssue.payload user).Name = "") ∨
        ((AssignIssue.payload user).AccountID = "" ∧ (AssignIssue.payload user).Name ≠ ""))) ∧
    (∀ (client : Client) (JiraBaseURL issueKey userSearch : String) (a : JiraUser),
      ¬ goLen userSearch < MinUserSearchQueryLength →
      (client.GetIssue issueKey none).2 = none →
      Call.UpdateAssignee issueKey (AssignIssue.payload a) ∈
        (AssignIssue none (.ok client) JiraBaseURL issueKey userSearch (some a)).2) := by
  have hpay : ∀ user : JiraUser,
      (AssignIssue.payload user).AccountID = user.AccountID ∧
      (user.AccountID ≠ "" → (AssignIssue.payload user).Name = "") ∧
      (user.AccountID = "" → (AssignIssue.payload user).Name = user.Name) := by
    intro user
    by_cases h : user.AccountID = "" <;> simp [AssignIssue.payload, h]
  refine ⟨?_, ?_, ?_⟩
  · intro LoadConnection GetClient JiraBaseURL issueKey userSearch assignee k u h
    obtain ⟨_, user0, rfl⟩ := AssignIssue_update_calls LoadConnection GetClient JiraBaseURL
      issueKey userSearch assignee k u h
    obtain ⟨h1, h2, _⟩ := hpay user0
    rintro ⟨ha, hn⟩
    rw [h1] at ha
    exact hn (h2 ha)
  · intro user
    obtain ⟨h1, h2, h3⟩ := hpay user
    refine ⟨h1, h2, h3, ?_⟩
    intro hid
    by_cases h : user.AccountID = ""
    · right
      rw [h1, h3 h]
      exact ⟨h, hid.resolve_left (fun hne => hne h)⟩
    · left
      rw [h1]
      exact ⟨h, h2 h⟩
  · intro client JiraBaseURL issueKey userSearch a hlen hG
    cases hU : client.UpdateAssignee issueKey (AssignIssue.payload a) <;>
      simp [AssignIssue, hlen, hG, hU]

/-- The length check of `AssignIssue` counts bytes: a search text of fewer than three
bytes is answered without any call on the client. -/
theorem AssignIssue_short (client : Client) (JiraBaseURL issueKey userSearch : String)
    (assignee : Option JiraUser) (hlen : goLen userSearch < MinUserSearchQueryLength) :
    AssignIssue none (.ok client) JiraBaseURL issueKey userSearch assignee =
      (("`" ++ userSearch ++ "` contains less than " ++ toString MinUserSearchQueryLength
        ++ " characters.", none), []) := by
  simp [AssignIssue, hlen]

/-- C18 fails on the code: the search text `éé` has two characters, but `len` counts
its four bytes, so the length check passes and `AssignIssue` goes on to look up the
issue and to search the users. -/
theorem C18_two_characters_pass :
    "éé".length = 2 ∧ goLen "éé" = 4 ∧
    (AssignIssue none (.ok sampleClient) "https://jira" "KEY-1" "éé" none).2 =
      [Call.GetIssue "KEY-1" none, Call.SearchUsersAssignableToIssue "KEY-1" "éé" 10] := by
  decide

/-! ### C20: replays -/

theorem ValueSet.Len_Set (set : ValueSet) (v : InstanceCommon) :
    ValueSet.Len (ValueSet.Set set v) =
      if v.InstanceID ∈ ValueSet.IDs set then ValueSet.Len set else ValueSet.Len set + 1 := by
  have h := congrArg List.length (ValueSet.IDs_Set set v)
  simp only [ValueSet.IDs, List.length_map] at h
  simp only [ValueSet.Len, ValueSet.IDs, h]
  split <;> simp

theorem ValueSet.Len_Delete (set : ValueSet) (h : (ValueSet.IDs set).Nodup) (id : ID)
    (hid : id ∈ ValueSet.IDs set) :
    ValueSet.Len (ValueSet.Delete set id) + 1 = ValueSet.Len set := by
  induction set with
  | nil => simp [ValueSet.IDs] at hid
  | cons v rest ih =>
    simp only [ValueSet.IDs, List.map_cons, List.nodup_cons, List.mem_map, not_exists,
      not_and] at h
    by_cases hv : v.InstanceID = id
    · have hnone : ∀ w ∈ rest, decide (w.InstanceID ≠ id) = true := by
        intro w hw
        exact decide_eq_true (fun e => h.1 w hw (e.trans hv.symm))
      have hfil : List.filter (fun w => decide (w.InstanceID ≠ id)) rest = rest :=
        List.filter_eq_self.mpr hnone
      simp only [ValueSet.Delete, ValueSet.Len, List.filter_cons, hv, ne_eq,
        not_true_eq_false, decide_False, Bool.false_eq_true, if_false, List.length_cons]
      simp only [ne_eq] at hfil
      rw [hfil]
    · have hid' : id ∈ ValueSet.IDs rest := by
        simp only [ValueSet.IDs, List.map_cons, List.mem_cons] at hid
        rcases hid with e | e
        · exact absurd e.symm hv
        · exact e
      have := ih h.2 hid'
      simp only [ValueSet.Delete, ValueSet.Len, List.filter_cons, hv, ne_eq,
        not_false_eq_true, decide_True, if_true, List.length_cons] at this ⊢
      omega

theorem ValueSet.mem_IDs_Delete (set : ValueSet) (id x : ID)
    (hx : x ∈ ValueSet.IDs (ValueSet.Delete set id)) : x ∈ ValueSet.IDs set ∧ x ≠ id := by
  simp only [ValueSet.IDs, ValueSet.Delete, List.mem_map, List.mem_filter,
    decide_eq_true_eq] at hx ⊢
  obtain ⟨v, ⟨hv, hne⟩, rfl⟩ := hx
  exact ⟨⟨v, hv, rfl⟩, hne⟩

/-- `InstallInstance` with the capability and stores that succeed. -/
theorem Plugin.InstallInstance_inSync (p : Plugin) (newInstance : Instance)
    (hE : p.HasEnterpriseFeatures = true) (hF : p.faults = Faults.none) :
    (p.InstallInstance newInstance).2 = .ret none ∧
    (p.InstallInstance newInstance).1.instances =
      Instances.Set p.instances newInstance.Common ∧
    (p.InstallInstance newInstance).1.records =
      p.records.filter (fun r => decide (r.GetID ≠ newInstance.GetID)) ++ [newInstance] ∧
    (p.InstallInstance newInstance).1.faults = p.faults ∧
    (p.InstallInstance newInstance).1.HasEnterpriseFeatures = p.HasEnterpriseFeatures := by
  simp [Plugin.InstallInstance, UpdateInstances, Plugin.LoadInstances,
    InstallInstance.updatef, Plugin.StoreInstance, Plugin.StoreInstances, Plugin.reRegister,
    Plugin.registerJiraCommand, Plugin.wsInstancesChanged, Plugin.emit, hE, hF, Faults.none]

theorem UninstallInstance.mapf_spec (i : Instance) (p : Plugin) (user : User) :
    (UninstallInstance.mapf i p user).2 = none ∧
    (UninstallInstance.mapf i p user).1.records = p.records ∧
    (UninstallInstance.mapf i p user).1.HasEnterpriseFeatures = p.HasEnterpriseFeatures ∧
    (UninstallInstance.mapf i p user).1.EnableAutocomplete = p.EnableAutocomplete := by
  unfold UninstallInstance.mapf Plugin.disconnectUser
  split
  · exact ⟨rfl, rfl, rfl, rfl⟩
  · cases p.faults.disconnectUser <;> simp [Plugin.emit]

theorem UninstallInstance.mapUsersLoop_none (i : Instance) (users : List User) (p : Plugin) :
    (Plugin.mapUsersLoop (UninstallInstance.mapf i) p users).2 = none ∧
    (Plugin.mapUsersLoop (UninstallInstance.mapf i) p users).1.records = p.records ∧
    (Plugin.mapUsersLoop (UninstallInstance.mapf i) p users).1.HasEnterpriseFeatures =
      p.HasEnterpriseFeatures := by
  induction users generalizing p with
  | nil => exact ⟨rfl, rfl, rfl⟩
  | cons u rest ih =>
    obtain ⟨h1, h2, h3, _⟩ := UninstallInstance.mapf_spec i p u
    unfold Plugin.mapUsersLoop
    rcases hm : UninstallInstance.mapf i p u with ⟨p1, e⟩
    rw [hm] at h1 h2 h3
    simp only at h1 h2 h3
    subst h1
    simp only
    obtain ⟨g1, g2, g3⟩ := ih p1
    exact ⟨g1, g2.trans h2, g3.trans h3⟩

/-- `UninstallInstance` of an ID that is not a member. -/
theorem Plugin.UninstallInstance_absent [UnicodeTables] (p : Plugin) (instanceID : ID) (instanceType : String)
    (hF : p.faults = Faults.none) (hC : ValueSet.Contains p.instances instanceID = false) :
    p.UninstallInstance instanceID instanceType =
      (p, .ret (none, some (instanceNotFound instanceID))) := by
  simp [Plugin.UninstallInstance, UpdateInstances, Plugin.LoadInstances,
    UninstallInstance.updatef, hF, Faults.none, hC]

/-- `UninstallInstance` of a member whose stored type is not the expected one. -/
theorem Plugin.UninstallInstance_mismatch [UnicodeTables] (p : Plugin) (instanceID : ID)
    (instanceType : String) (r : Instance)
    (hF : p.faults = Faults.none) (hC : ValueSet.Contains p.instances instanceID = true)
    (hI : p.LoadInstance instanceID = .ok r) (hT : instanceType ≠ r.Common.InstanceType) :
    ∃ err, p.UninstallInstance instanceID instanceType = (p, .ret (none, some err)) := by
  refine ⟨GoError.New (instanceType ++ " did not match instance " ++ instanceID
    ++ " type " ++ r.Common.InstanceType), ?_⟩
  simp only [Plugin.UninstallInstance, UpdateInstances, Plugin.LoadInstances,
    UninstallInstance.updatef, hF, Faults.none, hC, hI, hT, ne_eq, not_false_eq_true,
    if_true, Bool.not_true, Bool.false_eq_true, if_false]

/-- `UninstallInstance` of a member of the expected type, with stores that succeed. -/
theorem Plugin.UninstallInstance_done [UnicodeTables] (p : Plugin) (instanceID : ID)
    (instanceType : String) (r : Instance)
    (hF : p.faults = Faults.none) (hC : ValueSet.Contains p.instances instanceID = true)
    (hI : p.LoadInstance instanceID = .ok r) (hT : instanceType = r.Common.InstanceType) :
    (p.UninstallInstance instanceID instanceType).2 = .ret (some r, none) ∧
    (p.UninstallInstance instanceID instanceType).1.instances =
      ValueSet.Delete p.instances instanceID ∧
    (p.UninstallInstance instanceID instanceType).1.records =
      p.records.filter (fun x => decide (x.GetID ≠ instanceID)) ∧
    (p.UninstallInstance instanceID instanceType).1.faults = p.faults ∧
    (p.UninstallInstance instanceID instanceType).1.HasEnterpriseFeatures =
      p.HasEnterpriseFeatures := by
  have hM := Plugin.MapUsers_frame (UninstallInstance.mapf r)
    (UninstallInstance.mapf_frame r) p
  have hL := UninstallInstance.mapUsersLoop_none r p.users p
  have hMU : p.MapUsers (UninstallInstance.mapf r) =
      Plugin.mapUsersLoop (UninstallInstance.mapf r) p p.users := by
    simp [Plugin.MapUsers, hF, Faults.none]
  rw [hMU] at hM
  rcases hMe : Plugin.mapUsersLoop (UninstallInstance.mapf r) p p.users with ⟨p1, e⟩
  rw [hMe] at hM hL
  simp only at hM hL
  obtain ⟨he, hrec, hent⟩ := hL
  subst he
  have hF1 : p1.faults = Faults.none := hM.2.trans hF
  simp [Plugin.UninstallInstance, UpdateInstances, Plugin.LoadInstances,
    UninstallInstance.updatef, Plugin.StoreInstances, Plugin.DeleteInstance,
    Plugin.reRegister, Plugin.registerJiraCommand, Plugin.wsInstancesChanged, Plugin.emit,
    hF, hF1, Faults.none, hC, hI, hT, hMU, hMe, hrec, hent]

theorem Plugin.LoadInstance_of_record (p : Plugin) (instanceID : ID)
    (hF : p.faults = Faults.none) (h : ∃ r ∈ p.records, r.GetID = instanceID) :
    ∃ r, p.LoadInstance instanceID = .ok r := by
  cases hfind : p.records.find? (fun r => decide (r.GetID = instanceID)) with
  | none =>
    obtain ⟨r, hr, hid⟩ := h
    have := List.find?_eq_none.mp hfind r hr
    simp [hid] at this
  | some r => exact ⟨r, by simp [Plugin.LoadInstance, hF, Faults.none, hfind]⟩

/-- One operation of a replay keeps the plugin in sync and changes `Len()` by what the
operation counts for. -/
theorem Plugin.apply_inSync [UnicodeTables] (p : Plugin) (h : p.InSync) (op : Op) :
    (p.apply op).InSync ∧
    ((ValueSet.Len (p.apply op).instances : Nat) : Int) =
      (ValueSet.Len p.instances : Nat) + p.netChange op := by
  obtain ⟨hE, hF, hwf, hrec⟩ := h
  cases op with
  | install i =>
    obtain ⟨_, hi, hr, hf, he⟩ := Plugin.InstallInstance_inSync p i hE hF
    refine ⟨⟨he.trans hE, hf.trans hF, ?_, ?_⟩, ?_⟩
    · simp only [Plugin.apply, hi]
      exact Instances.WF_Set p.instances hwf i.Common
    · intro id hid
      simp only [Plugin.apply, hi, hr, Instances.Set, ValueSet.IDs_Set] at hid ⊢
      by_cases hnew : id = i.GetID
      · exact ⟨i, by simp, hnew.symm⟩
      · have hold : id ∈ ValueSet.IDs p.instances := by
          split at hid
          · exact hid
          · rcases List.mem_append.mp hid with h1 | h1
            · exact h1
            · exact absurd (List.mem_singleton.mp h1) hnew
        obtain ⟨r, hrm, hrid⟩ := hrec id hold
        refine ⟨r, List.mem_append_left _ (List.mem_filter.mpr ⟨hrm, ?_⟩), hrid⟩
        exact decide_eq_true (fun e => hnew (hrid.symm.trans e))
    · simp only [Plugin.apply, hi, Instances.Set, ValueSet.Len_Set, Plugin.netChange]
      have hget : i.GetID = i.Common.InstanceID := rfl
      rw [hget]
      split <;> simp
  | uninstall instanceID instanceType =>
    cases hC : ValueSet.Contains p.instances instanceID with
    | false =>
      have hu := Plugin.UninstallInstance_absent p instanceID instanceType hF hC
      simp only [Plugin.apply, Plugin.netChange, hu]
      exact ⟨⟨hE, hF, hwf, hrec⟩, by simp⟩
    | true =>
      have hmem : instanceID ∈ ValueSet.IDs p.instances := by
        simpa [ValueSet.Contains] using hC
      obtain ⟨r, hI⟩ := Plugin.LoadInstance_of_record p instanceID hF (hrec instanceID hmem)
      by_cases hT : instanceType = r.Common.InstanceType
      · obtain ⟨h2, hi, hr, hf, he⟩ :=
          Plugin.UninstallInstance_done p instanceID instanceType r hF hC hI hT
        refine ⟨⟨he.trans hE, hf.trans hF, ?_, ?_⟩, ?_⟩
        · simp only [Plugin.apply, hi]
          exact Instances.WF_Delete p.instances hwf instanceID
        · intro id hid
          simp only [Plugin.apply, hi, hr] at hid ⊢
          obtain ⟨hold, hne⟩ := ValueSet.mem_IDs_Delete p.instances instanceID id hid
          obtain ⟨x, hxm, hxid⟩ := hrec id hold
          refine ⟨x, List.mem_filter.mpr ⟨hxm, ?_⟩, hxid⟩
          exact decide_eq_true (fun e => hne (hxid.symm.trans e))
        · have hlen := ValueSet.Len_Delete p.instances hwf instanceID hmem
          simp only [Plugin.apply, Plugin.netChange, hi, h2]
          omega
      · obtain ⟨err, hu⟩ :=
          Plugin.UninstallInstance_mismatch p instanceID instanceType r hF hC hI hT
        simp only [Plugin.apply, Plugin.netChange, hu]
        exact ⟨⟨hE, hF, hwf, hrec⟩, by simp⟩

/-- A replay keeps the plugin in sync, and `Len()` moves by the net count. -/
theorem Plugin.replay_inSync [UnicodeTables] (ops : List Op) (p : Plugin) (h : p.InSync) :
    (p.replay ops).InSync ∧
    ((ValueSet.Len (p.replay ops).instances : Nat) : Int) =
      (ValueSet.Len p.instances : Nat) + p.netCount ops := by
  induction ops generalizing p with
  | nil => exact ⟨h, by simp [Plugin.replay, Plugin.netCount]⟩
  | cons op rest ih =>
    obtain ⟨h1, hlen1⟩ := Plugin.apply_inSync p h op
    obtain ⟨h2, hlen2⟩ := ih (p.apply op) h1
    refine ⟨h2, ?_⟩
    have hr : p.replay (op :: rest) = (p.apply op).replay rest := rfl
    rw [hr, hlen2, hlen1]
    simp only [Plugin.netCount]
    omega

theorem Plugin.netCount_allCount [UnicodeTables] (ops : List Op) (p : Plugin) (h : p.allCount ops) :
    p.netCount ops = (installs ops : Int) - (uninstalls ops : Int) := by
  induction ops generalizing p with
  | nil => simp [Plugin.netCount, installs, uninstalls]
  | cons op rest ih =>
    obtain ⟨hne, hrest⟩ := h
    have ih := ih (p.apply op) hrest
    cases op with
    | install i =>
      have h1 : p.netChange (.install i) = 1 := by
        simp only [Plugin.netChange] at hne ⊢
        split at hne
        · exact absurd rfl hne
        · rename_i hnot
          simp [hnot]
      simp only [Plugin.netCount, h1, ih, installs, uninstalls, List.countP_cons]
      simp
      omega
    | uninstall instanceID instanceType =>
      have h1 : p.netChange (.uninstall instanceID instanceType) = -1 := by
        simp only [Plugin.netChange] at hne ⊢
        split at hne
        · rename_i heq
          simp [heq]
        · exact absurd rfl hne
      simp only [Plugin.netCount, h1, ih, installs, uninstalls, List.countP_cons]
      simp
      omega

/-- C20, as stated, fails: installing `A` twice on the empty registry leaves one member
for two installs, and an uninstall of `A` on the empty registry fails and leaves no
member for one uninstall. -/
theorem C20_counterexample :
    ((ValueSet.Len ((Plugin.fresh true []).replay
        [.install ⟨sampleA⟩, .install ⟨sampleA⟩]).instances : Nat) : Int) = 1 ∧
    (installs [.install ⟨sampleA⟩, .install ⟨sampleA⟩] : Int) -
      (uninstalls [.install ⟨sampleA⟩, .install ⟨sampleA⟩] : Int) = 2 ∧
    ((ValueSet.Len ((Plugin.fresh true []).replay
        [.uninstall "A" "server"]).instances : Nat) : Int) = 0 ∧
    (installs [.uninstall "A" "server"] : Int) -
      (uninstalls [.uninstall "A" "server"] : Int) = -1 ∧
    ((ValueSet.Len ((Plugin.fresh true []).replay
        [.install ⟨sampleA⟩, .install ⟨sampleA⟩]).instances : Nat) : Int) ≠
      (installs [.install ⟨sampleA⟩, .install ⟨sampleA⟩] : Int) -
        (uninstalls [.install ⟨sampleA⟩, .install ⟨sampleA⟩] : Int) := by
  decide

/-- C20, amended: for every sequence of `InstallInstance` and `UninstallInstance` calls
replayed on an empty registry (capability present, stores succeeding), `IDs()` contains
no duplicates and `Len()` equals the net count in which an install counts 1 unless its
ID is a member at that moment (a re-install counts 0) and an uninstall counts -1 unless
it fails (then it counts 0); so `Len()` is the number of installs minus the number of
uninstalls for the sequences in which no install names a member and no uninstall
fails. -/
theorem C20_replay [UnicodeTables] (EnableAutocomplete : Bool) (users : List User) (ops : List Op) :
    (ValueSet.IDs ((Plugin.fresh EnableAutocomplete users).replay ops).instances).Nodup ∧
    ((ValueSet.Len ((Plugin.fresh EnableAutocomplete users).replay ops).instances : Nat)
      : Int) = (Plugin.fresh EnableAutocomplete users).netCount ops ∧
    ((Plugin.fresh EnableAutocomplete users).allCount ops →
      ((ValueSet.Len ((Plugin.fresh EnableAutocomplete users).replay ops).instances : Nat)
        : Int) = (installs ops : Int) - (uninstalls ops : Int)) := by
  have h0 : (Plugin.fresh EnableAutocomplete users).InSync := by
    refine ⟨rfl, rfl, ?_, ?_⟩
    · simp [Plugin.fresh, Instances.WF, ValueSet.IDs]
    · intro id hid
      simp [Plugin.fresh, ValueSet.IDs] at hid
  obtain ⟨hs, hlen⟩ := Plugin.replay_inSync ops _ h0
  have hlen' : ((ValueSet.Len ((Plugin.fresh EnableAutocomplete users).replay ops).instances
      : Nat) : Int) = (Plugin.fresh EnableAutocomplete users).netCount ops := by
    rw [hlen]
    simp [Plugin.fresh, ValueSet.Len]
  refine ⟨hs.2.2.1, hlen', fun hall => ?_⟩
  rw [hlen', Plugin.netCount_allCount ops _ hall]

/-- C20 at the sequence install `A`, install `B`, uninstall `A`: every operation counts,
and one member is left for two installs and one uninstall. -/
theorem C20_replay_witness :
    (Plugin.fresh true []).allCount
      [.install ⟨sampleA⟩, .install ⟨sampleB⟩, .uninstall "A" "server"] ∧
    ((ValueSet.Len ((Plugin.fresh true []).replay
        [.install ⟨sampleA⟩, .install ⟨sampleB⟩, .uninstall "A" "server"]).instances : Nat)
      : Int) = (installs [.install ⟨sampleA⟩, .install ⟨sampleB⟩, .uninstall "A" "server"] : Int)
        - (uninstalls [.install ⟨sampleA⟩, .install ⟨sampleB⟩, .uninstall "A" "server"] : Int) :=
  have hall : (Plugin.fresh true []).allCount
      [.install ⟨sampleA⟩, .install ⟨sampleB⟩, .uninstall "A" "server"] :=
    ⟨by decide, by decide, by decide, trivial⟩
  ⟨hall, (C20_replay true []
    [.install ⟨sampleA⟩, .install ⟨sampleB⟩, .uninstall "A" "server"]).2.2 hall⟩

/-! ### C21, C22: the pre-checks and the reconciliation of `UninstallInstance` -/

/-- C21: with the registry loaded, a failing pre-check of `UninstallInstance` leaves
everything in place. If the ID is not a member the call fails with the NotFound error
for the ID; if the stored record has another type than the expected one it fails with
the type-mismatch error; in both cases the plugin and its collaborators are as before:
the same users, the same registry, and a trace without any new call, so no
`disconnectUser` and no `DeleteInstance`. -/
theorem C21_UninstallInstance_prechecks [UnicodeTables] (p : Plugin) (instanceID : ID) (instanceType : String)
    (hL : p.faults.LoadInstances = none) :
    (ValueSet.Contains p.instances instanceID = false →
      p.UninstallInstance instanceID instanceType =
        (p, .ret (none, some (instanceNotFound instanceID))) ∧
      (instanceNotFound instanceID).IsNotFound = true) ∧
    (∀ r : Instance, ValueSet.Contains p.instances instanceID = true →
      p.LoadInstance instanceID = .ok r → instanceType ≠ r.Common.InstanceType →
      p.UninstallInstance instanceID instanceType =
        (p, .ret (none, some (GoError.New (instanceType ++ " did not match instance " ++
          instanceID ++ " type " ++ r.Common.InstanceType))))) ∧
    (∀ r : Instance, (ValueSet.Contains p.instances instanceID = false ∨
        (p.LoadInstance instanceID = .ok r ∧ instanceType ≠ r.Common.InstanceType)) →
      (p.UninstallInstance instanceID instanceType).1.users = p.users ∧
      ValueSet.IDs (p.UninstallInstance instanceID instanceType).1.instances =
        ValueSet.IDs p.instances ∧
      (p.UninstallInstance instanceID instanceType).1.trace = p.trace ∧
      (∀ id uid, Effect.disconnectUser id uid ∈
        (p.UninstallInstance instanceID instanceType).1.trace →
          Effect.disconnectUser id uid ∈ p.trace) ∧
      (∀ id, Effect.DeleteInstance id ∈
        (p.UninstallInstance instanceID instanceType).1.trace →
          Effect.DeleteInstance id ∈ p.trace)) := by
  have habs : ValueSet.Contains p.instances instanceID = false →
      p.UninstallInstance instanceID instanceType =
        (p, .ret (none, some (instanceNotFound instanceID))) := by
    intro hC
    simp [Plugin.UninstallInstance, UpdateInstances, Plugin.LoadInstances,
      UninstallInstance.updatef, hL, hC]
  have hmis : ∀ r : Instance, ValueSet.Contains p.instances instanceID = true →
      p.LoadInstance instanceID = .ok r → instanceType ≠ r.Common.InstanceType →
      p.UninstallInstance instanceID instanceType =
        (p, .ret (none, some (GoError.New (instanceType ++ " did not match instance " ++
          instanceID ++ " type " ++ r.Common.InstanceType)))) := by
    intro r hC hI hT
    simp only [Plugin.UninstallInstance, UpdateInstances, Plugin.LoadInstances,
      UninstallInstance.updatef, hL, hC, hI, hT, ne_eq, not_false_eq_true,
      if_true, Bool.not_true, Bool.false_eq_true, if_false]
  refine ⟨fun hC => ⟨habs hC, ?_⟩, hmis, ?_⟩
  · simp [instanceNotFound, GoError.IsNotFound, GoError.Cause]
  · intro r h
    have hstate : (p.UninstallInstance instanceID instanceType).1 = p := by
      rcases h with hC | ⟨hI, hT⟩
      · rw [habs hC]
      · cases hC : ValueSet.Contains p.instances instanceID
        · rw [habs hC]
        · rw [hmis r hC hI hT]
    rw [hstate]
    exact ⟨rfl, rfl, rfl, fun _ _ h => h, fun _ h => h⟩

/-- C21 at the sample plugin, whose registry is `[A]`: uninstalling `B` fails with the
NotFound error and leaves the plugin as it was. -/
theorem C21_UninstallInstance_prechecks_witness :
    samplePlugin.UninstallInstance "B" "server" =
      (samplePlugin, .ret (none, some (instanceNotFound "B"))) :=
  ((C21_UninstallInstance_prechecks samplePlugin "B" "server" rfl).1 (by decide)).1

/-- The reconciliation path of `UninstallInstance`: the record is gone, the ID is
removed and the registry persisted, and the call then aborts at `updated.Len()`, the
variable `updated` never having been assigned. -/
theorem Plugin.UninstallInstance_reconcile [UnicodeTables] (p : Plugin) (instanceID : ID)
    (instanceType : String) (err : GoError)
    (hL : p.faults.LoadInstances = none) (hSS : p.faults.StoreInstances = none)
    (hC : ValueSet.Contains p.instances instanceID = true)
    (hI : p.LoadInstance instanceID = .error err)
    (hnf : stringsContains err.Error "not found" = true) :
    (p.UninstallInstance instanceID instanceType).2 = Go.panic ∧
    (p.UninstallInstance instanceID instanceType).1.instances =
      ValueSet.Delete p.instances instanceID := by
  simp [Plugin.UninstallInstance, UpdateInstances, Plugin.LoadInstances,
    UninstallInstance.updatef, Plugin.StoreInstances, Plugin.reRegister, Plugin.emit,
    hL, hSS, hC, hI, hnf]

/-- C22 fails on the code: the registry lists `A` and `B`, the record of `B` is gone,
so `LoadInstance` fails with a `not found` error; `UninstallInstance` removes `B` from
the snapshot and persists it, and then aborts instead of returning: the reconciliation
branch never assigns `updated`, and `updated.Len()` dereferences the nil pointer. -/
theorem C22_reconciliation_aborts :
    ValueSet.Contains sampleLostRecord.instances "B" = true ∧
    sampleLostRecord.LoadInstance "B" =
      .error (GoError.Wrap GoError.ErrNotFound "failed to load instance B") ∧
    stringsContains
      (GoError.Wrap GoError.ErrNotFound "failed to load instance B").Error "not found"
      = true ∧
    (sampleLostRecord.UninstallInstance "B" "server").1.instances = [sampleA] ∧
    (sampleLostRecord.UninstallInstance "B" "server").2 = Go.panic := by
  decide

/-! ### C24: aborts of `userFriendlyJiraError` -/

/-- C24 fails on the code: called with a nil response and a `*jira.Error` without field
errors and messages, `userFriendlyJiraError` reads `resp.StatusCode` and aborts; this is
the call `RESTPostAttachment` makes for an error body that is the empty JSON object,
so that call aborts as well. -/
theorem C24_nil_response_aborts :
    userFriendlyJiraError sampleNewJiraError none (GoError.JiraError "" [] []) = Go.panic ∧
    sampleJsonUnmarshal "{}" = some ([], []) ∧
    JiraClient.RESTPostAttachment sampleNewJiraError (fun _ => .ok "")
      (fun a b => a ++ "/" ++ b) sampleJsonUnmarshal sampleRefusedUpload "KEY-2" = Go.panic := by
  decide

/-! ### C27: what the resolver returns -/

theorem ValueSet.Get_mem (set : ValueSet) (id : ID) (v : InstanceCommon)
    (h : ValueSet.Get set id = some v) : v ∈ set := by
  induction set with
  | nil => simp [ValueSet.Get] at h
  | cons w rest ih =>
    unfold ValueSet.Get at h
    split at h
    · rw [Option.some.injEq] at h
      subst h
      exact List.mem_cons_self _ _
    · exact List.mem_cons_of_mem _ (ih h)

theorem Instances.getByAlias_none (instances : Instances) (a : String)
    (h : ∀ m ∈ instances, m.Alias ≠ a) : Instances.getByAlias instances a = none := by
  unfold Instances.getByAlias
  split
  · rfl
  · apply List.findSome?_eq_none_iff.mpr
    intro id _
    cases hg : ValueSet.Get instances id with
    | none => rfl
    | some inst =>
      have := h inst (ValueSet.Get_mem instances id inst hg)
      simp [this]

/-- C27: with an empty hint, whatever `resolveUserInstanceURL` returns on success is a
member of the user's `ConnectedInstances`. With a non-empty hint whose normalized form
(non-empty) is the alias of no installed instance, whatever it returns on success is
the normalized hint, it does return it for a connected user once the registry is
loaded, and the result does not depend on `DefaultInstanceID`; no condition asks that
ID to be connected or installed. -/
theorem C27_resolver_result (NormalizeJiraURL : String → Except GoError String)
    (p : Plugin) (user : User) :
    (∀ id, p.resolveUserInstanceURL NormalizeJiraURL user "" = .ok id →
      id ∈ ValueSet.IDs user.ConnectedInstances) ∧
    (∀ hint h : String, hint ≠ "" → NormalizeJiraURL hint = .ok h → h ≠ "" →
      (∀ m ∈ p.instances, m.Alias ≠ h) →
      (∀ id, p.resolveUserInstanceURL NormalizeJiraURL user hint = .ok id → id = h) ∧
      (Instances.IsEmpty user.ConnectedInstances = false → p.faults.LoadInstances = none →
        p.resolveUserInstanceURL NormalizeJiraURL user hint = .ok h) ∧
      (∀ d : ID, p.resolveUserInstanceURL NormalizeJiraURL
        { user with DefaultInstanceID := d } hint =
        p.resolveUserInstanceURL NormalizeJiraURL user hint)) := by
  constructor
  · intro id hid
    cases hconn : Instances.IsEmpty user.ConnectedInstances with
    | true => simp [Plugin.resolveUserInstanceURL, hconn] at hid
    | false =>
      cases hL : p.faults.LoadInstances with
      | some e => simp [Plugin.resolveUserInstanceURL, hconn, Plugin.LoadInstances, hL] at hid
      | none =>
        rw [Plugin.resolveUserInstanceURL_empty NormalizeJiraURL p user hconn hL] at hid
        split at hid
        · rename_i hd
          rw [Except.ok.injEq] at hid
          rw [← hid]
          exact hd.2
        · split at hid
          · rename_i only heq
            rw [Except.ok.injEq] at hid
            rw [← hid, heq]
            simp [ValueSet.IDs]
          · simp at hid
  · intro hint h hhint hnorm hh hno
    have key : ∀ u : User, p.resolveUserInstanceURL NormalizeJiraURL u hint =
        if Instances.IsEmpty u.ConnectedInstances then .error errNotConnected
        else match p.faults.LoadInstances with
          | some err => .error (GoError.Wrap err "failed to load instances")
          | none => .ok h := by
      intro u
      unfold Plugin.resolveUserInstanceURL
      cases hconn : Instances.IsEmpty u.ConnectedInstances
      · cases hL : p.faults.LoadInstances with
        | some e =>
          simp only [Bool.false_eq_true, if_false, hhint, ne_eq, not_false_eq_true, if_true,
            hnorm, Plugin.LoadInstances, hL]
        | none =>
          simp only [Bool.false_eq_true, if_false, hhint, ne_eq, not_false_eq_true, if_true,
            hnorm, Plugin.LoadInstances, hL, Instances.getByAlias_none p.instances h hno, hh]
      · simp only [if_true]
    refine ⟨fun id hid => ?_, fun hconn hL => ?_, fun d => ?_⟩
    · rw [key user] at hid
      split at hid
      · simp at hid
      · split at hid
        · simp at hid
        · rw [Except.ok.injEq] at hid
          exact hid.symm
    · rw [key user]
      simp [hconn, hL]
    · rw [key user, key { user with DefaultInstanceID := d }]

/-! ### C28: an empty request for a transition -/

theorem stringsFieldsChars_space (cs : List Char) (h : ∀ c ∈ cs, unicodeIsSpace c = true) :
    stringsFieldsChars [] cs = [] := by
  induction cs with
  | nil => rfl
  | cons c rest ih =>
    have hc := h c (List.mem_cons_self _ _)
    have ih := ih (fun x hx => h x (List.mem_cons_of_mem _ hx))
    simp [stringsFieldsChars, hc, ih]

/-- A request of white space only is normalized to the empty string. -/
theorem normalizeState_space (unicodeToLower : Char → Char) (s : String)
    (h : ∀ c ∈ s.data, unicodeIsSpace c = true) : normalizeState unicodeToLower s = "" := by
  simp [normalizeState, stringsFields, stringsFieldsChars_space s.data h, stringsJoin,
    stringsToLower, String.intercalate]

theorem stringsContains_empty (s : String) : stringsContains s "" = true := by
  simp [stringsContains]

/-- The three outcomes of `TransitionIssue` after the available transitions were
fetched, by the number of matches. -/
theorem TransitionIssue_outcome [UnicodeTables] (unicodeToLower : Char → Char) (client : Client)
    (JiraBaseURL : String) (asSlackAttachment : Option Issue → Option GoError)
    (input : InTransitionIssue) (transitions : List Transition)
    (hT : client.GetTransitions input.IssueKey = (transitions, none))
    (hne : transitions ≠ []) :
    (∀ t, matchingTransitions unicodeToLower input.ToState transitions = [t] →
      ∃ rest, (TransitionIssue unicodeToLower (.ok (client, JiraBaseURL)) asSlackAttachment
          input).2 =
          Call.GetTransitions input.IssueKey :: Call.DoTransition input.IssueKey t.ID :: rest ∧
        ∀ k i, Call.DoTransition k i ∉ rest) ∧
    (2 ≤ (matchingTransitions unicodeToLower input.ToState transitions).length →
      TransitionIssue unicodeToLower (.ok (client, JiraBaseURL)) asSlackAttachment input =
        (("", some (GoError.New ("please be more specific, " ++ quoted input.ToState ++
          " matched several states: " ++
          quoted (stringsJoin ((matchingTransitions unicodeToLower input.ToState
            transitions).map (fun t => t.ToName)) ", ")))),
          [Call.GetTransitions input.IssueKey])) := by
  obtain ⟨h1, h2, h3⟩ := TransitionIssue.foldl_body unicodeToLower input.ToState transitions
    ⟨⟨"", ""⟩, [], []⟩
  simp only [List.nil_append] at h1 h2
  have hlen : ¬ transitions.length < 1 := by
    cases transitions with
    | nil => exact absurd rfl hne
    | cons a l => simp
  refine ⟨?_, ?_⟩
  · intro t hM
    rw [hM] at h1 h3
    simp only [List.map_cons, List.map_nil, List.getLast?_singleton, Option.getD_some]
      at h1 h3
    simp only [TransitionIssue, hT, hlen, if_false, h1, h3, List.length_singleton,
      List.singleton_append]
    cases hD : client.DoTransition input.IssueKey t.ID with
    | some err => exact ⟨[], rfl, by simp⟩
    | none =>
      rcases hG : client.GetIssue input.IssueKey none with ⟨issue, _ | err⟩
      · cases hA : asSlackAttachment issue with
        | some err => exact ⟨[Call.GetIssue input.IssueKey none], by simp [hA], by simp⟩
        | none =>
          exact ⟨[Call.GetIssue input.IssueKey none, Call.SendEphemeralPost
            input.mattermostUserID input.PostToChannelID
            ("[" ++ input.IssueKey ++ "](" ++ JiraBaseURL ++ "/browse/" ++ input.IssueKey ++
              ") transitioned to `" ++ t.ToName ++ "`")], by simp [hA], by simp⟩
      · refine ⟨[Call.GetIssue input.IssueKey none], ?_, by simp⟩
        simp only []
        split <;> [rfl; (split <;> rfl)]
  · intro hM
    obtain ⟨n, hn⟩ : ∃ n, (List.map (fun t => t.ToName)
        (matchingTransitions unicodeToLower input.ToState transitions)).length = n + 2 :=
      ⟨(matchingTransitions unicodeToLower input.ToState transitions).length - 2, by
        rw [List.length_map]; omega⟩
    simp only [TransitionIssue, hT, hlen, if_false, h1, hn]

/-- C28: for a `ToState` that is empty or consists of white space only, the normalized
request is the empty string and every available transition matches: with exactly one
available transition the next call is `DoTransition` with its ID, with two or more the
request fails as ambiguous, listing all of them, and `DoTransition` is not called. -/
theorem C28_empty_request [UnicodeTables] (unicodeToLower : Char → Char) (client : Client)
    (JiraBaseURL : String) (asSlackAttachment : Option Issue → Option GoError)
    (input : InTransitionIssue) (transitions : List Transition)
    (hT : client.GetTransitions input.IssueKey = (transitions, none))
    (hws : ∀ c ∈ input.ToState.data, unicodeIsSpace c = true) :
    normalizeState unicodeToLower input.ToState = "" ∧
    matchingTransitions unicodeToLower input.ToState transitions = transitions ∧
    (∀ t, transitions = [t] →
      ∃ rest, (TransitionIssue unicodeToLower (.ok (client, JiraBaseURL)) asSlackAttachment
          input).2 =
          Call.GetTransitions input.IssueKey :: Call.DoTransition input.IssueKey t.ID :: rest ∧
        ∀ k i, Call.DoTransition k i ∉ rest) ∧
    (2 ≤ transitions.length →
      TransitionIssue unicodeToLower (.ok (client, JiraBaseURL)) asSlackAttachment input =
        (("", some (GoError.New ("please be more specific, " ++ quoted input.ToState ++
          " matched several states: " ++
          quoted (stringsJoin (transitions.map (fun t => t.ToName)) ", ")))),
          [Call.GetTransitions input.IssueKey])) := by
  have hn := normalizeState_space unicodeToLower input.ToState hws
  have hM : matchingTransitions unicodeToLower input.ToState transitions = transitions := by
    unfold matchingTransitions
    rw [← normalizeState_eq_reference unicodeToLower input.ToState, hn]
    exact List.filter_eq_self.mpr (fun t _ => stringsContains_empty _)
  refine ⟨hn, hM, ?_, ?_⟩
  · intro t ht
    have hne : transitions ≠ [] := by rw [ht]; simp
    exact (TransitionIssue_outcome unicodeToLower client JiraBaseURL asSlackAttachment input
      transitions hT hne).1 t (hM.trans ht)
  · intro hlen
    have hne : transitions ≠ [] := by
      intro e; rw [e] at hlen; simp at hlen
    have := (TransitionIssue_outcome unicodeToLower client JiraBaseURL asSlackAttachment input
      transitions hT hne).2 (by rw [hM]; exact hlen)
    rw [hM] at this
    exact this

/-- C28 at the sample client and a request of a tab and a blank: both `In Progress` and
`In Review` match, and the request fails as ambiguous; the error shows the request as
`%q` writes it. -/
theorem C28_empty_request_witness :
    TransitionIssue Char.toLower (.ok (sampleClient, "https://jira")) (fun _ => none)
        (sampleTransition "\t ") =
      (("", some (GoError.New "please be more specific, \"\\t \" matched several states: \"In Progress, In Review\"")),
        [Call.GetTransitions "KEY-1"]) :=
  ((C28_empty_request Char.toLower sampleClient "https://jira" (fun _ => none)
    (sampleTransition "\t ") [⟨"11", "In Progress"⟩, ⟨"21", "In Review"⟩] rfl
    (by decide)).2.2.2 (by decide)).trans (by decide)

/-! ### Endpoint names -/

theorem intercalate_go_snoc (sep m : String) (l : List String) (acc : String) :
    String.intercalate.go acc sep (l ++ [m]) = String.intercalate.go acc sep l ++ sep ++ m := by
  induction l generalizing acc with
  | nil => simp [String.intercalate.go]
  | cons a l ih => simp [String.intercalate.go, ih]

theorem stringsJoin_snoc (a : String) (l : List String) (sep m : String) :
    stringsJoin (a :: l ++ [m]) sep = stringsJoin (a :: l) sep ++ sep ++ m := by
  simp [stringsJoin, String.intercalate, intercalate_go_snoc]

theorem endpointNameFromRequest.loop_extends (ps : List String) (context : String)
    (out : List String) : ∃ ext, endpointNameFromRequest.loop context out ps = out ++ ext := by
  induction ps generalizing context out with
  | nil => exact ⟨[], by simp [endpointNameFromRequest.loop]⟩
  | cons p ps ih =>
    unfold endpointNameFromRequest.loop
    split
    · exact ih context out
    · split
      · exact ih context out
      · split
        · exact ih context out
        · obtain ⟨ext, h⟩ := ih p (out ++ [p])
          exact ⟨p :: ext, by simp [h]⟩

theorem endpointNameFromRequest.loop_closed (ps : List String) (context : String)
    (out : List String) (h : context = "project" ∨ context = "comment") :
    endpointNameFromRequest.loop context out ps = out := by
  induction ps with
  | nil => simp [endpointNameFromRequest.loop]
  | cons p ps ih =>
    rcases h with h | h <;> subst h <;> simpa [endpointNameFromRequest.loop] using ih

theorem endpointNameFromRequest.loop_issue (k : String) (ps out : List String)
    (hk : keyOrIDRegex k = true) :
    endpointNameFromRequest.loop "issue" out (k :: ps)
      = endpointNameFromRequest.loop "issue" out ps := by
  simp [endpointNameFromRequest.loop, hk]

theorem endpointNameFromRequest.loop_user (p : String) (ps out : List String)
    (hg : p ≠ "groups") (ha : p ≠ "assignable") :
    endpointNameFromRequest.loop "user" out (p :: ps)
      = endpointNameFromRequest.loop "user" out ps := by
  simp [endpointNameFromRequest.loop, hg, ha]

theorem stringsTrimPrefix_append (pre t : String) : stringsTrimPrefix (pre ++ t) pre = t := by
  have h : pre.data.isPrefixOf (pre ++ t).data = true := by
    simp [String.data_append]
  simp [stringsTrimPrefix, h, String.data_append]

theorem stringsTrim_length (s : String) (cut : Char) :
    (stringsTrim s cut).data.length ≤ s.data.length := by
  simp only [stringsTrim, List.length_reverse]
  exact le_trans (List.dropWhile_sublist _).length_le
    (by rw [List.length_reverse]; exact (List.dropWhile_sublist _).length_le)

/-- Under `/rest/api` with two segments or more, the label is the joined output of the
loop followed by the method. -/
theorem endpointNameFromRequest_parts (unicodeToLower : Char → Char)
    (splitInstancePath : String → String × String) (URLPath Method t p0 p1 : String)
    (rest : List String)
    (hl : stringsToLower unicodeToLower (splitInstancePath URLPath).2 = "/rest/api" ++ t)
    (hp : stringsSplit (stringsTrim t '/') '/' = p0 :: p1 :: rest) :
    endpointNameFromRequest unicodeToLower splitInstancePath URLPath Method
      = stringsJoin (endpointNameFromRequest.loop p1 ["api/jira", p0, p1] rest ++ [Method])
          "/" := by
  have hs : endpointNameFromRequest.trimmed unicodeToLower (splitInstancePath URLPath).2
      = stringsTrim t '/' := by
    simp [endpointNameFromRequest.trimmed, hl, stringsTrimPrefix_append]
  have hne : stringsTrim t '/' ≠ "/rest/api" ++ t := by
    intro h
    have h1 := stringsTrim_length t '/'
    have h2 : (stringsTrim t '/').data.length = ("/rest/api" ++ t).data.length := by rw [h]
    rw [String.data_append, List.length_append] at h2
    have h3 : "/rest/api".data.length = 9 := rfl
    omega
  simp only [endpointNameFromRequest, hs, hl, hp, if_neg hne]


/-- C25: under `/rest/api/<version>/issue/<key>/...` the label ends with the method and
is the same for two requests that differ only in the key segment, when both keys end in
a digit as `keyOrIDRegex` asks; the segments after `project` and after `comment` are left
out, and so is a segment after `user` that is neither `groups` nor `assignable`. -/
theorem C25_endpoint_label (unicodeToLower : Char → Char)
    (splitInstancePath : String → String × String)
    (URLPath URLPath2 Method t t2 v k k2 : String) (rest : List String)
    (hl : stringsToLower unicodeToLower (splitInstancePath URLPath).2 = "/rest/api" ++ t)
    (hl2 : stringsToLower unicodeToLower (splitInstancePath URLPath2).2 = "/rest/api" ++ t2)
    (hp : stringsSplit (stringsTrim t '/') '/' = v :: "issue" :: k :: rest)
    (hp2 : stringsSplit (stringsTrim t2 '/') '/' = v :: "issue" :: k2 :: rest)
    (hk : keyOrIDRegex k = true) (hk2 : keyOrIDRegex k2 = true) :
    endpointNameFromRequest unicodeToLower splitInstancePath URLPath Method
        = endpointNameFromRequest unicodeToLower splitInstancePath URLPath2 Method
      ∧ (∃ front, endpointNameFromRequest unicodeToLower splitInstancePath URLPath Method
          = front ++ "/" ++ Method)
      ∧ (∀ tail, rest = "comment" :: tail →
          endpointNameFromRequest unicodeToLower splitInstancePath URLPath Method
            = stringsJoin ["api/jira", v, "issue", "comment", Method] "/")
      ∧ (∀ U u w tail,
          stringsToLower unicodeToLower (splitInstancePath U).2 = "/rest/api" ++ u →
          stringsSplit (stringsTrim u '/') '/' = w :: "project" :: tail →
          endpointNameFromRequest unicodeToLower splitInstancePath U Method
            = stringsJoin ["api/jira", w, "project", Method] "/")
      ∧ (∀ U U2 u u2 w p tail,
          stringsToLower unicodeToLower (splitInstancePath U).2 = "/rest/api" ++ u →
          stringsToLower unicodeToLower (splitInstancePath U2).2 = "/rest/api" ++ u2 →
          stringsSplit (stringsTrim u '/') '/' = w :: "user" :: p :: tail →
          stringsSplit (stringsTrim u2 '/') '/' = w :: "user" :: tail →
          p ≠ "groups" → p ≠ "assignable" →
          endpointNameFromRequest unicodeToLower splitInstancePath U Method
            = endpointNameFromRequest unicodeToLower splitInstancePath U2 Method) := by
  have e1 := endpointNameFromRequest_parts unicodeToLower splitInstancePath URLPath Method
    t v "issue" (k :: rest) hl hp
  have e2 := endpointNameFromRequest_parts unicodeToLower splitInstancePath URLPath2 Method
    t2 v "issue" (k2 :: rest) hl2 hp2
  rw [endpointNameFromRequest.loop_issue k rest _ hk] at e1
  rw [endpointNameFromRequest.loop_issue k2 rest _ hk2] at e2
  refine ⟨e1.trans e2.symm, ?_, ?_, ?_, ?_⟩
  · obtain ⟨ext, hx⟩ := endpointNameFromRequest.loop_extends rest "issue"
      ["api/jira", v, "issue"]
    refine ⟨stringsJoin ("api/jira" :: ([v, "issue"] ++ ext)) "/", ?_⟩
    rw [e1, hx]
    exact stringsJoin_snoc "api/jira" ([v, "issue"] ++ ext) "/" Method
  · intro tail ht
    subst ht
    rw [e1]
    have hc : endpointNameFromRequest.loop "issue" ["api/jira", v, "issue"]
        ("comment" :: tail) = ["api/jira", v, "issue", "comment"] := by
      have hno : keyOrIDRegex "comment" = false := by decide
      have := endpointNameFromRequest.loop_closed tail "comment"
        (["api/jira", v, "issue"] ++ ["comment"]) (Or.inr rfl)
      simpa [endpointNameFromRequest.loop, hno] using this
    rw [hc]
    rfl
  · intro U u w tail hu hs
    rw [endpointNameFromRequest_parts unicodeToLower splitInstancePath U Method u w
      "project" tail hu hs, endpointNameFromRequest.loop_closed tail "project" _ (Or.inl rfl)]
    rfl
  · intro U U2 u u2 w p tail hu hu2 hs hs2 hg ha
    rw [endpointNameFromRequest_parts unicodeToLower splitInstancePath U Method u w
      "user" (p :: tail) hu hs, endpointNameFromRequest_parts unicodeToLower
      splitInstancePath U2 Method u2 w "user" tail hu2 hs2,
      endpointNameFromRequest.loop_user p tail _ hg ha]

theorem C25_endpoint_label_witness :
    endpointNameFromRequest Char.toLower sampleSplitInstancePath
        "/rest/api/2/issue/KEY-1/transitions" "POST" = "api/jira/2/issue/transitions/POST"
      ∧ endpointNameFromRequest Char.toLower sampleSplitInstancePath
        "/rest/api/2/issue/10042/transitions" "POST" = "api/jira/2/issue/transitions/POST" := by
  have h := (C25_endpoint_label Char.toLower sampleSplitInstancePath
    "/rest/api/2/issue/KEY-1/transitions" "/rest/api/2/issue/10042/transitions" "POST"
    "/2/issue/key-1/transitions" "/2/issue/10042/transitions" "2" "key-1" "10042"
    ["transitions"] (by decide) (by decide) (by decide) (by decide) (by decide)
    (by decide)).1
  have h2 : endpointNameFromRequest Char.toLower sampleSplitInstancePath
      "/rest/api/2/issue/10042/transitions" "POST" = "api/jira/2/issue/transitions/POST" := by
    decide
  exact ⟨h.trans h2, h2⟩

/-- C29: a path that does not begin with `/rest/api` but has two segments or more is not
answered with `_unrecognized`: the comparison `s == l` is made after the slashes at both
ends were trimmed, so it fails for every path that starts with a slash. -/
theorem C29_foreign_path_labelled :
    endpointNameFromRequest Char.toLower sampleSplitInstancePath
        "/plugins/servlet/oauth" "GET" = "api/jira/plugins/servlet/oauth/GET"
      ∧ endpointNameFromRequest Char.toLower sampleSplitInstancePath
        "/plugins/servlet/oauth" "GET" ≠ unrecognizedEndpoint
      ∧ endpointNameFromRequest Char.toLower sampleSplitInstancePath
        "/rest/api/2" "GET" = unrecognizedEndpoint
      ∧ endpointNameFromRequest Char.toLower sampleSplitInstancePath
        "/rest/api" "GET" = unrecognizedEndpoint
      ∧ endpointNameFromRequest Char.toLower sampleSplitInstancePath
        "plugins/servlet" "GET" = unrecognizedEndpoint := by
  decide

/-! ### The limited reader -/

theorem wrapInt64_of_range (x : Int) (h0 : -(2 ^ 63) ≤ x) (h1 : x < 2 ^ 63) :
    wrapInt64 x = x := by
  unfold wrapInt64
  rw [Int.emod_eq_of_lt (by omega) (by omega)]
  omega

theorem LimitedReadCloser.reads_limited {σ : Type} (rd : Reader σ) (hR : rd.Obeys)
    (lens : List Nat) (T N : Int) (s : σ) (hT : 0 ≤ T) (hN : 0 ≤ N)
    (hsum : T + N < 2 ^ 63) :
    ((LimitedReadCloser.reads rd ⟨T, Sum.inr ⟨s, N⟩⟩ lens).2.TotalRead
        = T + ((LimitedReadCloser.reads rd ⟨T, Sum.inr ⟨s, N⟩⟩ lens).1.sum : Nat))
      ∧ (LimitedReadCloser.reads rd ⟨T, Sum.inr ⟨s, N⟩⟩ lens).2.TotalRead ≤ T + N := by
  induction lens generalizing T N s with
  | nil => simp [LimitedReadCloser.reads]; omega
  | cons len lens ih =>
    by_cases hz : N ≤ 0
    · have hN0 : N = 0 := by omega
      subst hN0
      have hw : wrapInt64 T = T := wrapInt64_of_range T (by omega) (by omega)
      have := ih T 0 s hT (le_refl 0) hsum
      simp only [LimitedReadCloser.reads, LimitedReadCloser.Read, LimitedReader.Read,
        le_refl, if_true, Nat.cast_zero, add_zero, hw, List.sum_cons, zero_add]
      simpa using this
    · obtain ⟨m, hm, hmle⟩ : ∃ m : Nat, m = (if (len : Int) > N then N.toNat else len)
          ∧ (m : Int) ≤ N := by
        refine ⟨_, rfl, ?_⟩
        split <;> omega
      have hn : ((rd.Read s m).1 : Int) ≤ N := by
        have := hR s m
        omega
      have hw1 : wrapInt64 (N - (rd.Read s m).1) = N - (rd.Read s m).1 :=
        wrapInt64_of_range _ (by omega) (by omega)
      have hw2 : wrapInt64 (T + (rd.Read s m).1) = T + (rd.Read s m).1 :=
        wrapInt64_of_range _ (by omega) (by omega)
      have := ih (T + (rd.Read s m).1) (N - (rd.Read s m).1) (rd.Read s m).2.2
        (by omega) (by omega) (by omega)
      simp only [LimitedReadCloser.reads, LimitedReadCloser.Read, LimitedReader.Read,
        if_neg hz, ← hm, hw1, hw2, List.sum_cons, Nat.cast_add]
      constructor
      · rw [this.1]; omega
      · have := this.2; omega

theorem LimitedReadCloser.reads_counts {σ : Type} (rd : Reader σ) (lens : List Nat)
    (T : Int) (s : σ) :
    (LimitedReadCloser.reads rd ⟨T, Sum.inl s⟩ lens).1 = (rd.reads s lens).1 := by
  induction lens generalizing T s with
  | nil => simp [LimitedReadCloser.reads, Reader.reads]
  | cons len lens ih =>
    simp only [LimitedReadCloser.reads, LimitedReadCloser.Read, Reader.reads]
    rw [ih]

theorem LimitedReadCloser.reads_unlimited {σ : Type} (rd : Reader σ) (lens : List Nat)
    (T : Int) (s : σ) (hT : 0 ≤ T)
    (hsum : T + ((rd.reads s lens).1.sum : Nat) < 2 ^ 63) :
    (LimitedReadCloser.reads rd ⟨T, Sum.inl s⟩ lens).2.TotalRead
      = T + ((rd.reads s lens).1.sum : Nat) := by
  induction lens generalizing T s with
  | nil => simp [LimitedReadCloser.reads, Reader.reads]
  | cons len lens ih =>
    simp only [Reader.reads, List.sum_cons, Nat.cast_add] at hsum
    have hw : wrapInt64 (T + (rd.Read s len).1) = T + (rd.Read s len).1 :=
      wrapInt64_of_range _ (by omega) (by omega)
    simp only [LimitedReadCloser.reads, LimitedReadCloser.Read, Reader.reads, List.sum_cons,
      Nat.cast_add, hw]
    rw [ih _ _ (by omega) (by omega)]
    omega

/-- C30: for a source that keeps the contract of `io.Reader` and a limit `>= 0`, after
any sequence of `Read` calls `TotalRead` is the sum of the counts returned and is at most
the limit; with a negative limit the calls return what the source returns, and
`TotalRead` is the total read from the source (as long as that total fits an `int64`). -/
theorem C30_TotalRead {σ : Type} (rd : Reader σ) (rc : σ) (limit : Int) (lens : List Nat)
    (hR : rd.Obeys) (hmax : limit < 2 ^ 63) :
    (0 ≤ limit →
        ((NewLimitedReadCloser rc limit).reads rd lens).2.TotalRead
            = (((NewLimitedReadCloser rc limit).reads rd lens).1.sum : Nat)
          ∧ ((NewLimitedReadCloser rc limit).reads rd lens).2.TotalRead ≤ limit)
      ∧ (limit < 0 →
        ((NewLimitedReadCloser rc limit).reads rd lens).1 = (rd.reads rc lens).1
          ∧ ((((rd.reads rc lens).1.sum : Nat) : Int) < 2 ^ 63 →
              ((NewLimitedReadCloser rc limit).reads rd lens).2.TotalRead
                = ((rd.reads rc lens).1.sum : Nat))) := by
  constructor
  · intro h0
    have h := LimitedReadCloser.reads_limited rd hR lens 0 limit rc (le_refl 0) h0
      (by omega)
    simp only [NewLimitedReadCloser, ge_iff_le, h0, if_true]
    simpa using h
  · intro hneg
    have hn : ¬ limit ≥ 0 := by omega
    simp only [NewLimitedReadCloser, hn, if_false]
    refine ⟨LimitedReadCloser.reads_counts rd lens 0 rc, fun hb => ?_⟩
    have h := LimitedReadCloser.reads_unlimited rd lens 0 rc (le_refl 0) (by omega)
    simpa using h

theorem C30_TotalRead_witness :
    ((NewLimitedReadCloser 8 5).reads sampleReader [3, 3, 3]).1 = [3, 2, 0]
      ∧ ((NewLimitedReadCloser 8 5).reads sampleReader [3, 3, 3]).2.TotalRead = 5
      ∧ ((NewLimitedReadCloser 8 (-1)).reads sampleReader [3, 3, 3]).2.TotalRead = 8 := by
  have hR : sampleReader.Obeys := by
    intro s len
    simp [sampleReader]
  have h := (C30_TotalRead sampleReader 8 5 [3, 3, 3] hR (by decide)).1 (by decide)
  have h2 := (C30_TotalRead sampleReader 8 (-1) [3, 3, 3] hR (by decide)).2 (by decide)
  have hc : ((NewLimitedReadCloser 8 5).reads sampleReader [3, 3, 3]).1 = [3, 2, 0] := by
    decide
  have hu : (sampleReader.reads 8 [3, 3, 3]).1 = [3, 3, 2] := by decide
  refine ⟨hc, ?_, ?_⟩
  · rw [h.1, hc]; rfl
  · rw [h2.2 (by rw [hu]; decide), hu]; rfl


/-! ### Byte sizes -/

theorem wrapInt64_of_high (x : Int) (h0 : 2 ^ 63 ≤ x) (h1 : x < 2 ^ 64) :
    wrapInt64 x = x - 2 ^ 64 := by
  unfold wrapInt64
  omega

theorem ByteSize.ToUint64_tdiv_neg (x u : Int) (hx : x < 0) (hu : 0 < u) :
    ByteSize.ToUint64 (Int.tdiv x u) = 0 := by
  have h : Int.tdiv x u ≤ 0 := by
    have hx2 : x = -(-x) := by omega
    rw [hx2, Int.neg_tdiv]
    have := Int.tdiv_nonneg (show 0 ≤ -x by omega) (le_of_lt hu)
    omega
  unfold ByteSize.ToUint64
  split
  · rfl
  · omega

/-- C26: for every size from 922337148709896192 up to `MaxInt64/10` the sum
`size*10 + u/2` with `u` the terabyte leaves `int64` and wraps to a negative value, and
`ByteSize.String` returns `n/a`: the guard `size > math.MaxInt64/10` covers the product
but not the half unit added to it. -/
theorem C26_rounding_overflows (size : Int) (h0 : 922337148709896192 ≤ size)
    (h1 : size ≤ Int.tdiv MaxInt64 10) :
    2 ^ 63 ≤ size * 10 + Int.tdiv sizeTb 2
      ∧ wrapInt64 (wrapInt64 (size * 10) + Int.tdiv sizeTb 2) < 0
      ∧ ByteSize.String size = NotAvailable := by
  have hmax : Int.tdiv MaxInt64 10 = 922337203685477580 := by decide
  have hhalf : Int.tdiv sizeTb 2 = 549755813888 := by decide
  have hTb : sizeTb = 1099511627776 := by decide
  rw [hmax] at h1
  have hw1 : wrapInt64 (size * 10) = size * 10 := wrapInt64_of_range _ (by omega) (by omega)
  have hw2 : wrapInt64 (size * 10 + 549755813888) = size * 10 + 549755813888 - 2 ^ 64 :=
    wrapInt64_of_high _ (by omega) (by omega)
  have hneg : wrapInt64 (size * 10 + 549755813888) < 0 := by rw [hw2]; omega
  refine ⟨by rw [hhalf]; omega, by rw [hw1, hhalf]; exact hneg, ?_⟩
  have hz : ByteSize.ToUint64 (Int.tdiv (wrapInt64 (size * 10 + 549755813888)) sizeTb) = 0 :=
    ByteSize.ToUint64_tdiv_neg _ _ hneg (by decide)
  have hne : size ≠ 0 := by omega
  have hlt : ¬ size < sizeTb := by rw [hTb]; omega
  have hB : ¬ sizeTb = sizeB := by decide
  have hgt : ¬ size > Int.tdiv MaxInt64 10 := by rw [hmax]; omega
  simp only [ByteSize.String, if_neg hne, sizeUnits, sizeSuffixes, List.zip_cons_cons,
    ByteSize.String.render, if_neg hlt, if_neg hB, if_neg hgt, hw1, hhalf, hz]
  decide

theorem C26_rounding_overflows_witness :
    ByteSize.String 922337203685477580 = NotAvailable
      ∧ ByteSize.String 922337148709896192 = NotAvailable
      ∧ ByteSize.String 922337148709896191 = "838,860.7Tb" :=
  ⟨(C26_rounding_overflows 922337203685477580 (by decide) (by decide)).2.2,
    by decide, by decide⟩


/-! ### Decimal renderings -/

theorem toDigitsCore_fuel (n : Nat) : ∀ (fuel fuel2 : Nat) (ds : List Char),
    n < fuel → n < fuel2 →
    Nat.toDigitsCore 10 fuel n ds = Nat.toDigitsCore 10 fuel2 n [] ++ ds := by
  induction n using Nat.strong_induction_on with
  | _ n ih =>
    intro fuel fuel2 ds h1 h2
    cases fuel with
    | zero => omega
    | succ f =>
      cases fuel2 with
      | zero => omega
      | succ f2 =>
        simp only [Nat.toDigitsCore]
        by_cases h : n / 10 = 0
        · simp [h]
        · simp only [h, if_false]
          rw [ih (n / 10) (by omega) f (n / 10 + 1) _ (by omega) (by omega),
            ih (n / 10) (by omega) f2 (n / 10 + 1) [Nat.digitChar (n % 10)] (by omega)
              (by omega)]
          simp

theorem repr_lt_ten (n : Nat) (h : n < 10) : (Nat.repr n).data = [Nat.digitChar n] := by
  have h0 : n / 10 = 0 := by omega
  have h1 : n % 10 = n := by omega
  simp [Nat.repr, Nat.toDigits, Nat.toDigitsCore, h0, h1, List.asString]

theorem repr_ge_ten (n : Nat) (h : 10 ≤ n) :
    (Nat.repr n).data = (Nat.repr (n / 10)).data ++ [Nat.digitChar (n % 10)] := by
  have h0 : ¬ n / 10 = 0 := by omega
  simp only [Nat.repr, Nat.toDigits, Nat.toDigitsCore, h0, if_false, List.asString]
  exact toDigitsCore_fuel (n / 10) n (n / 10 + 1) _ (by omega) (by omega)

theorem IsDecimalDigit.facts (c : Char) (h : IsDecimalDigit c) :
    isDigit c = true ∧ c ≠ ',' ∧ c ≠ '.' ∧ c ≠ '+' ∧ c ≠ '-' ∧ c ≠ 't' ∧ c ≠ 'g' ∧ c ≠ 'm'
      ∧ c ≠ 'k' ∧ c.toNat < 128 ∧ Char.toLower c = c := by
  obtain ⟨m, hm, rfl⟩ := h
  interval_cases m <;> decide

theorem IsDecimalDigit.toNat (m : Nat) (hm : m < 10) : (Nat.digitChar m).toNat - 48 = m := by
  interval_cases m <;> decide

theorem repr_digits (n : Nat) : ∀ c ∈ (Nat.repr n).data, IsDecimalDigit c := by
  induction n using Nat.strong_induction_on with
  | _ n ih =>
    by_cases h : n < 10
    · rw [repr_lt_ten n h]
      intro c hc
      simp only [List.mem_singleton] at hc
      exact ⟨n, h, hc⟩
    · rw [repr_ge_ten n (by omega)]
      intro c hc
      rw [List.mem_append, List.mem_singleton] at hc
      rcases hc with hc | hc
      · exact ih (n / 10) (by omega) c hc
      · exact ⟨n % 10, Nat.mod_lt _ (by omega), hc⟩

theorem repr_last (n : Nat) :
    ∃ front, (Nat.repr n).data = front ++ [Nat.digitChar (n % 10)] := by
  by_cases h : n < 10
  · exact ⟨[], by rw [repr_lt_ten n h, Nat.mod_eq_of_lt h]; rfl⟩
  · exact ⟨_, repr_ge_ten n (by omega)⟩

theorem digitsValue_snoc (acc : Nat) (digits : List Char) (c : Char) :
    digitsValue acc (digits ++ [c]) = digitsValue acc digits * 10 + (c.toNat - 48) := by
  simp [digitsValue, List.foldl_append]

theorem digitsValue_repr (n : Nat) : digitsValue 0 (Nat.repr n).data = n := by
  induction n using Nat.strong_induction_on with
  | _ n ih =>
    by_cases h : n < 10
    · rw [repr_lt_ten n h]
      simp [digitsValue, IsDecimalDigit.toNat n h]
    · rw [repr_ge_ten n (by omega), digitsValue_snoc, ih (n / 10) (by omega),
        IsDecimalDigit.toNat _ (Nat.mod_lt _ (by omega))]
      omega

theorem digitsValue_ge (digits : List Char) (acc : Nat) : acc ≤ digitsValue acc digits := by
  induction digits generalizing acc with
  | nil => simp [digitsValue]
  | cons c cs ih =>
    have := ih (acc * 10 + (c.toNat - 48))
    simp only [digitsValue, List.foldl_cons] at this ⊢
    omega

theorem strconvParseUint.scan_digits (digits : List Char) (acc : Nat)
    (hd : ∀ c ∈ digits, IsDecimalDigit c) (hv : digitsValue acc digits < 2 ^ 64) :
    strconvParseUint.scan acc digits = Except.ok (digitsValue acc digits) := by
  induction digits generalizing acc with
  | nil => simp [strconvParseUint.scan, digitsValue]
  | cons c cs ih =>
    have hc := (IsDecimalDigit.facts c (hd c (List.mem_cons_self _ _))).1
    have hv2 : digitsValue (acc * 10 + (c.toNat - 48)) cs < 2 ^ 64 := by
      simpa [digitsValue] using hv
    have hge := digitsValue_ge cs (acc * 10 + (c.toNat - 48))
    have h1 : ¬ acc ≥ (2 ^ 64 - 1) / 10 + 1 := by omega
    have h2 : ¬ acc * 10 + (c.toNat - 48) ≥ 2 ^ 64 := by omega
    have := ih (acc * 10 + (c.toNat - 48))
      (fun c hc => hd c (List.mem_cons_of_mem _ hc)) hv2
    simp only [strconvParseUint.scan, hc, if_neg h1, if_neg h2, this]
    simp [digitsValue]

/-- `strconv.ParseInt` reads the rendering of `n` back as `n`. -/
theorem strconvParseInt_repr (n : Nat) (h : n < 2 ^ 63) :
    strconvParseInt (String.mk (Nat.repr n).data) = Except.ok (n : Int) := by
  obtain ⟨front, hf⟩ := repr_last n
  have hd := repr_digits n
  have hs := strconvParseUint.scan_digits (Nat.repr n).data 0 hd
    (by rw [digitsValue_repr]; omega)
  rw [digitsValue_repr] at hs
  cases hrepr : (Nat.repr n).data with
  | nil => rw [hrepr] at hf; simp at hf
  | cons c cs =>
    rw [hrepr] at hs hd
    have hc := IsDecimalDigit.facts c (hd c (List.mem_cons_self _ _))
    have hlt : ¬ (n ≥ 2 ^ 63) := by omega
    simp [strconvParseInt, strconvParseInt.signed, strconvParseUint, hc.2.2.2.1,
      hc.2.2.2.2.1, hs, hlt]
    omega


/-! ### Renderings with commas and their parsing -/

theorem withCommas.loop_spec (fuel : Nat) : ∀ (inp out : List Char),
    ∃ X, withCommas.loop fuel inp out = X ++ out
      ∧ (∀ c ∈ X, c ∈ inp ∨ c = ',')
      ∧ X.filter (fun c => c != ',') = inp.filter (fun c => c != ',')
      ∧ (∀ d front, inp = front ++ [d] → ∃ X0, X = X0 ++ [d]) := by
  induction fuel with
  | zero =>
    intro inp out
    exact ⟨inp, rfl, fun c hc => Or.inl hc, rfl, fun d front h => ⟨front, h⟩⟩
  | succ fuel ih =>
    intro inp out
    by_cases h : inp.length > 3
    · obtain ⟨X, h1, h2, h3, _⟩ := ih (inp.take (inp.length - 3))
        (',' :: inp.drop (inp.length - 3) ++ out)
      refine ⟨X ++ ',' :: inp.drop (inp.length - 3), ?_, ?_, ?_, ?_⟩
      · simp only [withCommas.loop, if_pos h, h1]
        simp
      · intro c hc
        rw [List.mem_append, List.mem_cons] at hc
        rcases hc with hc | hc | hc
        · rcases h2 c hc with h | h
          · exact Or.inl (List.mem_of_mem_take h)
          · exact Or.inr h
        · exact Or.inr hc
        · exact Or.inl (List.mem_of_mem_drop hc)
      · rw [List.filter_append, h3]
        have hcomma : ((',' : Char) != ',') = false := by decide
        rw [List.filter_cons, hcomma]
        simp only [Bool.false_eq_true, if_false]
        rw [← List.filter_append, List.take_append_drop]
      · intro d front hf
        subst hf
        refine ⟨X ++ ',' :: front.drop ((front ++ [d]).length - 3), ?_⟩
        have hlen : (front ++ [d]).length - 3 ≤ front.length := by
          simp
        rw [List.drop_append_of_le_length hlen]
        simp
    · exact ⟨inp, by simp only [withCommas.loop, if_neg h], fun c hc => Or.inl hc, rfl,
        fun d front h => ⟨front, h⟩⟩

/-- The text `withCommas` makes of a run of digits: digits and commas, the digits in
their order, the last digit last. -/
theorem withCommas_repr (n : Nat) :
    ∃ X0 d, withCommas (Nat.repr n) = String.mk (X0 ++ [d]) ∧ IsDecimalDigit d
      ∧ (∀ c ∈ X0 ++ [d], IsDecimalDigit c ∨ c = ',')
      ∧ (X0 ++ [d]).filter (fun c => c != ',') = (Nat.repr n).data := by
  obtain ⟨X, h1, h2, h3, h4⟩ := withCommas.loop_spec (Nat.repr n).data.length
    (Nat.repr n).data []
  obtain ⟨front, hf⟩ := repr_last n
  obtain ⟨X0, hX⟩ := h4 _ front hf
  have hdig := repr_digits n
  refine ⟨X0, Nat.digitChar (n % 10), ?_, ⟨n % 10, Nat.mod_lt _ (by omega), rfl⟩, ?_, ?_⟩
  · simp only [withCommas, h1, List.append_nil, hX]
  · intro c hc
    rw [← hX] at hc
    rcases h2 c hc with h | h
    · exact Or.inl (hdig c h)
    · exact Or.inr h
  · rw [← hX, h3]
    apply List.filter_eq_self.mpr
    intro c hc
    have := (IsDecimalDigit.facts c (hdig c hc)).2.1
    simpa using this

theorem stringsHasSuffix_two (Y : List Char) (c e a b : Char) :
    stringsHasSuffix (String.mk (Y ++ [c, e])) (String.mk [a, b])
      = (b == e && a == c) := by
  simp [stringsHasSuffix, List.isSuffixOf, List.isPrefixOf]

theorem stringsHasSuffix_one (Y : List Char) (e b : Char) :
    stringsHasSuffix (String.mk (Y ++ [e])) (String.mk [b]) = (b == e) := by
  simp [stringsHasSuffix, List.isSuffixOf, List.isPrefixOf]


theorem stringsToLower_fixed (unicodeToLower : Char → Char) (l : List Char)
    (h : ∀ c ∈ l, unicodeToLower c = c) :
    stringsToLower unicodeToLower (String.mk l) = String.mk l := by
  simp only [stringsToLower]
  rw [List.map_congr_left h]
  simp

theorem stringsToLower_append (unicodeToLower : Char → Char) (a b : List Char) :
    stringsToLower unicodeToLower (String.mk (a ++ b))
      = String.mk ((stringsToLower unicodeToLower (String.mk a)).data
          ++ (stringsToLower unicodeToLower (String.mk b)).data) := by
  simp [stringsToLower]

/-- The suffixes in lower case, for a table that lowers ASCII as Go does. -/
theorem sizeSuffixes_lower (unicodeToLower : Char → Char)
    (hlow : ∀ c : Char, c.toNat < 128 → unicodeToLower c = Char.toLower c) :
    stringsToLower unicodeToLower "Tb" = String.mk ['t', 'b']
      ∧ stringsToLower unicodeToLower "Gb" = String.mk ['g', 'b']
      ∧ stringsToLower unicodeToLower "Mb" = String.mk ['m', 'b']
      ∧ stringsToLower unicodeToLower "Kb" = String.mk ['k', 'b']
      ∧ stringsToLower unicodeToLower "b" = String.mk ['b'] := by
  have hT := hlow 'T' (by decide)
  have hG := hlow 'G' (by decide)
  have hM := hlow 'M' (by decide)
  have hK := hlow 'K' (by decide)
  have hb := hlow 'b' (by decide)
  have eT : Char.toLower 'T' = 't' := by decide
  have eG : Char.toLower 'G' = 'g' := by decide
  have eM : Char.toLower 'M' = 'm' := by decide
  have eK : Char.toLower 'K' = 'k' := by decide
  have eb : Char.toLower 'b' = 'b' := by decide
  rw [eT] at hT
  rw [eG] at hG
  rw [eM] at hM
  rw [eK] at hK
  rw [eb] at hb
  refine ⟨?_, ?_, ?_, ?_, ?_⟩
  · show String.mk [unicodeToLower 'T', unicodeToLower 'b'] = _
    rw [hT, hb]
  · show String.mk [unicodeToLower 'G', unicodeToLower 'b'] = _
    rw [hG, hb]
  · show String.mk [unicodeToLower 'M', unicodeToLower 'b'] = _
    rw [hM, hb]
  · show String.mk [unicodeToLower 'K', unicodeToLower 'b'] = _
    rw [hK, hb]
  · show String.mk [unicodeToLower 'b'] = _
    rw [hb]

/-- The loop over the suffixes finds the suffix behind a text that ends in a digit. -/
theorem ParseByteSize.unit_spec (unicodeToLower : Char → Char)
    (hlow : ∀ c : Char, c.toNat < 128 → unicodeToLower c = Char.toLower c)
    (X0 : List Char) (d : Char) (hd : IsDecimalDigit d) :
    ParseByteSize.unit unicodeToLower (String.mk ((X0 ++ [d]) ++ ['t', 'b']))
        (sizeUnits.zip sizeSuffixes) = (String.mk (X0 ++ [d]), sizeTb)
      ∧ ParseByteSize.unit unicodeToLower (String.mk ((X0 ++ [d]) ++ ['g', 'b']))
        (sizeUnits.zip sizeSuffixes) = (String.mk (X0 ++ [d]), sizeGb)
      ∧ ParseByteSize.unit unicodeToLower (String.mk ((X0 ++ [d]) ++ ['m', 'b']))
        (sizeUnits.zip sizeSuffixes) = (String.mk (X0 ++ [d]), sizeMb)
      ∧ ParseByteSize.unit unicodeToLower (String.mk ((X0 ++ [d]) ++ ['k', 'b']))
        (sizeUnits.zip sizeSuffixes) = (String.mk (X0 ++ [d]), sizeKb)
      ∧ ParseByteSize.unit unicodeToLower (String.mk ((X0 ++ [d]) ++ ['b']))
        (sizeUnits.zip sizeSuffixes) = (String.mk (X0 ++ [d]), sizeB) := by
  obtain ⟨lT, lG, lM, lK, lB⟩ := sizeSuffixes_lower unicodeToLower hlow
  obtain ⟨-, -, -, -, -, ht, hg, hm, hk, -, -⟩ := IsDecimalDigit.facts d hd
  have hzip : sizeUnits.zip sizeSuffixes
      = [(sizeTb, "Tb"), (sizeGb, "Gb"), (sizeMb, "Mb"), (sizeKb, "Kb"), (sizeB, "b")] := rfl
  have h2 : ∀ (c e a b : Char),
      stringsHasSuffix (String.mk ((X0 ++ [d]) ++ [c, e])) (String.mk [a, b])
        = (b == e && a == c) := fun c e a b => stringsHasSuffix_two (X0 ++ [d]) c e a b
  have h1 : ∀ (a b : Char),
      stringsHasSuffix (String.mk ((X0 ++ [d]) ++ ['b'])) (String.mk [a, b])
        = (b == 'b' && a == d) := by
    intro a b
    have := stringsHasSuffix_two X0 d 'b' a b
    simpa using this
  have h0 : stringsHasSuffix (String.mk ((X0 ++ [d]) ++ ['b'])) (String.mk ['b']) = true := by
    rw [stringsHasSuffix_one]; decide
  have hlenT : "Tb".data.length = 2 := rfl
  have hlenG : "Gb".data.length = 2 := rfl
  have hlenM : "Mb".data.length = 2 := rfl
  have hlenK : "Kb".data.length = 2 := rfl
  have hlenB : "b".data.length = 1 := rfl
  have htake2 : ∀ (c e : Char), List.take (((X0 ++ [d]) ++ [c, e]).length - 2)
      ((X0 ++ [d]) ++ [c, e]) = X0 ++ [d] := by
    intro c e
    have : ((X0 ++ [d]) ++ [c, e]).length - 2 = (X0 ++ [d]).length := by simp
    rw [this, List.take_left]
  have htake1 : List.take (((X0 ++ [d]) ++ ['b']).length - 1)
      ((X0 ++ [d]) ++ ['b']) = X0 ++ [d] := by
    have : ((X0 ++ [d]) ++ ['b']).length - 1 = (X0 ++ [d]).length := by simp
    rw [this, List.take_left]
  have ht2 : ('t' == d) = false := by simpa using Ne.symm ht
  have hg2 : ('g' == d) = false := by simpa using Ne.symm hg
  have hm2 : ('m' == d) = false := by simpa using Ne.symm hm
  have hk2 : ('k' == d) = false := by simpa using Ne.symm hk
  refine ⟨?_, ?_, ?_, ?_, ?_⟩
  · simp only [hzip, ParseByteSize.unit, lT, h2, hlenT, htake2]
    rw [if_pos (by decide)]
  · simp only [hzip, ParseByteSize.unit, lT, lG, h2, hlenG, htake2]
    rw [if_neg (by decide), if_pos (by decide)]
  · simp only [hzip, ParseByteSize.unit, lT, lG, lM, h2, hlenM, htake2]
    rw [if_neg (by decide), if_neg (by decide), if_pos (by decide)]
  · simp only [hzip, ParseByteSize.unit, lT, lG, lM, lK, h2, hlenK, htake2]
    rw [if_neg (by decide), if_neg (by decide), if_neg (by decide), if_pos (by decide)]
  · simp only [hzip, ParseByteSize.unit, lT, lG, lM, lK, lB, h1, h0, hlenB, htake1, ht2, hg2,
      hm2, hk2]
    rw [if_neg (by decide), if_neg (by decide), if_neg (by decide), if_neg (by decide),
      if_pos trivial]


theorem stringsToLower_body (unicodeToLower : Char → Char) (W t : List Char) (s : String)
    (hfix : ∀ c ∈ W, unicodeToLower c = c)
    (hs : stringsToLower unicodeToLower s = String.mk t) :
    stringsToLower unicodeToLower (String.mk (W ++ s.data)) = String.mk (W ++ t) := by
  have h := congrArg String.data hs
  simp only [stringsToLower] at h
  simp only [stringsToLower, List.map_append, h, List.map_congr_left hfix, List.map_id']

/-- `ParseByteSize` on a text that ends in a digit and one of the suffixes: the suffix
sets the unit and what stands before it, without its commas, is read as the number. -/
theorem ParseByteSize_rendered (unicodeToLower : Char → Char)
    (parseFloat : String → Except GoError Float64) (unfit : Float64 → ByteSize)
    (hlow : ∀ c : Char, c.toNat < 128 → unicodeToLower c = Char.toLower c)
    (X0 : List Char) (d : Char) (hd : IsDecimalDigit d)
    (hfix : ∀ c ∈ X0 ++ [d], unicodeToLower c = c)
    (u : ByteSize) (suffix : String) (hmem : (u, suffix) ∈ sizeUnits.zip sizeSuffixes) :
    ParseByteSize unicodeToLower parseFloat unfit (String.mk ((X0 ++ [d]) ++ suffix.data))
      = match strconvParseInt (stringsRemoveAll (String.mk (X0 ++ [d])) ',') with
        | Except.ok n => Except.ok (wrapInt64 (n * u))
        | Except.error NumError.ErrRange => Except.error NumError.ErrRange.toError
        | Except.error NumError.ErrSyntax =>
          match parseFloat (stringsRemoveAll (String.mk (X0 ++ [d])) ',') with
          | Except.error err => Except.error err
          | Except.ok fl => Except.ok (ParseByteSize.scale unfit fl u) := by
  obtain ⟨lT, lG, lM, lK, lB⟩ := sizeSuffixes_lower unicodeToLower hlow
  obtain ⟨uT, uG, uM, uK, uB⟩ := ParseByteSize.unit_spec unicodeToLower hlow X0 d hd
  have hzip : sizeUnits.zip sizeSuffixes
      = [(sizeTb, "Tb"), (sizeGb, "Gb"), (sizeMb, "Mb"), (sizeKb, "Kb"), (sizeB, "b")] := rfl
  rw [hzip] at hmem
  simp only [List.mem_cons, Prod.mk.injEq, List.mem_singleton, List.not_mem_nil,
    or_false] at hmem
  rcases hmem with ⟨rfl, rfl⟩ | ⟨rfl, rfl⟩ | ⟨rfl, rfl⟩ | ⟨rfl, rfl⟩ | ⟨rfl, rfl⟩
  · simp only [ParseByteSize, stringsToLower_body unicodeToLower _ _ "Tb" hfix lT, uT]
  · simp only [ParseByteSize, stringsToLower_body unicodeToLower _ _ "Gb" hfix lG, uG]
  · simp only [ParseByteSize, stringsToLower_body unicodeToLower _ _ "Mb" hfix lM, uM]
  · simp only [ParseByteSize, stringsToLower_body unicodeToLower _ _ "Kb" hfix lK, uK]
  · simp only [ParseByteSize, stringsToLower_body unicodeToLower _ _ "b" hfix lB, uB]


theorem lower_fixed_of_digit_or (unicodeToLower : Char → Char)
    (hlow : ∀ c : Char, c.toNat < 128 → unicodeToLower c = Char.toLower c) (c : Char)
    (h : IsDecimalDigit c ∨ c = ',' ∨ c = '.') : unicodeToLower c = c := by
  rcases h with h | h | h
  · obtain ⟨-, -, -, -, -, -, -, -, -, h1, h2⟩ := IsDecimalDigit.facts c h
    rw [hlow c h1, h2]
  · subst h
    rw [hlow ',' (by decide)]
    decide
  · subst h
    rw [hlow '.' (by decide)]
    decide

/-- The round trip of a rendering without a fraction: the number times the unit. -/
theorem ParseByteSize_integer (unicodeToLower : Char → Char)
    (parseFloat : String → Except GoError Float64) (unfit : Float64 → ByteSize)
    (hlow : ∀ c : Char, c.toNat < 128 → unicodeToLower c = Char.toLower c)
    (w : Nat) (hw : w < 2 ^ 63)
    (u : ByteSize) (suffix : String) (hmem : (u, suffix) ∈ sizeUnits.zip sizeSuffixes) :
    ParseByteSize unicodeToLower parseFloat unfit (withCommas (Nat.repr w) ++ suffix)
      = Except.ok (wrapInt64 ((w : Int) * u)) := by
  obtain ⟨X0, d, hX, hd, hall, hfilter⟩ := withCommas_repr w
  have hfix : ∀ c ∈ X0 ++ [d], unicodeToLower c = c := by
    intro c hc
    rcases hall c hc with h | h
    · exact lower_fixed_of_digit_or unicodeToLower hlow c (Or.inl h)
    · exact lower_fixed_of_digit_or unicodeToLower hlow c (Or.inr (Or.inl h))
  have happ : withCommas (Nat.repr w) ++ suffix = String.mk ((X0 ++ [d]) ++ suffix.data) := by
    rw [hX]; rfl
  have hrem : stringsRemoveAll (String.mk (X0 ++ [d])) ',' = String.mk (Nat.repr w).data := by
    simp only [stringsRemoveAll, hfilter]
  rw [happ, ParseByteSize_rendered unicodeToLower parseFloat unfit hlow X0 d hd hfix u suffix
    hmem, hrem, strconvParseInt_repr w hw]

theorem strconvParseUint.scan_syntax (digits : List Char) (acc : Nat) (c : Char)
    (rest : List Char) (hd : ∀ c ∈ digits, IsDecimalDigit c)
    (hv : digitsValue acc digits < 2 ^ 64) (hc : isDigit c = false) :
    strconvParseUint.scan acc (digits ++ c :: rest) = Except.error NumError.ErrSyntax := by
  induction digits generalizing acc with
  | nil => simp [strconvParseUint.scan, hc]
  | cons a cs ih =>
    have ha := (IsDecimalDigit.facts a (hd a (List.mem_cons_self _ _))).1
    have hv2 : digitsValue (acc * 10 + (a.toNat - 48)) cs < 2 ^ 64 := by
      simpa [digitsValue] using hv
    have hge := digitsValue_ge cs (acc * 10 + (a.toNat - 48))
    have h1 : ¬ acc ≥ (2 ^ 64 - 1) / 10 + 1 := by omega
    have h2 : ¬ acc * 10 + (a.toNat - 48) ≥ 2 ^ 64 := by omega
    have := ih (acc * 10 + (a.toNat - 48))
      (fun c hc => hd c (List.mem_cons_of_mem _ hc)) hv2
    simp only [List.cons_append, strconvParseUint.scan, ha, if_neg h1, if_neg h2]
    simpa using this

/-- `strconv.ParseInt` rejects a rendering with a fraction as a syntax error. -/
theorem strconvParseInt_fraction (q : Nat) (hq : q < 2 ^ 63) (rest : List Char) :
    strconvParseInt (String.mk ((Nat.repr q).data ++ '.' :: rest))
      = Except.error NumError.ErrSyntax := by
  obtain ⟨front, hf⟩ := repr_last q
  have hd := repr_digits q
  have hs := strconvParseUint.scan_syntax (Nat.repr q).data 0 '.' rest hd
    (by rw [digitsValue_repr]; omega) (by decide)
  cases hrepr : (Nat.repr q).data with
  | nil => rw [hrepr] at hf; simp at hf
  | cons c cs =>
    rw [hrepr] at hs hd
    have hc := IsDecimalDigit.facts c (hd c (List.mem_cons_self _ _))
    simp only [List.cons_append] at hs
    simp [strconvParseInt, strconvParseInt.signed, strconvParseUint, hc.2.2.2.1,
      hc.2.2.2.2.1, hs]

/-- The round trip of a rendering with a fraction goes to the float path. -/
theorem ParseByteSize_fraction (unicodeToLower : Char → Char)
    (parseFloat : String → Except GoError Float64) (unfit : Float64 → ByteSize)
    (hlow : ∀ c : Char, c.toNat < 128 → unicodeToLower c = Char.toLower c)
    (q r : Nat) (hq : q < 2 ^ 63) (hr : r < 10)
    (u : ByteSize) (suffix : String) (hmem : (u, suffix) ∈ sizeUnits.zip sizeSuffixes) :
    ParseByteSize unicodeToLower parseFloat unfit
        (withCommas (Nat.repr q) ++ "." ++ String.mk [Nat.digitChar r] ++ suffix)
      = match parseFloat (String.mk ((Nat.repr q).data ++ ['.', Nat.digitChar r])) with
        | Except.error err => Except.error err
        | Except.ok fl => Except.ok (ParseByteSize.scale unfit fl u) := by
  obtain ⟨X0, d, hX, hd, hall, hfilter⟩ := withCommas_repr q
  have hr2 : IsDecimalDigit (Nat.digitChar r) := ⟨r, hr, rfl⟩
  have hfix : ∀ c ∈ (X0 ++ [d] ++ ['.']) ++ [Nat.digitChar r], unicodeToLower c = c := by
    intro c hc
    simp only [List.mem_append, List.mem_singleton] at hc
    apply lower_fixed_of_digit_or unicodeToLower hlow c
    rcases hc with ((hc | hc) | hc) | hc
    · rcases hall c (List.mem_append.mpr (Or.inl hc)) with h | h
      · exact Or.inl h
      · exact Or.inr (Or.inl h)
    · subst hc; exact Or.inl hd
    · exact Or.inr (Or.inr hc)
    · subst hc; exact Or.inl hr2
  have happ : withCommas (Nat.repr q) ++ "." ++ String.mk [Nat.digitChar r] ++ suffix
      = String.mk (((X0 ++ [d] ++ ['.']) ++ [Nat.digitChar r]) ++ suffix.data) := by
    rw [hX]
    apply String.ext
    simp [String.data_append]
  have hcomma : ((Nat.digitChar r) != ',') = true := by
    have := (IsDecimalDigit.facts _ hr2).2.1
    simpa using this
  have hrem : stringsRemoveAll (String.mk ((X0 ++ [d] ++ ['.']) ++ [Nat.digitChar r])) ','
      = String.mk ((Nat.repr q).data ++ ['.', Nat.digitChar r]) := by
    have hdot : (('.' : Char) != ',') = true := by decide
    have hsplit : X0 ++ [d] ++ ['.'] ++ [Nat.digitChar r]
        = (X0 ++ [d]) ++ ['.', Nat.digitChar r] := by simp
    have htail : List.filter (fun c => c != ',') ['.', Nat.digitChar r]
        = ['.', Nat.digitChar r] := by
      simp only [List.filter_cons, hdot, hcomma, if_true, List.filter_nil]
    simp only [stringsRemoveAll]
    rw [hsplit, List.filter_append, hfilter, htail]
  rw [happ, ParseByteSize_rendered unicodeToLower parseFloat unfit hlow (X0 ++ [d] ++ ['.'])
    (Nat.digitChar r) hr2 hfix u suffix hmem, hrem, strconvParseInt_fraction q hq]


/-! ### What `ByteSize.String` renders -/

theorem digitChar_eq_zero (r : Nat) (hr : r < 10) : Nat.digitChar r = '0' ↔ r = 0 := by
  interval_cases r <;> decide

theorem repr_ne_nil (n : Nat) : (Nat.repr n).data ≠ [] := by
  obtain ⟨front, hf⟩ := repr_last n
  rw [hf]
  simp

/-- The switch of `ByteSize.String` on the digits of a rounded value of 10 or more. -/
theorem render_of_digits (m : Nat) (hm : 10 ≤ m) (suffix : String) :
    (if (strconvFormatUint m).data.length < 2 then NotAvailable
      else if (strconvFormatUint m).data.getLast? = some '0' then
        withCommas (String.mk ((strconvFormatUint m).data.take
          ((strconvFormatUint m).data.length - 1))) ++ suffix
      else
        withCommas (String.mk ((strconvFormatUint m).data.take
          ((strconvFormatUint m).data.length - 1))) ++ "."
          ++ String.mk ((strconvFormatUint m).data.drop
            ((strconvFormatUint m).data.length - 1)) ++ suffix)
      = if m % 10 = 0 then withCommas (Nat.repr (m / 10)) ++ suffix
        else withCommas (Nat.repr (m / 10)) ++ "." ++ String.mk [Nat.digitChar (m % 10)]
          ++ suffix := by
  have hdata : (strconvFormatUint m).data
      = (Nat.repr (m / 10)).data ++ [Nat.digitChar (m % 10)] := repr_ge_ten m hm
  have hne := repr_ne_nil (m / 10)
  have hpos : 0 < (Nat.repr (m / 10)).data.length := List.length_pos.mpr hne
  have hlen : (strconvFormatUint m).data.length = (Nat.repr (m / 10)).data.length + 1 := by
    rw [hdata]; simp
  have hl : ¬ (strconvFormatUint m).data.length < 2 := by omega
  have hsub : (strconvFormatUint m).data.length - 1 = (Nat.repr (m / 10)).data.length := by
    omega
  have hlast : (strconvFormatUint m).data.getLast? = some (Nat.digitChar (m % 10)) := by
    rw [hdata]; exact List.getLast?_concat _
  have htake : (strconvFormatUint m).data.take ((strconvFormatUint m).data.length - 1)
      = (Nat.repr (m / 10)).data := by
    rw [hsub, hdata, List.take_left]
  have hdrop : (strconvFormatUint m).data.drop ((strconvFormatUint m).data.length - 1)
      = [Nat.digitChar (m % 10)] := by
    rw [hsub, hdata, List.drop_left]
  have hz : (some (Nat.digitChar (m % 10)) = some '0') ↔ m % 10 = 0 := by
    rw [Option.some.injEq]
    exact digitChar_eq_zero _ (Nat.mod_lt _ (by omega))
  rw [if_neg hl, hlast, htake, hdrop]
  by_cases h0 : m % 10 = 0
  · rw [if_pos (hz.mpr h0), if_pos h0]
  · rw [if_neg (fun h => h0 (hz.mp h)), if_neg h0]

theorem render_skip (size : ByteSize) (front rest : List (ByteSize × String))
    (h : ∀ p ∈ front, size < p.1) :
    ByteSize.String.render size (front ++ rest) = ByteSize.String.render size rest := by
  induction front with
  | nil => rfl
  | cons p ps ih =>
    obtain ⟨u, suffix⟩ := p
    have hu : size < u := h (u, suffix) (List.mem_cons_self _ _)
    simp only [List.cons_append, ByteSize.String.render, if_pos hu]
    exact ih (fun p hp => h p (List.mem_cons_of_mem _ hp))

/-- The rendering of a size below 1024: its digits, with commas, and `b`. -/
theorem byteSize_small (n : Int) (h0 : 0 < n) (h1 : n < 1024) :
    ByteSize.String n = withCommas (Nat.repr n.toNat) ++ "b" := by
  have hne : n ≠ 0 := by omega
  have hzip : sizeUnits.zip sizeSuffixes
      = [(sizeTb, "Tb"), (sizeGb, "Gb"), (sizeMb, "Mb"), (sizeKb, "Kb")] ++ [(sizeB, "b")] := rfl
  have hT : sizeTb = 1099511627776 := by decide
  have hG : sizeGb = 1073741824 := by decide
  have hM : sizeMb = 1048576 := by decide
  have hK : sizeKb = 1024 := by decide
  have hB : sizeB = 1 := by decide
  have hskip : ∀ p ∈ [(sizeTb, "Tb"), (sizeGb, "Gb"), (sizeMb, "Mb"), (sizeKb, "Kb")],
      n < p.1 := by
    intro p hp
    simp only [List.mem_cons, List.mem_singleton, List.not_mem_nil, or_false] at hp
    rcases hp with rfl | rfl | rfl | rfl
    · show n < sizeTb
      rw [hT]; omega
    · show n < sizeGb
      rw [hG]; omega
    · show n < sizeMb
      rw [hM]; omega
    · show n < sizeKb
      rw [hK]; omega
  have hlt : ¬ n < sizeB := by rw [hB]; omega
  have hu : ByteSize.ToUint64 n = n.toNat := by
    simp only [ByteSize.ToUint64]
    rw [if_neg (show ¬ n < 0 by omega)]
  simp only [ByteSize.String, if_neg hne]
  rw [hzip, render_skip n _ _ hskip]
  simp only [ByteSize.String.render, if_neg hlt, if_true, hu, strconvFormatUint]

/-- The rendering of a size of one unit or more, where the rounding stays inside
`int64`: the rounded tenths of the unit, with the last digit as the fraction unless it
is 0. -/
theorem byteSize_unit (n u : Int) (suffix : String)
    (front rest : List (ByteSize × String))
    (hzip : sizeUnits.zip sizeSuffixes = front ++ (u, suffix) :: rest)
    (hskip : ∀ p ∈ front, n < p.1) (hu : 1024 ≤ u) (hun : u ≤ n)
    (hn : n * 10 + u / 2 < 2 ^ 63) :
    ByteSize.String n
      = if ((n * 10 + u / 2) / u).toNat % 10 = 0 then
          withCommas (Nat.repr (((n * 10 + u / 2) / u).toNat / 10)) ++ suffix
        else
          withCommas (Nat.repr (((n * 10 + u / 2) / u).toNat / 10)) ++ "."
            ++ String.mk [Nat.digitChar (((n * 10 + u / 2) / u).toNat % 10)] ++ suffix := by
  have hne : n ≠ 0 := by omega
  have hlt : ¬ n < u := by omega
  have hB : ¬ u = sizeB := by
    have : sizeB = 1 := by decide
    rw [this]; omega
  have hmax : Int.tdiv MaxInt64 10 = 922337203685477580 := by decide
  have hgt : ¬ n > Int.tdiv MaxInt64 10 := by rw [hmax]; omega
  have hhalf : Int.tdiv u 2 = u / 2 := Int.tdiv_eq_ediv (by omega) (by omega)
  have hw1 : wrapInt64 (n * 10) = n * 10 := wrapInt64_of_range _ (by omega) (by omega)
  have hw2 : wrapInt64 (n * 10 + u / 2) = n * 10 + u / 2 :=
    wrapInt64_of_range _ (by omega) hn
  have hdiv : Int.tdiv (n * 10 + u / 2) u = (n * 10 + u / 2) / u :=
    Int.tdiv_eq_ediv (by omega) (by omega)
  have hv : 10 ≤ (n * 10 + u / 2) / u :=
    Int.le_ediv_of_mul_le (by omega) (by omega)
  have hto : ByteSize.ToUint64 ((n * 10 + u / 2) / u) = ((n * 10 + u / 2) / u).toNat := by
    simp only [ByteSize.ToUint64]
    rw [if_neg (show ¬ (n * 10 + u / 2) / u < 0 by omega)]
  have hm : 10 ≤ ((n * 10 + u / 2) / u).toNat := by omega
  simp only [ByteSize.String, if_neg hne]
  rw [hzip, render_skip n _ _ hskip]
  simp only [ByteSize.String.render, if_neg hlt, if_neg hB, if_neg hgt, hw1, hhalf, hw2, hdiv,
    hto]
  exact render_of_digits _ hm suffix

/-- The rendering of a size whose rounding leaves `int64`, or that is above
`MaxInt64/10`. -/
theorem byteSize_unavailable (n : Int) (h0 : 922337148709896192 ≤ n)
    (h1 : n < 2 ^ 63) : ByteSize.String n = NotAvailable := by
  have hmax : Int.tdiv MaxInt64 10 = 922337203685477580 := by decide
  have hhalf : Int.tdiv sizeTb 2 = 549755813888 := by decide
  have hTb : sizeTb = 1099511627776 := by decide
  have hne : n ≠ 0 := by omega
  have hlt : ¬ n < sizeTb := by rw [hTb]; omega
  have hB : ¬ sizeTb = sizeB := by decide
  by_cases hgt : n > Int.tdiv MaxInt64 10
  · simp only [ByteSize.String, if_neg hne, sizeUnits, sizeSuffixes, List.zip_cons_cons,
      ByteSize.String.render, if_neg hlt, if_neg hB, if_pos hgt]
  · rw [hmax] at hgt
    have hw1 : wrapInt64 (n * 10) = n * 10 := wrapInt64_of_range _ (by omega) (by omega)
    have hw2 : wrapInt64 (n * 10 + 549755813888) = n * 10 + 549755813888 - 2 ^ 64 :=
      wrapInt64_of_high _ (by omega) (by omega)
    have hneg : wrapInt64 (n * 10 + 549755813888) < 0 := by rw [hw2]; omega
    have hz : ByteSize.ToUint64 (Int.tdiv (wrapInt64 (n * 10 + 549755813888)) sizeTb) = 0 :=
      ByteSize.ToUint64_tdiv_neg _ _ hneg (by decide)
    have hgt2 : ¬ n > Int.tdiv MaxInt64 10 := by rw [hmax]; omega
    simp only [ByteSize.String, if_neg hne, sizeUnits, sizeSuffixes, List.zip_cons_cons,
      ByteSize.String.render, if_neg hlt, if_neg hB, if_neg hgt2, hw1, hhalf, hz]
    decide


/-! ### The round trip of a byte size -/

/-- `ParseByteSize` fails on `n/a` with the error of `strconv.ParseFloat`. -/
theorem ParseByteSize_unavailable (unicodeToLower : Char → Char)
    (parseFloat : String → Except GoError Float64) (unfit : Float64 → ByteSize)
    (hlow : ∀ c : Char, c.toNat < 128 → unicodeToLower c = Char.toLower c)
    (err : GoError) (hna : parseFloat "n/a" = Except.error err) :
    ParseByteSize unicodeToLower parseFloat unfit NotAvailable = Except.error err := by
  obtain ⟨lT, lG, lM, lK, lB⟩ := sizeSuffixes_lower unicodeToLower hlow
  have hzip : sizeUnits.zip sizeSuffixes
      = [(sizeTb, "Tb"), (sizeGb, "Gb"), (sizeMb, "Mb"), (sizeKb, "Kb"), (sizeB, "b")] := rfl
  have hl : stringsToLower unicodeToLower NotAvailable = "n/a" := by
    have h := stringsToLower_fixed unicodeToLower ['n', '/', 'a'] (by
      intro c hc
      simp only [List.mem_cons, List.mem_singleton, List.not_mem_nil, or_false] at hc
      rcases hc with rfl | rfl | rfl
      · rw [hlow 'n' (by decide)]; decide
      · rw [hlow '/' (by decide)]; decide
      · rw [hlow 'a' (by decide)]; decide)
    exact h
  have s1 : stringsHasSuffix "n/a" (String.mk ['t', 'b']) = false := by decide
  have s2 : stringsHasSuffix "n/a" (String.mk ['g', 'b']) = false := by decide
  have s3 : stringsHasSuffix "n/a" (String.mk ['m', 'b']) = false := by decide
  have s4 : stringsHasSuffix "n/a" (String.mk ['k', 'b']) = false := by decide
  have s5 : stringsHasSuffix "n/a" (String.mk ['b']) = false := by decide
  have hrem : stringsRemoveAll "n/a" ',' = "n/a" := by decide
  have hint : strconvParseInt "n/a" = Except.error NumError.ErrSyntax := by decide
  simp only [ParseByteSize, hl, hzip, ParseByteSize.unit, lT, lG, lM, lK, lB, s1, s2, s3, s4,
    s5, Bool.false_eq_true, if_false, hrem, hint, hna]

/-- `ParseByteSize` reads `0` as 0. -/
theorem ParseByteSize_zero (unicodeToLower : Char → Char)
    (parseFloat : String → Except GoError Float64) (unfit : Float64 → ByteSize)
    (hlow : ∀ c : Char, c.toNat < 128 → unicodeToLower c = Char.toLower c) :
    ParseByteSize unicodeToLower parseFloat unfit "0" = Except.ok 0 := by
  obtain ⟨lT, lG, lM, lK, lB⟩ := sizeSuffixes_lower unicodeToLower hlow
  have hzip : sizeUnits.zip sizeSuffixes
      = [(sizeTb, "Tb"), (sizeGb, "Gb"), (sizeMb, "Mb"), (sizeKb, "Kb"), (sizeB, "b")] := rfl
  have hl : stringsToLower unicodeToLower "0" = "0" := by
    have h := stringsToLower_fixed unicodeToLower ['0'] (by
      intro c hc
      simp only [List.mem_singleton] at hc
      subst hc
      rw [hlow '0' (by decide)]; decide)
    exact h
  have s1 : stringsHasSuffix "0" (String.mk ['t', 'b']) = false := by decide
  have s2 : stringsHasSuffix "0" (String.mk ['g', 'b']) = false := by decide
  have s3 : stringsHasSuffix "0" (String.mk ['m', 'b']) = false := by decide
  have s4 : stringsHasSuffix "0" (String.mk ['k', 'b']) = false := by decide
  have s5 : stringsHasSuffix "0" (String.mk ['b']) = false := by decide
  have hrem : stringsRemoveAll "0" ',' = "0" := by decide
  have hint : strconvParseInt "0" = Except.ok 0 := by decide
  simp only [ParseByteSize, hl, hzip, ParseByteSize.unit, lT, lG, lM, lK, lB, s1, s2, s3, s4,
    s5, Bool.false_eq_true, if_false, hrem, hint]
  decide

/-! ### The float path of `ParseByteSize` -/

theorem bitsLen.loop_zero (fuel : Nat) : bitsLen.loop fuel 0 = 0 := by
  cases fuel <;> simp [bitsLen.loop]

theorem bitsLen.loop_bits (b : Nat) : ∀ fuel n : Nat, 2 ^ b ≤ n → n < 2 ^ (b + 1) →
    b < fuel → bitsLen.loop fuel n = b + 1 := by
  induction b with
  | zero =>
    intro fuel n h1 h2 hf
    have hn : n = 1 := by
      simp only [Nat.pow_zero, Nat.zero_add, Nat.pow_one] at h1 h2
      omega
    subst hn
    cases fuel with
    | zero => omega
    | succ f => simp [bitsLen.loop, bitsLen.loop_zero]
  | succ b ih =>
    intro fuel n h1 h2 hf
    cases fuel with
    | zero => omega
    | succ f =>
      have hpos : 0 < 2 ^ b := Nat.two_pow_pos _
      have e1 : 2 ^ (b + 1) = 2 * 2 ^ b := by rw [Nat.pow_succ]; omega
      have e2 : 2 ^ (b + 1 + 1) = 2 * (2 * 2 ^ b) := by rw [Nat.pow_succ, e1]; omega
      rw [e1] at h1
      rw [e2] at h2
      have hn : n ≠ 0 := by omega
      rw [bitsLen.loop, if_neg hn, ih f (n / 2) (by omega) (by rw [e1]; omega) (by omega)]

/-- The number of bits of a number between `2^b` and `2^(b+1)`. -/
theorem bitsLen_spec (b n : Nat) (h1 : 2 ^ b ≤ n) (h2 : n < 2 ^ (b + 1)) :
    bitsLen n = b + 1 :=
  bitsLen.loop_bits b n n h1 h2 (Nat.lt_of_lt_of_le (Nat.lt_two_pow b) h1)

/-- Rounding leaves a product with `2^52` that fits the format as it is. -/
theorem Float64.round_shift (neg : Bool) (m : Nat) (exp : Int) (h1 : 2 ^ 52 ≤ m)
    (h2 : m < 2 ^ 53) (h3 : -1074 ≤ exp + 52) (h4 : exp + 52 ≤ 971) :
    Float64.round neg (m * 2 ^ 52) exp = Float64.finite neg m (exp + 52) := by
  have hb : bitsLen (m * 2 ^ 52) = 104 + 1 := bitsLen_spec 104 _ (by omega) (by omega)
  have hm0 : m * 2 ^ 52 ≠ 0 := by omega
  have he : max (exp + ((104 + 1 : Nat) : Int) - 53) (-1074) = exp + 52 := by
    rw [max_eq_left (by omega)]
    omega
  have hs : (exp + 52 - exp).toNat = 52 := by omega
  have hq : m * 2 ^ 52 / 2 ^ 52 = m := Nat.mul_div_cancel m (by decide)
  have hr : m * 2 ^ 52 % 2 ^ 52 = 0 := Nat.mul_mod_left m (2 ^ 52)
  have hc1 : ¬ exp + 52 ≤ exp := by omega
  have hc2 : ¬ (2 * 0 > 2 ^ 52 ∨ (2 * 0 = 2 ^ 52 ∧ m % 2 = 1)) := by omega
  have hc3 : ¬ m = 0 := by omega
  have hc4 : ¬ m = 2 ^ 53 := by omega
  have hc5 : ¬ exp + 52 > 971 := by omega
  simp only [Float64.round, if_neg hm0, hb, he, hs, hq, hr, if_neg hc1, if_neg hc2,
    if_neg hc3, if_neg hc4, if_neg hc5]

/-- The integer of a positive `float64` with the fraction dropped. -/
theorem Float64.toInt64_finite (m j k : Nat) (h : m * 2 ^ j / 2 ^ k < 2 ^ 63) :
    (Float64.finite false m (-(k : Int) + (j : Int))).toInt64
      = some ((m * 2 ^ j / 2 ^ k : Nat) : Int) := by
  have hval : (if 0 ≤ (-(k : Int) + (j : Int)) then m * 2 ^ (-(k : Int) + (j : Int)).toNat
      else m / 2 ^ (-(-(k : Int) + (j : Int))).toNat) = m * 2 ^ j / 2 ^ k := by
    by_cases hc : k ≤ j
    · rw [if_pos (by omega)]
      have e : (-(k : Int) + (j : Int)).toNat = j - k := by omega
      have hj : 2 ^ j = 2 ^ (j - k) * 2 ^ k := by
        rw [← Nat.pow_add]
        congr 1
        omega
      rw [e, hj, ← Nat.mul_assoc, Nat.mul_div_cancel _ (Nat.two_pow_pos _)]
    · rw [if_neg (by omega)]
      have e : (-(-(k : Int) + (j : Int))).toNat = k - j := by omega
      have hk : 2 ^ k = 2 ^ (k - j) * 2 ^ j := by
        rw [← Nat.pow_add]
        congr 1
        omega
      rw [e, hk, Nat.mul_div_mul_right _ _ (Nat.two_pow_pos _)]
  simp only [Float64.toInt64, hval, Bool.false_eq_true, if_false]
  rw [if_pos]
  constructor
  · have : (0 : Int) ≤ ((m * 2 ^ j / 2 ^ k : Nat) : Int) := Int.ofNat_nonneg _
    omega
  · exact_mod_cast h

/-- The conversion `ByteSize(fl * float64(u))` for a normal `fl = m * 2^(-k)` and a unit
`u = 2^j`: the product is exact, and the integer is what is left of it without its
fraction. -/
theorem ParseByteSize.scale_unit (unfit : Float64 → ByteSize) (m k j : Nat) (u : Int)
    (hu : Float64.ofInt u = Float64.finite false (2 ^ 52) ((j : Int) - 52))
    (h1 : 2 ^ 52 ≤ m) (h2 : m < 2 ^ 53) (hk : k ≤ 1074 + j) (hj : j ≤ 971 + k)
    (hfit : m * 2 ^ j / 2 ^ k < 2 ^ 63) :
    ParseByteSize.scale unfit (Float64.finite false m (-(k : Int))) u
      = ((m * 2 ^ j / 2 ^ k : Nat) : Int) := by
  have hmul : Float64.mul (Float64.finite false m (-(k : Int))) (Float64.ofInt u)
      = Float64.finite false m (-(k : Int) + (j : Int)) := by
    rw [hu]
    have h := Float64.round_shift false m (-(k : Int) + ((j : Int) - 52)) h1 h2 (by omega)
      (by omega)
    have e : -(k : Int) + ((j : Int) - 52) + 52 = -(k : Int) + (j : Int) := by omega
    rw [e] at h
    simpa [Float64.mul] using h
  simp only [ParseByteSize.scale, hmul, Float64.toInt64_finite m j k hfit]

/-- How far the float path lands from the size: the float `m * 2^(-k)` is within
half a unit of its last place of the tenths `v / 10`, the tenths are within a twentieth
of the unit `u` of `n`, and the product loses its fraction. -/
theorem ParseByteSize.scale_error (n u v : Int) (m k j : Nat)
    (hj : u = ((2 ^ j : Nat) : Int)) (heven : 2 * (u / 2) = u) (hu : 1024 ≤ u) (hun : u ≤ n)
    (hv : 0 ≤ v) (hP1 : v * u ≤ n * 10 + u / 2) (hP2 : n * 10 + u / 2 < v * u + u)
    (hm : 2 ^ 52 ≤ m) (f1 : 10 * m ≤ v.toNat * 2 ^ k + 5)
    (f2 : v.toNat * 2 ^ k ≤ 10 * m + 5) :
    (((m * 2 ^ j / 2 ^ k : Nat) : Int) - n) * 20 * 2 ^ 52 ≤ u * 2 ^ 52 + n * 20
      ∧ (n - ((m * 2 ^ j / 2 ^ k : Nat) : Int)) * 20 * 2 ^ 52
          ≤ (u + 20) * 2 ^ 52 + n * 20 := by
  have hKn : 0 < 2 ^ k := Nat.two_pow_pos k
  have d1 : m * 2 ^ j / 2 ^ k * 2 ^ k ≤ m * 2 ^ j := Nat.div_mul_le_self _ _
  have d2 : m * 2 ^ j < m * 2 ^ j / 2 ^ k * 2 ^ k + 2 ^ k := by
    have h1 := Nat.div_add_mod (m * 2 ^ j) (2 ^ k)
    have h2 := Nat.mod_lt (m * 2 ^ j) hKn
    rw [Nat.mul_comm] at h1
    omega
  generalize m * 2 ^ j / 2 ^ k = R at d1 d2 ⊢
  have hvn : ((v.toNat : Nat) : Int) = v := Int.toNat_of_nonneg hv
  have d1z : (R : Int) * ((2 ^ k : Nat) : Int) ≤ (m : Int) * u := by
    rw [hj]
    exact_mod_cast d1
  have d2z : (m : Int) * u < (R : Int) * ((2 ^ k : Nat) : Int) + ((2 ^ k : Nat) : Int) := by
    rw [hj]
    exact_mod_cast d2
  have f1z : 10 * (m : Int) ≤ v * ((2 ^ k : Nat) : Int) + 5 := by
    rw [← hvn]
    exact_mod_cast f1
  have f2z : v * ((2 ^ k : Nat) : Int) ≤ 10 * (m : Int) + 5 := by
    rw [← hvn]
    exact_mod_cast f2
  have hmz : (2 : Int) ^ 52 ≤ (m : Int) := by exact_mod_cast hm
  have hK : (0 : Int) < ((2 ^ k : Nat) : Int) := by exact_mod_cast hKn
  generalize ((2 ^ k : Nat) : Int) = K at d1z d2z f1z f2z hK
  generalize (m : Int) = M at d1z d2z f1z f2z hmz
  generalize (R : Int) = r at d1z d2z ⊢
  have hu0 : (0 : Int) ≤ u := by omega
  have p1 := mul_le_mul_of_nonneg_right f1z hu0
  have p2 := mul_le_mul_of_nonneg_right f2z hu0
  have p3 := mul_le_mul_of_nonneg_right hP1 (le_of_lt hK)
  have p4 := mul_lt_mul_of_pos_right hP2 hK
  have p5 : (u / 2) * K * 2 = u * K := by
    have h := congrArg (fun x => x * K) heven
    simp only at h
    rw [← h]
    ring
  have g1 : 2 * (v * u) ≤ 21 * n := by linarith
  have p6 := mul_le_mul_of_nonneg_right g1 (le_of_lt hK)
  have g2 : (10 * 2 ^ 52 - 5 : Int) ≤ v * K := by linarith
  have p7 := mul_le_mul_of_nonneg_right g2 hu0
  have p8 : (2 : Int) ^ 52 * u ≤ 2 * (n * K) := by nlinarith
  constructor
  · apply Int.le_of_mul_le_mul_left _ hK
    nlinarith
  · apply Int.le_of_mul_le_mul_left _ hK
    nlinarith


/-- The round trip of a size rendered in the unit `u = 2^j`, where the rounding stays
inside `int64`: the text is within half a tenth of the unit, a text without a fraction is
read back exactly as written, and a text with a fraction, of which `strconv.ParseFloat`
returns a nearest float64, is read back within a twentieth of the unit, the fraction
dropped from the product, and the `2^-52` of the size that the float may be off. -/
theorem ParseByteSize_of_unit (unicodeToLower : Char → Char)
    (parseFloat : String → Except GoError Float64) (unfit : Float64 → ByteSize)
    (hlow : ∀ c : Char, c.toNat < 128 → unicodeToLower c = Char.toLower c)
    (n u v : Int) (suffix : String) (front rest : List (ByteSize × String))
    (hzip : sizeUnits.zip sizeSuffixes = front ++ (u, suffix) :: rest)
    (hskip : ∀ p ∈ front, n < p.1) (hu : 1024 ≤ u) (hun : u ≤ n)
    (hn : n * 10 + u / 2 < 2 ^ 63) (hv : v = (n * 10 + u / 2) / u)
    (j : Nat) (hj40 : j ≤ 40) (hj : u = ((2 ^ j : Nat) : Int)) (heven : 2 * (u / 2) = u)
    (hfu : Float64.ofInt u = Float64.finite false (2 ^ 52) ((j : Int) - 52))
    (hpf : v % 10 ≠ 0 →
      ∃ fl, parseFloat (String.mk ((Nat.repr (v / 10).toNat).data
          ++ ['.', Nat.digitChar (v % 10).toNat])) = Except.ok fl
        ∧ fl.IsNearestTenths v.toNat) :
    ((v * u - n * 10) * 2 ≤ u ∧ (n * 10 - v * u) * 2 ≤ u)
      ∧ (v % 10 = 0 →
          ParseByteSize unicodeToLower parseFloat unfit (ByteSize.String n)
              = Except.ok (v / 10 * u)
            ∧ (v / 10 * u - n) * 20 ≤ u ∧ (n - v / 10 * u) * 20 ≤ u)
      ∧ (v % 10 ≠ 0 →
          ∃ r : Int,
            ParseByteSize unicodeToLower parseFloat unfit (ByteSize.String n) = Except.ok r
              ∧ (r - n) * 20 * 2 ^ 52 ≤ u * 2 ^ 52 + n * 20
              ∧ (n - r) * 20 * 2 ^ 52 ≤ (u + 20) * 2 ^ 52 + n * 20) := by
  have hmem : (u, suffix) ∈ sizeUnits.zip sizeSuffixes := by
    rw [hzip]; simp
  have hS := byteSize_unit n u suffix front rest hzip hskip hu hun hn
  rw [← hv] at hS
  have hv10 : 10 ≤ v := by
    rw [hv]
    exact Int.le_ediv_of_mul_le (by omega) (by omega)
  have hP1 : v * u ≤ n * 10 + u / 2 := by
    rw [hv]
    exact Int.ediv_mul_le _ (by omega)
  have hP2 : n * 10 + u / 2 < v * u + u := by
    have h := Int.lt_ediv_add_one_mul_self (n * 10 + u / 2) (show 0 < u by omega)
    rw [← hv] at h
    have e : (v + 1) * u = v * u + u := by ring
    rw [e] at h
    exact h
  refine ⟨?_, ?_, ?_⟩
  · generalize v * u = P at hP1 hP2 ⊢
    constructor <;> omega
  · intro h0
    have hq : v = 10 * (v / 10) := by omega
    have hR : v * u = 10 * (v / 10 * u) := by
      have h := congrArg (fun x => x * u) hq
      simp only at h
      rw [h]
      ring
    have hRpos : 0 ≤ v / 10 * u := Int.mul_nonneg (by omega) (by omega)
    rw [hR] at hP1 hP2
    have hnat : v.toNat % 10 = 0 := by omega
    have hcast : ((v.toNat / 10 : Nat) : Int) = v / 10 := by omega
    rw [hS, if_pos hnat]
    have hlt : v / 10 * u < 2 ^ 63 := by
      generalize v / 10 * u = R at hP1 hP2 hRpos ⊢
      omega
    have hw : v.toNat / 10 < 2 ^ 63 := by
      have h1 : v / 10 ≤ v / 10 * u := by
        have := Int.mul_le_mul_of_nonneg_left (show (1 : Int) ≤ u by omega)
          (show (0 : Int) ≤ v / 10 by omega)
        simpa using this
      omega
    rw [ParseByteSize_integer unicodeToLower parseFloat unfit hlow (v.toNat / 10) hw u suffix
      hmem, hcast, wrapInt64_of_range _ (by omega) hlt]
    refine ⟨rfl, ?_, ?_⟩
    · generalize v / 10 * u = R at hP1 hP2 hRpos ⊢
      omega
    · generalize v / 10 * u = R at hP1 hP2 hRpos ⊢
      omega
  · intro h0
    have hnat : ¬ v.toNat % 10 = 0 := by omega
    have hq : v.toNat / 10 = (v / 10).toNat := by omega
    have hr : v.toNat % 10 = (v % 10).toNat := by omega
    have hlt : (v / 10).toNat < 2 ^ 63 := by
      have h1 : v ≤ v * u := by
        have := Int.mul_le_mul_of_nonneg_left (show (1 : Int) ≤ u by omega)
          (show (0 : Int) ≤ v by omega)
        simpa using this
      omega
    obtain ⟨fl, hfl, m, k, rfl, hm1, hm2, f1, f2⟩ := hpf h0
    have hk : k ≤ 53 := by
      by_contra hc
      have h1 : 2 ^ 54 ≤ 2 ^ k := Nat.pow_le_pow_right (by decide) (by omega)
      have h2 : 10 * 2 ^ 54 ≤ v.toNat * 2 ^ k := Nat.mul_le_mul (by omega) h1
      omega
    have herr := ParseByteSize.scale_error n u v m k j hj heven hu hun (by omega) hP1 hP2
      hm1 f1 f2
    have hfit : m * 2 ^ j / 2 ^ k < 2 ^ 63 := by
      have h1 := herr.1
      have h2 : ((m * 2 ^ j / 2 ^ k : Nat) : Int) < 2 ^ 63 := by omega
      exact_mod_cast h2
    refine ⟨_, ?_, herr⟩
    rw [hS, if_neg hnat, hq, hr,
      ParseByteSize_fraction unicodeToLower parseFloat unfit hlow (v / 10).toNat
        (v % 10).toNat hlt (by omega) u suffix hmem, hfl]
    simp only [ParseByteSize.scale_unit unfit m k j u hfu hm1 hm2 (by omega) (by omega) hfit]


set_option maxRecDepth 8192 in
/-- C23, as stated, fails in both of its halves. Success: `ByteSize.String` renders
`MaxInt64` as `n/a`, and `ParseByteSize` has no number to read in that text. Precision:
54975856266706944 is written `50,000.3Tb`; the float64 nearest to 50000.3 is
`6871988905286042 * 2^-37`, a little above it, and the round trip returns
54975911242288336, which is 54975581392 above the size: more than a twentieth of the
terabyte (54975581388.8) and two bytes. -/
theorem C23_counterexample :
    ByteSize.String MaxInt64 = "n/a"
      ∧ ParseByteSize Char.toLower sampleParseFloat sampleUnfit (ByteSize.String MaxInt64)
        = Except.error (GoError.External "invalid syntax")
      ∧ ByteSize.String 54975856266706944 = "50,000.3Tb"
      ∧ sampleParseFloat "50000.3"
        = Except.ok (Float64.finite false 6871988905286042 (-37))
      ∧ (10 * 6871988905286042 ≤ 500003 * 2 ^ 37 + 5
        ∧ 500003 * 2 ^ 37 ≤ 10 * 6871988905286042 + 5)
      ∧ ParseByteSize Char.toLower sampleParseFloat sampleUnfit
          (ByteSize.String 54975856266706944) = Except.ok 54975911242288336
      ∧ (54975911242288336 - 54975856266706944 : Int) * 20 > sizeTb + 2 * 20 := by
  decide

/-- C23, amended: for a lower-case table that lowers ASCII as Go does, a
`strconv.ParseFloat` that rejects `n/a` and returns a nearest float64 for the decimal
that `ByteSize.String` writes for `n`, the round trip `ParseByteSize(String(n))` recovers
every `n` below 1024 exactly. From 1024 up to 922337148709896191 the text is in the
largest unit `u` not above `n` and holds the tenths `v` of that unit nearest to `n` (off
by at most a twentieth of the unit); when `v` ends in 0 the round trip succeeds with
`(v/10)*u`, within `u/20` of `n`; otherwise it succeeds with an `r` that is at most
`u/20 + n/2^52` above `n` and at most `u/20 + 1 + n/2^52` below it. Above `MaxInt64/10`
the text is `n/a` and the round trip fails. -/
theorem C23_round_trip (unicodeToLower : Char → Char)
    (parseFloat : String → Except GoError Float64) (unfit : Float64 → ByteSize) (n : Int)
    (hlow : ∀ c : Char, c.toNat < 128 → unicodeToLower c = Char.toLower c)
    (hna : ∃ err, parseFloat "n/a" = Except.error err)
    (hpf : ∀ (u : Int) (suffix : String) (v : Int),
      (u, suffix) ∈ sizeUnits.zip sizeSuffixes → u ≤ n → v = (n * 10 + u / 2) / u →
      v % 10 ≠ 0 →
      ∃ fl, parseFloat (String.mk ((Nat.repr (v / 10).toNat).data
          ++ ['.', Nat.digitChar (v % 10).toNat])) = Except.ok fl
        ∧ fl.IsNearestTenths v.toNat) :
    (0 ≤ n → n < 1024 →
        ParseByteSize unicodeToLower parseFloat unfit (ByteSize.String n) = Except.ok n)
      ∧ (1024 ≤ n → n < 922337148709896192 →
        ∃ (u : Int) (suffix : String) (v : Int),
          (u, suffix) ∈ sizeUnits.zip sizeSuffixes ∧ u ≤ n
          ∧ (∀ (w : Int) (s : String), (w, s) ∈ sizeUnits.zip sizeSuffixes → w ≤ n → w ≤ u)
          ∧ v = (n * 10 + u / 2) / u
          ∧ ((v * u - n * 10) * 2 ≤ u ∧ (n * 10 - v * u) * 2 ≤ u)
          ∧ (v % 10 = 0 →
              ParseByteSize unicodeToLower parseFloat unfit (ByteSize.String n)
                  = Except.ok (v / 10 * u)
                ∧ (v / 10 * u - n) * 20 ≤ u ∧ (n - v / 10 * u) * 20 ≤ u)
          ∧ (v % 10 ≠ 0 →
              ∃ r : Int,
                ParseByteSize unicodeToLower parseFloat unfit (ByteSize.String n)
                    = Except.ok r
                  ∧ (r - n) * 20 * 2 ^ 52 ≤ u * 2 ^ 52 + n * 20
                  ∧ (n - r) * 20 * 2 ^ 52 ≤ (u + 20) * 2 ^ 52 + n * 20))
      ∧ (Int.tdiv MaxInt64 10 < n → n < 2 ^ 63 →
        ByteSize.String n = NotAvailable
          ∧ ∃ err, ParseByteSize unicodeToLower parseFloat unfit (ByteSize.String n)
              = Except.error err) := by
  have hT : @Eq Int sizeTb 1099511627776 := by decide
  have hG : @Eq Int sizeGb 1073741824 := by decide
  have hM : @Eq Int sizeMb 1048576 := by decide
  have hK : @Eq Int sizeKb 1024 := by decide
  have hB : @Eq Int sizeB 1 := by decide
  have hzip : sizeUnits.zip sizeSuffixes
      = [(sizeTb, "Tb"), (sizeGb, "Gb"), (sizeMb, "Mb"), (sizeKb, "Kb"), (sizeB, "b")] := rfl
  have hall : ∀ (u : Int),
      (∀ w : Int, w = 1099511627776 ∨ w = 1073741824 ∨ w = 1048576 ∨ w = 1024 ∨ w = 1 →
        w ≤ n → w ≤ u) →
      ∀ (w : Int) (s : String), (w, s) ∈ sizeUnits.zip sizeSuffixes → w ≤ n → w ≤ u := by
    intro u H w s hp
    rw [hzip] at hp
    simp only [List.mem_cons, List.mem_singleton, List.not_mem_nil, or_false,
      Prod.mk.injEq] at hp
    apply H
    rcases hp with ⟨h, -⟩ | ⟨h, -⟩ | ⟨h, -⟩ | ⟨h, -⟩ | ⟨h, -⟩
    · exact Or.inl (h.trans hT)
    · exact Or.inr (Or.inl (h.trans hG))
    · exact Or.inr (Or.inr (Or.inl (h.trans hM)))
    · exact Or.inr (Or.inr (Or.inr (Or.inl (h.trans hK))))
    · exact Or.inr (Or.inr (Or.inr (Or.inr (h.trans hB))))
  refine ⟨?_, ?_, ?_⟩
  · intro h0 h1
    by_cases hz : n = 0
    · subst hz
      have hs : ByteSize.String 0 = "0" := by decide
      rw [hs]
      exact ParseByteSize_zero unicodeToLower parseFloat unfit hlow
    · rw [byteSize_small n (by omega) h1,
        ParseByteSize_integer unicodeToLower parseFloat unfit hlow n.toNat (by omega) sizeB "b"
          (by rw [hzip]; simp),
        hB, wrapInt64_of_range _ (by omega) (by omega)]
      congr 1
      omega
  · intro h0 h1
    by_cases c1 : n < sizeMb
    · rw [hM] at c1
      have hmem : (sizeKb, "Kb") ∈ sizeUnits.zip sizeSuffixes := by rw [hzip]; simp
      have hle : @LE.le Int _ sizeKb n := by rw [hK]; omega
      refine ⟨sizeKb, "Kb", _, hmem, hle, ?_, rfl,
        ParseByteSize_of_unit unicodeToLower parseFloat unfit hlow n sizeKb _ "Kb"
          [(sizeTb, "Tb"), (sizeGb, "Gb"), (sizeMb, "Mb")] [(sizeB, "b")] rfl ?_
          (by omega) (by omega) (by omega) rfl 10 (by decide) (by decide) (by decide)
          (by decide) (hpf sizeKb "Kb" _ hmem hle rfl)⟩
      · exact hall sizeKb (fun w hw h => by omega)
      · intro p hp
        simp only [List.mem_cons, List.mem_singleton, List.not_mem_nil, or_false] at hp
        rcases hp with rfl | rfl | rfl
        · show n < sizeTb
          omega
        · show n < sizeGb
          omega
        · show n < sizeMb
          omega
    · by_cases c2 : n < sizeGb
      · rw [hM] at c1
        rw [hG] at c2
        have hmem : (sizeMb, "Mb") ∈ sizeUnits.zip sizeSuffixes := by rw [hzip]; simp
        have hle : @LE.le Int _ sizeMb n := by rw [hM]; omega
        refine ⟨sizeMb, "Mb", _, hmem, hle, ?_, rfl,
          ParseByteSize_of_unit unicodeToLower parseFloat unfit hlow n sizeMb _ "Mb"
            [(sizeTb, "Tb"), (sizeGb, "Gb")] [(sizeKb, "Kb"), (sizeB, "b")] rfl ?_
            (by omega) (by omega) (by omega) rfl 20 (by decide) (by decide) (by decide)
            (by decide) (hpf sizeMb "Mb" _ hmem hle rfl)⟩
        · exact hall sizeMb (fun w hw h => by omega)
        · intro p hp
          simp only [List.mem_cons, List.mem_singleton, List.not_mem_nil, or_false] at hp
          rcases hp with rfl | rfl
          · show n < sizeTb
            omega
          · show n < sizeGb
            omega
      · by_cases c3 : n < sizeTb
        · rw [hG] at c2
          rw [hT] at c3
          have hmem : (sizeGb, "Gb") ∈ sizeUnits.zip sizeSuffixes := by rw [hzip]; simp
          have hle : @LE.le Int _ sizeGb n := by rw [hG]; omega
          refine ⟨sizeGb, "Gb", _, hmem, hle, ?_, rfl,
            ParseByteSize_of_unit unicodeToLower parseFloat unfit hlow n sizeGb _ "Gb"
              [(sizeTb, "Tb")] [(sizeMb, "Mb"), (sizeKb, "Kb"), (sizeB, "b")] rfl ?_
              (by omega) (by omega) (by omega) rfl 30 (by decide) (by decide) (by decide)
              (by decide) (hpf sizeGb "Gb" _ hmem hle rfl)⟩
          · exact hall sizeGb (fun w hw h => by omega)
          · intro p hp
            simp only [List.mem_cons, List.mem_singleton, List.not_mem_nil, or_false] at hp
            subst hp
            show n < sizeTb
            omega
        · rw [hT] at c3
          have hmem : (sizeTb, "Tb") ∈ sizeUnits.zip sizeSuffixes := by rw [hzip]; simp
          have hle : @LE.le Int _ sizeTb n := by rw [hT]; omega
          refine ⟨sizeTb, "Tb", _, hmem, hle, ?_, rfl,
            ParseByteSize_of_unit unicodeToLower parseFloat unfit hlow n sizeTb _ "Tb"
              [] [(sizeGb, "Gb"), (sizeMb, "Mb"), (sizeKb, "Kb"), (sizeB, "b")] rfl ?_
              (by omega) (by omega) (by omega) rfl 40 (by decide) (by decide) (by decide)
              (by decide) (hpf sizeTb "Tb" _ hmem hle rfl)⟩
          · exact hall sizeTb (fun w hw h => by omega)
          · intro p hp
            simp at hp
  · intro h0 h1
    obtain ⟨err, herr⟩ := hna
    have hd : Int.tdiv MaxInt64 10 = 922337203685477580 := by decide
    rw [hd] at h0
    have hs := byteSize_unavailable n (by omega) h1
    refine ⟨hs, err, ?_⟩
    rw [hs]
    exact ParseByteSize_unavailable unicodeToLower parseFloat unfit hlow err herr

set_option maxRecDepth 8192 in
theorem C23_round_trip_witness :
    (ParseByteSize Char.toLower sampleParseFloat sampleUnfit (ByteSize.String 1023)
          = Except.ok 1023
        ∧ ByteSize.String 1023 = "1,023b")
      ∧ (ByteSize.String 1280 = "1.3Kb"
        ∧ sampleParseFloat "1.3" = Except.ok (Float64.finite false 5854679515581645 (-52))
        ∧ ParseByteSize Char.toLower sampleParseFloat sampleUnfit (ByteSize.String 1280)
          = Except.ok 1331
        ∧ ∃ r : Int,
            ParseByteSize Char.toLower sampleParseFloat sampleUnfit (ByteSize.String 1280)
                = Except.ok r
              ∧ (r - 1280) * 20 * 2 ^ 52 ≤ sizeKb * 2 ^ 52 + 1280 * 20
              ∧ (1280 - r) * 20 * 2 ^ 52 ≤ (sizeKb + 20) * 2 ^ 52 + 1280 * 20)
      ∧ (ByteSize.String 1536 = "1.5Kb"
        ∧ ParseByteSize Char.toLower sampleParseFloat sampleUnfit (ByteSize.String 1536)
          = Except.ok 1536)
      ∧ (ByteSize.String 1048575 = "1,024Kb"
        ∧ ParseByteSize Char.toLower sampleParseFloat sampleUnfit (ByteSize.String 1048575)
          = Except.ok 1048576)
      ∧ (ByteSize.String 922337148709896191 = "838,860.7Tb"
        ∧ ParseByteSize Char.toLower sampleParseFloat sampleUnfit
            (ByteSize.String 922337148709896191) = Except.ok 922337093734314752) := by
  have hzip : sizeUnits.zip sizeSuffixes
      = [(sizeTb, "Tb"), (sizeGb, "Gb"), (sizeMb, "Mb"), (sizeKb, "Kb"), (sizeB, "b")] := rfl
  have hpf : ∀ (n : Int), n = 1023 ∨ n = 1280 → ∀ (u : Int) (suffix : String) (v : Int),
      (u, suffix) ∈ sizeUnits.zip sizeSuffixes → u ≤ n → v = (n * 10 + u / 2) / u →
      v % 10 ≠ 0 →
      ∃ fl, sampleParseFloat (String.mk ((Nat.repr (v / 10).toNat).data
          ++ ['.', Nat.digitChar (v % 10).toNat])) = Except.ok fl
        ∧ fl.IsNearestTenths v.toNat := by
    intro n hn u suffix v hmem hle hv h0
    rw [hzip] at hmem
    simp only [List.mem_cons, List.mem_singleton, List.not_mem_nil, or_false,
      Prod.mk.injEq] at hmem
    rcases hn with rfl | rfl <;>
      rcases hmem with ⟨rfl, -⟩ | ⟨rfl, -⟩ | ⟨rfl, -⟩ | ⟨rfl, -⟩ | ⟨rfl, -⟩
    · exact absurd hle (by decide)
    · exact absurd hle (by decide)
    · exact absurd hle (by decide)
    · exact absurd hle (by decide)
    · have e : v = 10230 := by rw [hv]; decide
      subst e
      exact absurd h0 (by decide)
    · exact absurd hle (by decide)
    · exact absurd hle (by decide)
    · exact absurd hle (by decide)
    · have e : v = 13 := by rw [hv]; decide
      subst e
      exact ⟨Float64.finite false 5854679515581645 (-52), by decide, 5854679515581645, 52,
        rfl, by decide, by decide, by decide, by decide⟩
    · have e : v = 12800 := by rw [hv]; decide
      subst e
      exact absurd h0 (by decide)
  refine ⟨⟨(C23_round_trip Char.toLower sampleParseFloat sampleUnfit 1023 (fun _ _ => rfl)
      ⟨GoError.External "invalid syntax", by decide⟩ (hpf 1023 (Or.inl rfl))).1
      (by decide) (by decide), by decide⟩, ⟨by decide, by decide, by decide, ?_⟩,
    by decide, by decide, by decide⟩
  obtain ⟨u, suffix, v, hmem, hle, hmax, hv, -, -, hfrac⟩ :=
    (C23_round_trip Char.toLower sampleParseFloat sampleUnfit 1280 (fun _ _ => rfl)
      ⟨GoError.External "invalid syntax", by decide⟩ (hpf 1280 (Or.inr rfl))).2.1
      (by decide) (by decide)
  have hk : (sizeKb, "Kb") ∈ sizeUnits.zip sizeSuffixes := by rw [hzip]; simp
  rw [hzip] at hmem
  simp only [List.mem_cons, List.mem_singleton, List.not_mem_nil, or_false,
    Prod.mk.injEq] at hmem
  rcases hmem with ⟨rfl, -⟩ | ⟨rfl, -⟩ | ⟨rfl, -⟩ | ⟨rfl, -⟩ | ⟨rfl, -⟩
  · exact absurd hle (by decide)
  · exact absurd hle (by decide)
  · exact absurd hle (by decide)
  · have e : v = 13 := by rw [hv]; decide
    subst e
    exact hfrac (by decide)
  · exact absurd (hmax sizeKb "Kb" hk (by decide)) (by decide)


/-! ### C19: search -/

/-- The pattern `^([[:alnum:]]+)-([[:digit:]]+)$` in words: one or more ASCII letters or
digits, a hyphen, one or more digits. -/
theorem reJiraIssueKey_iff (q : String) :
    reJiraIssueKey q = true ↔
      ∃ project digits : List Char, q.data = project ++ '-' :: digits ∧ project ≠ [] ∧
        (∀ c ∈ project, ('0' ≤ c ∧ c ≤ '9') ∨ ('A' ≤ c ∧ c ≤ 'Z') ∨ ('a' ≤ c ∧ c ≤ 'z')) ∧
        digits ≠ [] ∧ ∀ c ∈ digits, '0' ≤ c ∧ c ≤ '9' := by
  have hdash : isAlnum '-' = false := by decide
  constructor
  · intro h
    have hsplit := List.takeWhile_append_dropWhile isAlnum q.data
    unfold reJiraIssueKey at h
    cases hd : q.data.dropWhile isAlnum with
    | nil => simp [hd] at h
    | cons c digits =>
      by_cases hc : c = '-'
      · subst hc
        simp only [hd, Bool.and_eq_true, Bool.not_eq_true', List.isEmpty_eq_false,
          List.all_eq_true] at h
        obtain ⟨⟨hp, hdne⟩, hdig⟩ := h
        refine ⟨q.data.takeWhile isAlnum, digits, ?_, ?_, ?_, ?_, ?_⟩
        · rw [← hd, hsplit]
        · intro e
          simp [e] at hp
        · intro x hx
          have := List.mem_takeWhile_imp hx
          simpa [isAlnum] using this
        · intro e
          simp [e] at hdne
        · intro x hx
          have := hdig x hx
          simpa [isDigit] using this
      · rw [hd] at h
        split at h
        · rename_i heq
          simp only [List.cons.injEq] at heq
          exact absurd heq.1 hc
        · exact absurd h (by simp)
  · rintro ⟨project, digits, hq, hp, hal, hd, hdig⟩
    have hal2 : ∀ c ∈ project, isAlnum c = true := by
      intro c hc
      simpa [isAlnum] using hal c hc
    have htake : q.data.takeWhile isAlnum = project := by
      rw [hq, List.takeWhile_append_of_pos hal2]
      simp [List.takeWhile, hdash]
    have hdrop : q.data.dropWhile isAlnum = '-' :: digits := by
      rw [hq, List.dropWhile_append_of_pos hal2]
      simp [List.dropWhile, hdash]
    have hdig2 : digits.all isDigit = true := by
      rw [List.all_eq_true]
      intro c hc
      simpa [isDigit] using hdig c hc
    unfold reJiraIssueKey
    simp only [htake, hdrop, hdig2, Bool.and_true, Bool.and_eq_true, Bool.not_eq_true',
      List.isEmpty_eq_false]
    exact ⟨hp, hd⟩

theorem goLen_pos (s : String) (h : s.data ≠ []) : 0 < goLen s := by
  obtain ⟨data⟩ := s
  cases data with
  | nil => exact absurd rfl h
  | cons c cs =>
    have := Char.utf8Size_pos c
    simp only [goLen, String.utf8ByteSize, String.utf8ByteSize.go]
    omega

/-- C19: `GetSearchIssues` asks for the fields `fields1`, searches with the query `jql1`,
the limit `limit` and the field list `fields`, as given below. For every pair of
results the two calls hand back: when `q` has the shape of an issue key the key is
fetched and the result is the fetched issue, if there is one, followed by the search
results in their order, without deduplication; else only the search runs and the
result is its results. The result is the same whichever goroutine runs first, its length
is that of the search results plus 0 or 1, and the error is nil. A call that aborts
hands back nothing and the whole call aborts. The limit is 50 for an empty `limitStr`
and the number written for a decimal numeral. -/
theorem C19_GetSearchIssues (client : SearchClient)
    (q jqlString fieldsStr limitStr fields1 jql1 : String) (limit : Int)
    (fields : List String)
    (hf1 : fields1 = if goLen fieldsStr = 0 then "key,summary" else fieldsStr)
    (hj : jql1 = if goLen jqlString = 0 then
        "text ~ \"" ++ stringsReplaceAll q (Char.ofNat 0x22) "\\\"" ++ "\" OR text ~ \""
          ++ stringsReplaceAll q (Char.ofNat 0x22) "\\\"" ++ "*\""
      else jqlString)
    (hl : limit = if goLen limitStr > 0 then
        (match strconvAtoi limitStr with
          | Except.ok parsedLimit => parsedLimit
          | Except.error _ => 50)
      else 50)
    (hfs : fields = stringsSplit fields1 ',') :
    (∀ found serr,
      (¬ ∃ project digits : List Char, q.data = project ++ '-' :: digits ∧ project ≠ [] ∧
        (∀ c ∈ project, ('0' ≤ c ∧ c ≤ '9') ∨ ('A' ≤ c ∧ c ≤ 'Z') ∨ ('a' ≤ c ∧ c ≤ 'z')) ∧
        digits ≠ [] ∧ ∀ c ∈ digits, '0' ≤ c ∧ c ≤ '9') →
      client.SearchIssues jql1 limit fields = .ret (found, serr) →
      ∀ exactFirst,
        GetSearchIssues (.ok client) exactFirst q jqlString fieldsStr limitStr =
          .ret ((found, none), [Call.SearchIssues jql1 limit fields])) ∧
    (∀ exact eerr found serr,
      (∃ project digits : List Char, q.data = project ++ '-' :: digits ∧ project ≠ [] ∧
        (∀ c ∈ project, ('0' ≤ c ∧ c ≤ '9') ∨ ('A' ≤ c ∧ c ≤ 'Z') ∨ ('a' ≤ c ∧ c ≤ 'z')) ∧
        digits ≠ [] ∧ ∀ c ∈ digits, '0' ≤ c ∧ c ≤ '9') →
      client.GetIssue q (some fields1) = .ret (exact, eerr) →
      client.SearchIssues jql1 limit fields = .ret (found, serr) →
      (∀ exactFirst,
        GetSearchIssues (.ok client) exactFirst q jqlString fieldsStr limitStr =
          .ret ((exact.toList ++ found, none),
            if exactFirst = true then
              [Call.GetIssue q (some fields1), Call.SearchIssues jql1 limit fields]
            else [Call.SearchIssues jql1 limit fields, Call.GetIssue q (some fields1)])) ∧
      (exact.toList ++ found).length = found.length + (if exact.isSome = true then 1 else 0)) ∧
    (client.SearchIssues jql1 limit fields = .panic →
      ∀ exactFirst,
        GetSearchIssues (.ok client) exactFirst q jqlString fieldsStr limitStr = .panic) ∧
    ((goLen limitStr = 0 → limit = 50) ∧
      ∀ n : Nat, n < 2 ^ 63 → limitStr = Nat.repr n → limit = n) := by
  have hkey := reJiraIssueKey_iff q
  refine ⟨?_, ?_, ?_, ?_, ?_⟩
  · intro found serr hK hS exactFirst
    have hq : reJiraIssueKey q = false := by
      cases h : reJiraIssueKey q with
      | false => rfl
      | true => exact absurd (hkey.mp h) hK
    simp only [GetSearchIssues, GetSearchIssues.search, hq, Bool.false_eq_true, if_false,
      ← hf1, ← hj, ← hl, ← hfs, hS, List.nil_append]
  · intro exact eerr found serr hK hE hS
    have hq : reJiraIssueKey q = true := hkey.mpr hK
    constructor
    · intro exactFirst
      cases exactFirst <;> cases exact <;>
        simp [GetSearchIssues, GetSearchIssues.search, GetSearchIssues.fetchExact, hq,
          ← hf1, ← hj, ← hl, ← hfs, hS, hE]
    · cases exact <;> simp
  · intro hS exactFirst
    cases exactFirst <;> cases hq : reJiraIssueKey q <;>
      cases hE : client.GetIssue q (some fields1) <;>
      simp [GetSearchIssues, GetSearchIssues.search, GetSearchIssues.fetchExact, hq,
        ← hf1, ← hj, ← hl, ← hfs, hS, hE]
  · intro h0
    rw [hl, if_neg (by omega)]
  · intro n hn hrepr
    have hpos : goLen limitStr > 0 := by
      rw [hrepr]
      exact goLen_pos _ (repr_ne_nil n)
    have hparse : strconvAtoi limitStr = Except.ok (n : Int) := by
      rw [hrepr]
      exact strconvParseInt_repr n hn
    rw [hl, if_pos hpos, hparse]

/-- C19 at the sample client. The query `KEY-1` is a key: the issue is fetched with the
fields `key,summary` and comes first, the search runs with the limit 5 written `+5`. The
query `say "hi"` is no key: only the search runs, with the quotes escaped and the
limit 50, which `-` leaves in place. -/
theorem C19_GetSearchIssues_witness :
    GetSearchIssues (.ok sampleSearchClient) true "KEY-1" "" "" "+5" =
      .ret (([⟨"KEY-1", "summary"⟩, ⟨"KEY-2", "other"⟩], none),
        [Call.GetIssue "KEY-1" (some "key,summary"),
          Call.SearchIssues "text ~ \"KEY-1\" OR text ~ \"KEY-1*\"" 5 ["key", "summary"]]) ∧
    GetSearchIssues (.ok sampleSearchClient) false "KEY-1" "" "" "+5" =
      .ret (([⟨"KEY-1", "summary"⟩, ⟨"KEY-2", "other"⟩], none),
        [Call.SearchIssues "text ~ \"KEY-1\" OR text ~ \"KEY-1*\"" 5 ["key", "summary"],
          Call.GetIssue "KEY-1" (some "key,summary")]) ∧
    GetSearchIssues (.ok sampleSearchClient) true "say \"hi\"" "" "key" "-" =
      .ret (([⟨"KEY-2", "other"⟩], none),
        [Call.SearchIssues "text ~ \"say \\\"hi\\\"\" OR text ~ \"say \\\"hi\\\"*\"" 50
          ["key"]]) ∧
    GetSearchIssues (.ok { sampleSearchClient with SearchIssues := fun _ _ _ => .panic })
      true "KEY-1" "" "" "" = .panic ∧
    reJiraIssueKey "KEY-" = false ∧ reJiraIssueKey "-1" = false ∧
    reJiraIssueKey "KEY-1x" = false ∧ reJiraIssueKey "A_B-1" = false ∧
    reJiraIssueKey "k2-07" = true :=
  ⟨(((C19_GetSearchIssues sampleSearchClient "KEY-1" "" "" "+5" "key,summary"
      "text ~ \"KEY-1\" OR text ~ \"KEY-1*\"" 5 ["key", "summary"] (by decide) (by decide)
      (by decide) (by decide)).2.1 (some ⟨"KEY-1", "summary"⟩) none [⟨"KEY-2", "other"⟩] none
      ⟨['K', 'E', 'Y'], ['1'], by decide, by decide, by decide, by decide, by decide⟩
      rfl rfl).1 true).trans (by decide),
    by decide, by decide, by decide, by decide, by decide, by decide, by decide, by decide⟩


end Jira
